import Mathlib

/-!
# Verification development for the `brinick/github` client library

A shallow embedding of the caching HTTP transport (`client/cachedclient`), the page
iterator (`client/common.go`) and the typed iterators (`object/*.go`).

Conventions of the embedding:

* a Go `string` is a Lean `String`; the functions of the Go `strings` package are
  modelled on the underlying character lists;
* a Go pointer that may be `nil` is an `Option`;
* a Go `int` that only ever holds a status code or an index is an `Int` or a `Nat`;
* every operation that can end in a runtime panic returns a `Res`, together with the
  state of the receiver at the time of the return or of the panic.
-/

namespace Github

/-! ## Results of running Go code -/

/-- Outcome of running a Go function: it returns a value, or the goroutine panics
(nil dereference, index out of range, write to a nil map). -/
inductive Res (α : Type) where
  | val : α → Res α
  | panic : Res α
  deriving DecidableEq, Repr

/-- Go `error` values. Sentinel variables of the repository are compared by identity in the
code, so each gets a constructor of its own; `New` stands for the values built by
`errors.New` and `fmt.Errorf`, `external` for errors produced outside the repository
(transport failures, `ctx.Err()`, file system errors). -/
inductive Error where
  | NoMorePages
  | errInexistantCache
  | ErrNilTokenRetriever
  | New (msg : String)
  | external (msg : String)
  deriving DecidableEq, Repr

/-! ## The Go `strings` functions used by the client -/

namespace strings

/-- Go `unicode.IsSpace`: the characters `strings.TrimSpace` removes. -/
def isSpace (c : Char) : Bool :=
  c = '\t' || c = '\n' || c.toNat = 0x0B || c.toNat = 0x0C || c = '\r' || c = ' ' ||
  c.toNat = 0x85 || c.toNat = 0xA0 || c.toNat = 0x1680 ||
  (0x2000 ≤ c.toNat && c.toNat ≤ 0x200A) ||
  c.toNat = 0x2028 || c.toNat = 0x2029 || c.toNat = 0x202F || c.toNat = 0x205F ||
  c.toNat = 0x3000

/-- Go `strings.Split(s, sep)` for a one-character separator: the pieces between the
occurrences of `sep`; a string without `sep` (also the empty one) gives one piece. -/
def Split (sep : Char) : List Char → List (List Char)
  | [] => [[]]
  | c :: cs =>
    match Split sep cs with
    | [] => [[]]
    | p :: ps => if c = sep then [] :: p :: ps else (c :: p) :: ps

/-- Removes the trailing characters satisfying `f`. -/
def trimRight (f : Char → Bool) (s : List Char) : List Char :=
  ((s.reverse).dropWhile f).reverse

/-- Go `strings.TrimSpace`: leading and trailing white space removed. -/
def TrimSpace (s : List Char) : List Char :=
  trimRight isSpace (s.dropWhile isSpace)

/-- Go `strings.Trim(s, cutset)`: leading and trailing characters of `cutset` removed. -/
def Trim (s : List Char) (cutset : List Char) : List Char :=
  trimRight (fun c => cutset.contains c) (s.dropWhile (fun c => cutset.contains c))

/-- Go `strings.HasPrefix(s, pre)`. -/
def HasPrefix (s pre : List Char) : Bool :=
  pre.isPrefixOf s

end strings

/-! ## `client/cachedclient/client.go`: the Link header -/

/-- The loop of `parseNextLink` over the comma-separated pieces. `tokens[1]` is read
without a length check: a piece without `;` ends in an index-out-of-range panic. -/
def parseNextLinkLoop : List (List Char) → Res String
  | [] => Res.val ""
  | link :: links =>
    match strings.Split ';' link with
    | url :: what :: _ =>
      if strings.HasPrefix (strings.TrimSpace what) "rel=\"next\"".data then
        Res.val (String.mk (strings.Trim (strings.TrimSpace url) "<>".data))
      else parseNextLinkLoop links
    | _ => Res.panic

/-- Source function `parseNextLink` of `client/cachedclient/client.go`. -/
def parseNextLink (nextLink : String) : Res String :=
  if nextLink = "" then Res.val ""
  else parseNextLinkLoop (strings.Split ',' nextLink.data)

/-! ## `client/common.go`: pages and payloads -/

/-- Source type `Payload` of `client/common.go` (one "page" of data); it is also the
value type of the cache. -/
structure Payload where
  Data : String := ""
  ETag : String := ""
  LastModified : String := ""
  NextLink : String := ""
  deriving DecidableEq, Repr

/-- Source method `(*Payload).Empty`; the receiver may be the nil pointer. -/
def Payload.Empty (p : Option Payload) : Bool :=
  match p with
  | none => true
  | some p => p.Data = "" || p.Data = "[]"

/-- Source type `Page` of `client/common.go`. A field left out of a Go composite literal
holds its zero value, as the defaults here. -/
structure Page where
  URL : String := ""
  Content : Option Payload := none
  Err : Option Error := none
  StatusCode : Int := 0
  deriving DecidableEq, Repr

/-- Source method `(*Page).NoContent`. -/
def Page.NoContent (p : Page) : Bool :=
  Payload.Empty p.Content

/-- Source method `(*Page).IsLast`: it reads `p.Content.NextLink`, which panics when
`Content` is nil. -/
def Page.IsLast (p : Page) : Res Bool :=
  match p.Content with
  | none => Res.panic
  | some c => Res.val (decide (c.NextLink = ""))

/-- A Go `context.Context` at the time it is consulted: `Err` is the result of `ctx.Err()`,
non-nil exactly when the `Done` channel is closed. -/
structure Context where
  Err : Option Error := none
  deriving DecidableEq, Repr

/-- Go `context.TODO()`: never cancelled. -/
def Context.TODO : Context := {}

/-! ## `authorisation/token.go` and the header helpers -/

/-- A Go `map[string]string` that has been allocated. -/
abbrev StringMap := String → Option String

/-- Assignment `m[k] = v` on an allocated map. -/
def StringMap.set (m : StringMap) (k v : String) : StringMap :=
  fun x => if x = k then some v else m x

/-- Source constant `APIURLs` of `constants.go`. -/
structure API where
  URL : String
  STABLE : String
  PREVIEW : String

/-- The value of `github.APIURLs`. -/
def APIURLs : API :=
  { URL := "https://api.github.com"
    STABLE := "application/vnd.github.v3+json"
    PREVIEW := "application/vnd.github.korra-preview" }

/-- Source type `GithubToken` (the `apiCalls` field is never read). -/
structure GithubToken where
  value : String
  deriving DecidableEq, Repr

/-- A non-nil value of the interface `TokenRetriever`, seen through the one method the
headers use: `Token` is what calling `Token()` on it does. -/
structure TokenRetriever where
  Token : Res String

/-- The interface value Go builds from a `*GithubToken`: it is never the nil interface,
and `(*GithubToken).Token` reads `gt.value`, a nil dereference for the nil pointer. -/
def GithubToken.asRetriever (p : Option GithubToken) : Option TokenRetriever :=
  some { Token := match p with
                  | none => Res.panic
                  | some t => Res.val t.value }

/-- Source function `authorisation.Headers`. The map is `none` for Go's nil map. -/
def Headers (tr : Option TokenRetriever) (useStableAPI : Bool) :
    Res (Option StringMap × Option Error) :=
  match tr with
  | none => Res.val (none, some Error.ErrNilTokenRetriever)
  | some t =>
    let acceptVal := "" ++ (if useStableAPI then APIURLs.STABLE else APIURLs.PREVIEW)
    match t.Token with
    | Res.panic => Res.panic
    | Res.val tok =>
      let tokenVal := "token " ++ tok
      Res.val (some (fun k => if k = "Accept" then some acceptVal
                              else if k = "Authorization" then some tokenVal
                              else none), none)

/-- One conditional assignment of `GetHeaders`: `if v != "" { headers[k] = v }`; writing
into the nil map panics. -/
def setIfNonEmpty (headers : Option StringMap) (k v : String) : Res (Option StringMap) :=
  if v = "" then Res.val headers
  else match headers with
    | none => Res.panic
    | some m => Res.val (some (m.set k v))

/-- Source function `client.GetHeaders`. `client.go` reads a map and an error from it, so the
error of `Headers` is handed through; the two conditional headers are written into the map
`Headers` returned. -/
def GetHeaders (tr : Option TokenRetriever) (useStableAPI : Bool) (etag lastModified : String) :
    Res (Option StringMap × Option Error) :=
  match Headers tr useStableAPI with
  | Res.panic => Res.panic
  | Res.val (headers, err) =>
    match setIfNonEmpty headers "If-None-Match" etag with
    | Res.panic => Res.panic
    | Res.val headers1 =>
      match setIfNonEmpty headers1 "If-Modified-Since" lastModified with
      | Res.panic => Res.panic
      | Res.val headers2 => Res.val (headers2, err)

/-! ## `client/cachedclient/cache.go` -/

/-- Source type `CacheData`: an allocated `map[string]client.Payload`. -/
abbrev CacheData := String → Option Payload

/-- Source type `PickledCache`. `Data` is `none` for the nil map. -/
structure PickledCache where
  Path : String
  Data : Option CacheData

/-- What a file holds: the value `Save` handed to the gob encoder, or other bytes. -/
inductive FileContent where
  | gob (d : Option CacheData)
  | raw (bytes : String)

/-- The file system as the cache meets it: the content of the file at each path, and the
errors the next `os.Create` and the next gob `Encode` report, if they fail. -/
structure FileSystem where
  files : String → Option FileContent
  createErr : Option Error := none
  encodeErr : Option Error := none

/-- Source method `(*PickledCache).get`: a lookup in a nil map finds nothing, and a key
that is not found comes with the zero `Payload`. -/
def PickledCache.get (pc : PickledCache) (key : String) : Payload × Bool :=
  match pc.Data with
  | none => ({}, false)
  | some m =>
    match m key with
    | none => ({}, false)
    | some v => (v, true)

/-- Source method `PickledCache.Save`: the file is created (truncated) and the whole
map is encoded into it. -/
def PickledCache.Save (pc : PickledCache) (fs : FileSystem) : Option Error × FileSystem :=
  match fs.createErr with
  | some e => (some e, fs)
  | none =>
    match fs.encodeErr with
    | some e =>
      (some e, { fs with files := fun p => if p = pc.Path then some (FileContent.raw "")
                                           else fs.files p })
    | none =>
      (none, { fs with files := fun p => if p = pc.Path then some (FileContent.gob pc.Data)
                                         else fs.files p })

/-- The loop `for key, val := range d { pc.Data[key] = val }` on an allocated map. -/
def CacheData.putAll (m : CacheData) (d : List (String × Payload)) : CacheData :=
  d.foldl (fun acc kv => fun x => if x = kv.1 then some kv.2 else acc x) m

/-- Source method `(*PickledCache).update`; `d` lists the entries of the map argument.
Writing an entry into a nil `Data` panics; the error of `Save` is dropped. -/
def PickledCache.update (pc : PickledCache) (d : List (String × Payload)) (save : Bool)
    (fs : FileSystem) : Res Unit × PickledCache × FileSystem :=
  match pc.Data, d with
  | none, _ :: _ => (Res.panic, pc, fs)
  | none, [] => (Res.val (), pc, if save then (pc.Save fs).2 else fs)
  | some m, _ =>
    let pc1 : PickledCache := { pc with Data := some (CacheData.putAll m d) }
    (Res.val (), pc1, if save then (pc1.Save fs).2 else fs)

/-- Source method `(*PickledCache).delete`: a no-op when the key is absent, also on the
nil map. -/
def PickledCache.delete (pc : PickledCache) (key : String) : PickledCache :=
  { pc with Data := pc.Data.map (fun m => fun x => if x = key then none else m x) }

/-- Source method `(*PickledCache).generateCacheID`. The names and values are written into
the hash in order; `sha1hex` is the SHA-1 digest of the bytes written, rendered by `%x`
(Go's `crypto/sha1`, not part of the repository). -/
def PickledCache.generateCacheID (_pc : PickledCache) (sha1hex : String → String)
    (entries : List (String × String)) : String :=
  sha1hex (entries.foldl (fun acc e => acc ++ e.1 ++ e.2) "")

/-! ## `client/cachedclient/client.go`: the cached GET -/

/-- The parts of a Go `*http.Request` the client sets. -/
structure Request where
  Method : String
  URL : String
  Header : StringMap := fun _ => none
  ctx : Option Context := none
  Body : Option String := none

/-- The parts of a Go `*http.Response` the client reads: `Body` is what
`ioutil.ReadAll(resp.Body)` returns. -/
structure Response where
  StatusCode : Int
  Header : String → List String
  Body : Except Error String

/-- Go `resp.Header.Get(key)`: the first value stored for the header, or `""`. The
function `Header` is indexed by the name the code passes. -/
def Response.HeaderGet (r : Response) (key : String) : String :=
  match r.Header key with
  | [] => ""
  | v :: _ => v

/-- Go's `net/http` as the client uses it (outside the repository): `parses` tells whether
`http.NewRequest` accepts the URL, `Do` is `(&http.Client{}).Do`. -/
structure HTTP where
  parses : String → Bool
  Do : Request → Except Error Response

/-- Go `http.NewRequest(method, url, nil)`; the client drops its error, and the request
is nil when there is one. -/
def HTTP.NewRequest (http : HTTP) (method url : String) : Option Request :=
  if http.parses url then some { Method := method, URL := url } else none

/-- The statement `if ctx != nil { req = req.WithContext(ctx) }`: `WithContext` copies
`*req`, a nil dereference when the request is nil. -/
def withContext (req : Option Request) (ctx : Option Context) : Res (Option Request) :=
  match ctx, req with
  | none, _ => Res.val req
  | some _, none => Res.panic
  | some cx, some r => Res.val (some { r with ctx := some cx })

/-- The loop `for key, val := range headers { req.Header.Set(key, val) }` followed by the
use of the request by `Do`: both dereference the request. -/
def setHeaders (req : Option Request) (headers : Option StringMap) : Res Request :=
  match req with
  | none => Res.panic
  | some r =>
    match headers with
    | none => Res.val r
    | some m => Res.val { r with Header := m }

/-- The status codes of `net/http` the client names. -/
def StatusOK : Int := 200
/-- Go `http.StatusNoContent`. -/
def StatusNoContent : Int := 204
/-- Go `http.StatusNotModified`. -/
def StatusNotModified : Int := 304
/-- Go `http.StatusForbidden`. -/
def StatusForbidden : Int := 403
/-- Go `http.StatusNotFound`. -/
def StatusNotFound : Int := 404

/-- Source type `PickledCachedClient`. The cache is held by pointer: it is part of the
state the methods change. -/
structure PickledCachedClient where
  APIToken : Option GithubToken
  APIURL : String
  cache : PickledCache

/-- The cache key `GetWithContext` computes for a URL (lines 199-201). -/
def PickledCachedClient.cacheKey (sha1hex : String → String) (c : PickledCachedClient)
    (url : String) : String :=
  c.cache.generateCacheID sha1hex [("url", url)]

/-- First part of `GetWithContext` (lines 199-245): look the URL up in the cache, build the
request with the conditional headers, and send it. The result is the page of an early
return (`Sum.inl`) or the response received (`Sum.inr`). -/
def PickledCachedClient.roundTrip (sha1hex : String → String) (http : HTTP)
    (c : PickledCachedClient) (ctx : Option Context) (url : String) (useStableAPI : Bool) :
    Res (Page ⊕ Response) :=
  let cacheKey := c.cacheKey sha1hex url
  let cacheValue := (c.cache.get cacheKey).1
  let keyFound := (c.cache.get cacheKey).2
  let etag := if keyFound then cacheValue.ETag else ""
  let last := if keyFound then cacheValue.LastModified else ""
  match withContext (http.NewRequest "GET" url) ctx with
  | Res.panic => Res.panic
  | Res.val req =>
    match GetHeaders (GithubToken.asRetriever c.APIToken) useStableAPI etag last with
    | Res.panic => Res.panic
    | Res.val (_, some err) => Res.val (Sum.inl { URL := url, Err := some err })
    | Res.val (headers, none) =>
      match setHeaders req headers with
      | Res.panic => Res.panic
      | Res.val req1 =>
        match http.Do req1 with
        | Except.error err =>
          match ctx with
          | none => Res.panic
          | some cx =>
            match cx.Err with
            | some cerr => Res.val (Sum.inl { URL := url, Err := some cerr })
            | none => Res.val (Sum.inl { URL := url, Err := some err })
        | Except.ok resp => Res.val (Sum.inr resp)

/-- Second part of `GetWithContext` (lines 252-369): the classification of the response. -/
def PickledCachedClient.onResponse (sha1hex : String → String) (c : PickledCachedClient)
    (fs : FileSystem) (url : String) (resp : Response) :
    Res Page × PickledCachedClient × FileSystem :=
  let cacheKey := c.cacheKey sha1hex url
  let cacheValue := (c.cache.get cacheKey).1
  let keyFound := (c.cache.get cacheKey).2
  let etag := if keyFound then cacheValue.ETag else ""
  let last := if keyFound then cacheValue.LastModified else ""
  let statusCode := resp.StatusCode
  if statusCode = StatusNotModified then
    (Res.val { URL := url
               Content := some { Data := cacheValue.Data, ETag := etag
                                 LastModified := last, NextLink := cacheValue.NextLink }
               StatusCode := StatusNotModified }, c, fs)
  else
    let c1 : PickledCachedClient := { c with cache := c.cache.delete cacheKey }
    if statusCode = StatusNotFound then
      (Res.val { URL := url, Err := some (Error.New "Not found")
                 StatusCode := StatusNotFound }, c1, fs)
    else if statusCode = StatusForbidden then
      (Res.val { URL := url, Err := some (Error.New "Forbidden")
                 StatusCode := StatusForbidden }, c1, fs)
    else if statusCode = StatusOK then
      match resp.Body with
      | Except.error _ =>
        (Res.val { URL := url, Err := some (Error.New "Unable to read HTTP response body")
                   StatusCode := StatusOK }, c1, fs)
      | Except.ok payload =>
        match parseNextLink (resp.HeaderGet "Link") with
        | Res.panic => (Res.panic, c1, fs)
        | Res.val nextLink =>
          let newValue : Payload :=
            { Data := payload, ETag := resp.HeaderGet "ETag"
              LastModified := resp.HeaderGet "Last-Modified", NextLink := nextLink }
          match c1.cache.update [(cacheKey, newValue)] true fs with
          | (Res.panic, pc, fs1) => (Res.panic, { c1 with cache := pc }, fs1)
          | (Res.val _, pc, fs1) =>
            (Res.val { URL := url, Content := some newValue, StatusCode := StatusOK },
             { c1 with cache := pc }, fs1)
    else if statusCode = StatusNoContent then
      let newValue : Payload :=
        { Data := "", ETag := resp.HeaderGet "ETag"
          LastModified := resp.HeaderGet "Last-Modified" }
      match c1.cache.update [(cacheKey, newValue)] true fs with
      | (Res.panic, pc, fs1) => (Res.panic, { c1 with cache := pc }, fs1)
      | (Res.val _, pc, fs1) =>
        (Res.val { Content := some newValue, StatusCode := StatusNoContent },
         { c1 with cache := pc }, fs1)
    else
      (Res.val { Err := some (Error.New ("HTTP GET request returned status code " ++
                                          toString statusCode))
                 StatusCode := statusCode }, c1, fs)

/-- Source method `(*PickledCachedClient).GetWithContext`: the page returned (or a panic),
with the client and the file system as the call leaves them. -/
def PickledCachedClient.GetWithContext (sha1hex : String → String) (http : HTTP)
    (c : PickledCachedClient) (fs : FileSystem) (ctx : Option Context) (url : String)
    (useStableAPI : Bool) : Res Page × PickledCachedClient × FileSystem :=
  match c.roundTrip sha1hex http ctx url useStableAPI with
  | Res.panic => (Res.panic, c, fs)
  | Res.val (Sum.inl page) => (Res.val page, c, fs)
  | Res.val (Sum.inr resp) => c.onResponse sha1hex fs url resp

/-! ## `client/common.go`: the page iterator -/

/-- Source interface `PageGetter`, through the method the iterators call. The getter owns a
state of type `σ` (for the cached client: the client and the file system); it returns a
page pointer, possibly nil, or panics. -/
structure PageGetter (σ : Type) where
  GetWithContext : σ → Option Context → String → Bool → Res (Option Page) × σ

/-- Source type `GithubPageIterator`; the getter `g` is passed to the methods. -/
structure GithubPageIterator where
  err : Option Error := none
  StartURL : String
  Current : Option Page := none
  deriving DecidableEq, Repr

/-- Source function `NewGithubPageIterator`. -/
def NewGithubPageIterator (startURL : String) : GithubPageIterator :=
  { StartURL := startURL }

/-- Source method `(*GithubPageIterator).Error`. -/
def GithubPageIterator.Error (i : GithubPageIterator) : Option Error :=
  i.err

/-- Lines 59-68 of `NextWithContext`: the URL to request next, `none` when the method
returns nil because the current page is last. -/
def GithubPageIterator.nextURL (i : GithubPageIterator) : Res (Option String) :=
  match i.Current with
  | none => Res.val (some i.StartURL)
  | some cur =>
    match cur.IsLast with
    | Res.panic => Res.panic
    | Res.val true => Res.val none
    | Res.val false =>
      match cur.Content with
      | none => Res.panic
      | some content => Res.val (some content.NextLink)

/-- Source method `(*GithubPageIterator).NextWithContext`. Besides the page returned, the
iterator and the getter's state, the result lists the URLs requested from the getter
during the call. A nil page from the getter is stored as `Current` before `page.Err`
dereferences it. -/
def GithubPageIterator.NextWithContext {σ : Type} (g : PageGetter σ) (i : GithubPageIterator)
    (s : σ) (ctx : Option Context) : Res (Option Page) × GithubPageIterator × σ × List String :=
  match i.nextURL with
  | Res.panic => (Res.panic, i, s, [])
  | Res.val none => (Res.val none, i, s, [])
  | Res.val (some url) =>
    match g.GetWithContext s ctx url true with
    | (Res.panic, s1) => (Res.panic, i, s1, [url])
    | (Res.val none, s1) => (Res.panic, { i with Current := none }, s1, [url])
    | (Res.val (some page), s1) =>
      (Res.val (some page), { i with Current := some page, err := page.Err }, s1, [url])

/-- The cached client as a `PageGetter`: its state is the client with the file system. -/
def PickledCachedClient.pageGetter (sha1hex : String → String) (http : HTTP) :
    PageGetter (PickledCachedClient × FileSystem) :=
  { GetWithContext := fun s ctx url useStableAPI =>
      match s.1.GetWithContext sha1hex http s.2 ctx url useStableAPI with
      | (Res.panic, c1, fs1) => (Res.panic, (c1, fs1))
      | (Res.val page, c1, fs1) => (Res.val (some page), (c1, fs1)) }

/-! ## `object/*.go`: the typed iterators -/

/-- Source type `branchesIterator` of `object/branch.go`. The types `commitsIterator`,
`commitStatusesIterator`, `issuesIterator`, `issueCommentsIterator`, `teamsIterator` and
`teamMembersIterator` are the same text over another element type `T`, and so are their
methods `Item`, `HasNext`, `Next`, `NextWithContext`, `load` and `nextPage`. A slice
`[]*T` is a list of optional elements, `none` as a slice being the nil slice. -/
structure branchesIterator (T : Type) where
  Err : Option Error := none
  it : GithubPageIterator
  currentPage : Option (List (Option T)) := none
  current : Option T := none
  currentIndex : Nat := 0

/-- Source method `Item`. -/
def branchesIterator.Item {T : Type} (i : branchesIterator T) : Option T :=
  i.current

/-- Source method `nextPage`. The parameter `parseJSON` is Go's `json.Unmarshal` into a nil
`[]*T` as `parseJSON(data, &items)` uses it: the value `items` holds afterwards (`none`
when it is left nil); its error is dropped by the caller. -/
def branchesIterator.nextPage {T σ : Type} (parseJSON : String → Option (List (Option T)))
    (g : PageGetter σ) (i : branchesIterator T) (s : σ) (ctx : Option Context) :
    Res (Option (List (Option T)) × Option Error) × branchesIterator T × σ × List String :=
  match i.it.NextWithContext g s ctx with
  | (Res.panic, it1, s1, reqs) => (Res.panic, { i with it := it1 }, s1, reqs)
  | (Res.val none, it1, s1, reqs) =>
    (Res.val (none, some Error.NoMorePages), { i with it := it1 }, s1, reqs)
  | (Res.val (some page), it1, s1, reqs) =>
    if page.NoContent then
      (Res.val (none, some Error.NoMorePages), { i with it := it1 }, s1, reqs)
    else
      match page.Err, page.Content with
      | none, none => (Res.panic, { i with it := it1 }, s1, reqs)
      | none, some content =>
        (Res.val (parseJSON content.Data, it1.Error), { i with it := it1 }, s1, reqs)
      | some _, _ => (Res.val (none, it1.Error), { i with it := it1 }, s1, reqs)

/-- Source method `load`; the result is the error returned. -/
def branchesIterator.load {T σ : Type} (parseJSON : String → Option (List (Option T)))
    (g : PageGetter σ) (i : branchesIterator T) (s : σ) (ctx : Option Context) :
    Res (Option Error) × branchesIterator T × σ × List String :=
  match i.nextPage parseJSON g s ctx with
  | (Res.panic, i1, s1, reqs) => (Res.panic, i1, s1, reqs)
  | (Res.val (items, err), i1, s1, reqs) =>
    let i2 : branchesIterator T := { i1 with currentPage := items }
    if err ≠ none ∧ err ≠ some Error.NoMorePages then
      (Res.val err, { i2 with Err := err }, s1, reqs)
    else
      (Res.val err, { i2 with currentIndex := 0 }, s1, reqs)

/-- Go `len` of a slice: 0 for the nil slice. -/
def sliceLen {α : Type} (xs : Option (List α)) : Nat :=
  match xs with
  | none => 0
  | some l => l.length

/-- Go `xs[k]` on a slice: an index out of range panics. -/
def sliceIndex {α : Type} (xs : Option (List α)) (k : Nat) : Res α :=
  match xs with
  | none => Res.panic
  | some l =>
    match l[k]? with
    | none => Res.panic
    | some x => Res.val x

/-- Source method `NextWithContext` of the typed iterators. -/
def branchesIterator.NextWithContext {T σ : Type}
    (parseJSON : String → Option (List (Option T))) (g : PageGetter σ)
    (i : branchesIterator T) (s : σ) (ctx : Option Context) :
    Res Unit × branchesIterator T × σ × List String :=
  if i.Err ≠ none then (Res.val (), { i with current := none }, s, [])
  else
    let loaded : Res (Option Error) × branchesIterator T × σ × List String :=
      if i.currentPage.isNone ∨ i.currentIndex = sliceLen i.currentPage then
        i.load parseJSON g s ctx
      else (Res.val none, i, s, [])
    match loaded with
    | (Res.panic, i1, s1, reqs) => (Res.panic, i1, s1, reqs)
    | (Res.val (some _), i1, s1, reqs) => (Res.val (), { i1 with current := none }, s1, reqs)
    | (Res.val none, i1, s1, reqs) =>
      match sliceIndex i1.currentPage i1.currentIndex with
      | Res.panic => (Res.panic, i1, s1, reqs)
      | Res.val x =>
        (Res.val (), { i1 with current := x, currentIndex := i1.currentIndex + 1 }, s1, reqs)

/-- Source method `HasNext`: `NextWithContext(context.TODO())`, then `i.current != nil`. -/
def branchesIterator.HasNext {T σ : Type}
    (parseJSON : String → Option (List (Option T))) (g : PageGetter σ)
    (i : branchesIterator T) (s : σ) : Res Bool × branchesIterator T × σ × List String :=
  match i.NextWithContext parseJSON g s (some Context.TODO) with
  | (Res.panic, i1, s1, reqs) => (Res.panic, i1, s1, reqs)
  | (Res.val _, i1, s1, reqs) => (Res.val i1.current.isSome, i1, s1, reqs)

/-- The loop `for it.HasNext() { ... it.Item() ... }` callers run (as `HasStatus` does),
collecting the items: at most `fuel` calls of `HasNext`; `none` when the loop has not
ended after that many calls. The result carries the items seen, the iterator, the getter's
state and the URLs requested. -/
def branchesIterator.drain {T σ : Type}
    (parseJSON : String → Option (List (Option T))) (g : PageGetter σ) :
    Nat → branchesIterator T → σ →
      Option (Res (List (Option T)) × branchesIterator T × σ × List String)
  | 0, _, _ => none
  | fuel + 1, i, s =>
    match i.HasNext parseJSON g s with
    | (Res.panic, i1, s1, reqs) => some (Res.panic, i1, s1, reqs)
    | (Res.val false, i1, s1, reqs) => some (Res.val [], i1, s1, reqs)
    | (Res.val true, i1, s1, reqs) =>
      match branchesIterator.drain parseJSON g fuel i1 s1 with
      | none => none
      | some (Res.panic, i2, s2, reqs2) => some (Res.panic, i2, s2, reqs ++ reqs2)
      | some (Res.val items, i2, s2, reqs2) =>
        some (Res.val (i1.Item :: items), i2, s2, reqs ++ reqs2)

/-- A getter that serves a fixed sequence of pages, one per call whatever the URL asked
for; its state is the list of pages not served yet, and it returns nil once they are
used up. -/
def scriptedGetter : PageGetter (List Page) :=
  { GetWithContext := fun s _ _ _ =>
      match s with
      | [] => (Res.val none, [])
      | p :: ps => (Res.val (some p), ps) }

/-- Source method `Next` of the typed iterators: `i.NextWithContext(context.TODO())`. -/
def branchesIterator.Next {T σ : Type}
    (parseJSON : String → Option (List (Option T))) (g : PageGetter σ)
    (i : branchesIterator T) (s : σ) : Res Unit × branchesIterator T × σ × List String :=
  i.NextWithContext parseJSON g s (some Context.TODO)

/-- Source method `HasNextWithContext` of `branchesIterator`, and with the same text of
`issuesIterator`, `issueCommentsIterator`, `teamsIterator` and `teamMembersIterator`:
`NextWithContext(ctx)`, then `i.current != nil`. The context is only handed on. -/
def branchesIterator.HasNextWithContext {T σ : Type}
    (parseJSON : String → Option (List (Option T))) (g : PageGetter σ)
    (i : branchesIterator T) (s : σ) (ctx : Option Context) :
    Res Bool × branchesIterator T × σ × List String :=
  match i.NextWithContext parseJSON g s ctx with
  | (Res.panic, i1, s1, reqs) => (Res.panic, i1, s1, reqs)
  | (Res.val _, i1, s1, reqs) => (Res.val i1.current.isSome, i1, s1, reqs)

/-- Source method `HasNextWithContext` of `commitsIterator`, and with the same text of
`commitStatusesIterator` (both have the fields and the other methods of
`branchesIterator`): `NextWithContext(ctx)`, then a `select` on `ctx.Done()` that sets
`Err` to `ctx.Err()` and returns false when the context is done. Calling `Done` on a nil
context panics. -/
def commitsIterator.HasNextWithContext {T σ : Type}
    (parseJSON : String → Option (List (Option T))) (g : PageGetter σ)
    (i : branchesIterator T) (s : σ) (ctx : Option Context) :
    Res Bool × branchesIterator T × σ × List String :=
  match i.NextWithContext parseJSON g s ctx with
  | (Res.panic, i1, s1, reqs) => (Res.panic, i1, s1, reqs)
  | (Res.val _, i1, s1, reqs) =>
    match ctx with
    | none => (Res.panic, i1, s1, reqs)
    | some cx =>
      match cx.Err with
      | some cerr => (Res.val false, { i1 with Err := some cerr }, s1, reqs)
      | none => (Res.val i1.current.isSome, i1, s1, reqs)

/-! ## `object/pullrequest.go`: the iterator over pull requests -/

/-- Source type `pullsIterator` of `object/pullrequest.go`, over the element type `T`
(`PullRequest`). -/
structure pullsIterator (T : Type) where
  Err : Option Error := none
  it : GithubPageIterator
  currentPage : Option (List (Option T)) := none
  current : Option T := none
  currentIndex : Nat := 0

/-- Source method `(*pullsIterator).Item`. -/
def pullsIterator.Item {T : Type} (i : pullsIterator T) : Option T :=
  i.current

/-- Source method `(*pullsIterator).nextPage`: a nil page is `NoMorePages`, a page without
content is the error `No content (status N)`. -/
def pullsIterator.nextPage {T σ : Type} (parseJSON : String → Option (List (Option T)))
    (g : PageGetter σ) (i : pullsIterator T) (s : σ) (ctx : Option Context) :
    Res (Option (List (Option T)) × Option Error) × pullsIterator T × σ × List String :=
  match i.it.NextWithContext g s ctx with
  | (Res.panic, it1, s1, reqs) => (Res.panic, { i with it := it1 }, s1, reqs)
  | (Res.val none, it1, s1, reqs) =>
    (Res.val (none, some Error.NoMorePages), { i with it := it1 }, s1, reqs)
  | (Res.val (some page), it1, s1, reqs) =>
    if page.NoContent then
      (Res.val (none, some (Error.New ("No content (status " ++ toString page.StatusCode ++
        ")"))), { i with it := it1 }, s1, reqs)
    else
      match page.Err, page.Content with
      | none, none => (Res.panic, { i with it := it1 }, s1, reqs)
      | none, some content =>
        (Res.val (parseJSON content.Data, it1.Error), { i with it := it1 }, s1, reqs)
      | some _, _ => (Res.val (none, it1.Error), { i with it := it1 }, s1, reqs)

/-- Source method `(*pullsIterator).load`. -/
def pullsIterator.load {T σ : Type} (parseJSON : String → Option (List (Option T)))
    (g : PageGetter σ) (i : pullsIterator T) (s : σ) (ctx : Option Context) :
    Res (Option Error) × pullsIterator T × σ × List String :=
  match i.nextPage parseJSON g s ctx with
  | (Res.panic, i1, s1, reqs) => (Res.panic, i1, s1, reqs)
  | (Res.val (items, err), i1, s1, reqs) =>
    let i2 : pullsIterator T := { i1 with currentPage := items }
    if err ≠ none ∧ err ≠ some Error.NoMorePages then
      (Res.val err, { i2 with Err := err }, s1, reqs)
    else
      (Res.val err, { i2 with currentIndex := 0 }, s1, reqs)

/-- Source method `(*pullsIterator).NextWithContext`. -/
def pullsIterator.NextWithContext {T σ : Type}
    (parseJSON : String → Option (List (Option T))) (g : PageGetter σ)
    (i : pullsIterator T) (s : σ) (ctx : Option Context) :
    Res Unit × pullsIterator T × σ × List String :=
  if i.Err ≠ none then (Res.val (), { i with current := none }, s, [])
  else
    let loaded : Res (Option Error) × pullsIterator T × σ × List String :=
      if i.currentPage.isNone ∨ i.currentIndex = sliceLen i.currentPage then
        i.load parseJSON g s ctx
      else (Res.val none, i, s, [])
    match loaded with
    | (Res.panic, i1, s1, reqs) => (Res.panic, i1, s1, reqs)
    | (Res.val (some _), i1, s1, reqs) => (Res.val (), { i1 with current := none }, s1, reqs)
    | (Res.val none, i1, s1, reqs) =>
      match sliceIndex i1.currentPage i1.currentIndex with
      | Res.panic => (Res.panic, i1, s1, reqs)
      | Res.val x =>
        (Res.val (), { i1 with current := x, currentIndex := i1.currentIndex + 1 }, s1, reqs)

/-- Source method `(*pullsIterator).Next`. -/
def pullsIterator.Next {T σ : Type}
    (parseJSON : String → Option (List (Option T))) (g : PageGetter σ)
    (i : pullsIterator T) (s : σ) : Res Unit × pullsIterator T × σ × List String :=
  i.NextWithContext parseJSON g s (some Context.TODO)

/-- Source method `(*pullsIterator).HasNext`. -/
def pullsIterator.HasNext {T σ : Type}
    (parseJSON : String → Option (List (Option T))) (g : PageGetter σ)
    (i : pullsIterator T) (s : σ) : Res Bool × pullsIterator T × σ × List String :=
  match i.NextWithContext parseJSON g s (some Context.TODO) with
  | (Res.panic, i1, s1, reqs) => (Res.panic, i1, s1, reqs)
  | (Res.val _, i1, s1, reqs) => (Res.val i1.current.isSome, i1, s1, reqs)

/-- Source method `(*pullsIterator).HasNextWithContext`: as for `commitsIterator`, with the
`select` on `ctx.Done()`. -/
def pullsIterator.HasNextWithContext {T σ : Type}
    (parseJSON : String → Option (List (Option T))) (g : PageGetter σ)
    (i : pullsIterator T) (s : σ) (ctx : Option Context) :
    Res Bool × pullsIterator T × σ × List String :=
  match i.NextWithContext parseJSON g s ctx with
  | (Res.panic, i1, s1, reqs) => (Res.panic, i1, s1, reqs)
  | (Res.val _, i1, s1, reqs) =>
    match ctx with
    | none => (Res.panic, i1, s1, reqs)
    | some cx =>
      match cx.Err with
      | some cerr => (Res.val false, { i1 with Err := some cerr }, s1, reqs)
      | none => (Res.val i1.current.isSome, i1, s1, reqs)

/-- The iterator `Repository.PullsWithContext` returns for a start URL:
`&pullsIterator{it: PageIterator(url, HTTPClient())}`. -/
def pullsIterator.start (T : Type) (url : String) : pullsIterator T :=
  { it := NewGithubPageIterator url }

/-! ## `client/cachedclient/client.go`: the request of the cached GET -/

/-- Lines 199-223 of `GetWithContext`: the request handed to `httpClient.Do`
(`Sum.inr`), or the page of the early return on a header error (`Sum.inl`). -/
def PickledCachedClient.request (sha1hex : String → String) (http : HTTP)
    (c : PickledCachedClient) (ctx : Option Context) (url : String) (useStableAPI : Bool) :
    Res (Page ⊕ Request) :=
  let cacheKey := c.cacheKey sha1hex url
  let cacheValue := (c.cache.get cacheKey).1
  let keyFound := (c.cache.get cacheKey).2
  let etag := if keyFound then cacheValue.ETag else ""
  let last := if keyFound then cacheValue.LastModified else ""
  match withContext (http.NewRequest "GET" url) ctx with
  | Res.panic => Res.panic
  | Res.val req =>
    match GetHeaders (GithubToken.asRetriever c.APIToken) useStableAPI etag last with
    | Res.panic => Res.panic
    | Res.val (_, some err) => Res.val (Sum.inl { URL := url, Err := some err })
    | Res.val (headers, none) =>
      match setHeaders req headers with
      | Res.panic => Res.panic
      | Res.val req1 => Res.val (Sum.inr req1)

/-- The entry persisted for a key in the file at a path: what the map last encoded into
that file holds for the key; nothing when the file is absent, holds other bytes, or holds
the nil map. -/
def FileSystem.persisted (fs : FileSystem) (path key : String) : Option Payload :=
  match fs.files path with
  | some (FileContent.gob (some m)) => m key
  | _ => none

/-! ## The format of the `Link` header -/

/-- One link descriptor of a `Link` header, `<url>; rel="rel"`, with the white space `pad`
that precedes it in the header (GitHub separates descriptors by a comma and a space). -/
structure LinkDescriptor where
  pad : String := ""
  url : String
  rel : String

/-- The characters of a descriptor: `pad`, then `<url>; rel="rel"`. -/
def LinkDescriptor.chars (d : LinkDescriptor) : List Char :=
  d.pad.data ++ '<' :: (d.url.data ++ ('>' :: ';' :: ' ' :: 'r' :: 'e' :: 'l' :: '=' :: '"' ::
    (d.rel.data ++ ['"'])))

/-- A descriptor is well formed when `pad` is white space and the URL holds no comma,
semicolon or angle bracket; the relation name is any text. -/
def LinkDescriptor.WellFormed (d : LinkDescriptor) : Prop :=
  (∀ c ∈ d.pad.data, strings.isSpace c = true) ∧
  (∀ c ∈ d.url.data, c ≠ ',' ∧ c ≠ ';' ∧ c ≠ '<' ∧ c ≠ '>')

/-- The relation name of the descriptor holds none of the delimiters of the format: no
comma, semicolon or double quote. -/
def LinkDescriptor.PlainRelation (d : LinkDescriptor) : Prop :=
  ∀ c ∈ d.rel.data, c ≠ ',' ∧ c ≠ ';' ∧ c ≠ '"'

/-- The characters of the header made of the descriptors, separated by commas. -/
def linkHeaderChars : List LinkDescriptor → List Char
  | [] => []
  | [d] => d.chars
  | d :: e :: ds => d.chars ++ ',' :: linkHeaderChars (e :: ds)

/-- The `Link` header value made of the descriptors, separated by commas. -/
def linkHeader (ds : List LinkDescriptor) : String :=
  String.mk (linkHeaderChars ds)

/-- The URL of the first descriptor whose relation is exactly `next`; the empty string
when there is none. -/
def nextOf : List LinkDescriptor → String
  | [] => ""
  | d :: ds => if d.rel = "next" then d.url else nextOf ds

/-! ## Sequences of pages -/

/-- The continuation link a page carries: `Content.NextLink`, empty without content. -/
def Page.NextLink (p : Page) : String :=
  match p.Content with
  | none => ""
  | some content => content.NextLink

/-- The page carries the elements `elems`: it has no error, and its body is neither `""`
nor `"[]"` and decodes to the non-empty array of the non-null elements `elems`. -/
def CarriesElements {T : Type} (parseJSON : String → Option (List (Option T))) (p : Page)
    (elems : List T) : Prop :=
  p.Err = none ∧ elems ≠ [] ∧
    ∃ content, p.Content = some content ∧ content.Data ≠ "" ∧ content.Data ≠ "[]" ∧
      parseJSON content.Data = some (elems.map some)

/-- The page carries no element: it has no error, and content whose body is `""` or
`"[]"`. -/
def CarriesNothing {T : Type} (p : Page) (elems : List T) : Prop :=
  p.Err = none ∧ elems = [] ∧
    ∃ content, p.Content = some content ∧ (content.Data = "" ∨ content.Data = "[]")

/-- The getter, in state `s` and asked for `url` by `HasNext`, serves the pages of the
list in order and ends in state `s'`: asked for `url` it produces the first page; every
page but the last carries elements and a non-empty `NextLink`, and asked for that link the
getter produces the following page; the last page carries an empty `NextLink` and either
elements or nothing. Each page comes with the elements it carries. -/
def ServesPages {T σ : Type} (parseJSON : String → Option (List (Option T)))
    (g : PageGetter σ) : σ → String → List (Page × List T) → σ → Prop
  | _, _, [], _ => False
  | s, url, [pe], s' =>
    g.GetWithContext s (some Context.TODO) url true = (Res.val (some pe.1), s') ∧
    (CarriesElements parseJSON pe.1 pe.2 ∨ CarriesNothing pe.1 pe.2) ∧
    pe.1.NextLink = ""
  | s, url, pe :: qe :: rest, s' =>
    (g.GetWithContext s (some Context.TODO) url true).1 = Res.val (some pe.1) ∧
    CarriesElements parseJSON pe.1 pe.2 ∧
    pe.1.NextLink ≠ "" ∧
    ServesPages parseJSON g (g.GetWithContext s (some Context.TODO) url true).2
      pe.1.NextLink (qe :: rest) s'

/-- The concatenation of the elements of the pages, in page order. -/
def allElements {T : Type} : List (Page × List T) → List T
  | [] => []
  | pe :: rest => pe.2 ++ allElements rest

/-- The URLs a client following the links requests for the pages: the start URL, then the
`NextLink` of every page but the last. -/
def requestsFor {T : Type} : String → List (Page × List T) → List String
  | _, [] => []
  | url, pe :: rest => url :: requestsFor pe.1.NextLink rest

/-- The iterator a listing method such as `Repository.Branches` returns for a start
URL: `&branchesIterator{it: PageIterator(url, HTTPClient())}`. -/
def branchesIterator.start (T : Type) (url : String) : branchesIterator T :=
  { it := NewGithubPageIterator url }

/-- The iterator has no sticky error and its batch is absent or fully consumed, so the
next `NextWithContext` asks for a page. -/
def branchesIterator.AtBoundary {T : Type} (i : branchesIterator T) : Prop :=
  i.Err = none ∧ (i.currentPage = none ∨ i.currentIndex = sliceLen i.currentPage)

/-! ## `client/cachedclient/cache.go`: loading the cache -/

/-- What `Load` meets outside the repository: the error of `os.Open`, if it fails, and the
gob decoder, as the map `decoder.Decode(data)` leaves in `*data` or the error it
returns. -/
structure Reader where
  openErr : Option Error := none
  Decode : FileContent → Except Error (Option CacheData)

/-- Source function `fileExists`: `os.Stat` finds a file at the path. (A `Stat` error other
than "does not exist" ends in `logging.Fatal`; the file system here has no such
error.) -/
def fileExists (fs : FileSystem) (path : String) : Bool :=
  (fs.files path).isSome

/-- Source method `(*PickledCache).Load`: the error returned and the cache afterwards. -/
def PickledCache.Load (rd : Reader) (pc : PickledCache) (fs : FileSystem) :
    Option Error × PickledCache :=
  if fileExists fs pc.Path then
    match rd.openErr with
    | some err => (some err, pc)
    | none =>
      match fs.files pc.Path with
      | none => (some Error.errInexistantCache, pc)
      | some content =>
        match rd.Decode content with
        | Except.error err => (some err, pc)
        | Except.ok d => (none, { pc with Data := d })
  else
    (some Error.errInexistantCache, { pc with Data := some (fun _ => none) })

/-- Source function `NewCache`. `lookupEnv` is the value of `GITHUB_CACHE_FILE`, if set,
and `abs` is `filepath.Abs`; the result is the cache returned and whether `logging.Fatal`
was called on the way. -/
def NewCache (rd : Reader) (lookupEnv : Option String) (abs : String → String)
    (fs : FileSystem) : PickledCache × Bool :=
  let cachePath := abs (match lookupEnv with
                        | some v => v
                        | none => ".github-cache")
  let cache : PickledCache := { Path := cachePath, Data := none }
  match cache.Load rd fs with
  | (some err, cache1) => (cache1, decide (err ≠ Error.errInexistantCache))
  | (none, cache1) => (cache1, false)

/-- The bytes `generateCacheID` writes into the hash: the name and the value of every
entry, in order, with nothing between them. -/
def hashedBytes (entries : List (String × String)) : String :=
  entries.foldl (fun acc e => acc ++ e.1 ++ e.2) ""

/-! ## `client/cachedclient/client.go`: POST and PATCH -/

/-- Source function `client.PostHeaders`, read as a map and an error by `client.go`. -/
def PostHeaders (tr : Option TokenRetriever) (useStableAPI : Bool) :
    Res (Option StringMap × Option Error) :=
  Headers tr useStableAPI

/-- Lines 81-104 of `PostWithContext`, which are lines 139-162 of `PatchWithContext` but
for the method: the headers, the JSON text of `data`, and the request handed to
`httpClient.Do` (`Sum.inr`), or the result of an early return (`Sum.inl`). `marshal` is
Go's `json.Marshal` on the `map[string]string` argument. -/
def PickledCachedClient.bodyRequest (marshal : Option StringMap → Except Error String)
    (http : HTTP) (c : PickledCachedClient) (method : String) (ctx : Option Context)
    (url : String) (useStableAPI : Bool) (data : Option StringMap) :
    Res ((Int × Option Error) ⊕ Request) :=
  match PostHeaders (GithubToken.asRetriever c.APIToken) useStableAPI with
  | Res.panic => Res.panic
  | Res.val (_, some err) => Res.val (Sum.inl (0, some err))
  | Res.val (headers, none) =>
    match marshal data with
    | Except.error err => Res.val (Sum.inl (0, some err))
    | Except.ok jsonStr =>
      match withContext ((http.NewRequest method url).map
          (fun r => { r with Body := some jsonStr })) ctx with
      | Res.panic => Res.panic
      | Res.val req =>
        match setHeaders req headers with
        | Res.panic => Res.panic
        | Res.val req1 => Res.val (Sum.inr req1)

/-- Source method `(*PickledCachedClient).PostWithContext`: the status code and error
returned (or a panic), and the client as the call leaves it. -/
def PickledCachedClient.PostWithContext (marshal : Option StringMap → Except Error String)
    (http : HTTP) (c : PickledCachedClient) (ctx : Option Context) (url : String)
    (useStableAPI : Bool) (data : Option StringMap) :
    Res (Int × Option Error) × PickledCachedClient :=
  match c.bodyRequest marshal http "POST" ctx url useStableAPI data with
  | Res.panic => (Res.panic, c)
  | Res.val (Sum.inl r) => (Res.val r, c)
  | Res.val (Sum.inr req) =>
    match http.Do req with
    | Except.error err => (Res.val (0, some err), c)
    | Except.ok resp => (Res.val (resp.StatusCode, none), c)

/-- Source method `(*PickledCachedClient).PatchWithContext`. -/
def PickledCachedClient.PatchWithContext (marshal : Option StringMap → Except Error String)
    (http : HTTP) (c : PickledCachedClient) (ctx : Option Context) (url : String)
    (useStableAPI : Bool) (data : Option StringMap) :
    Res (Int × Option Error) × PickledCachedClient :=
  match c.bodyRequest marshal http "PATCH" ctx url useStableAPI data with
  | Res.panic => (Res.panic, c)
  | Res.val (Sum.inl r) => (Res.val r, c)
  | Res.val (Sum.inr req) =>
    match http.Do req with
    | Except.error err => (Res.val (0, some err), c)
    | Except.ok resp => (Res.val (resp.StatusCode, none), c)

/-! ## Go `path/filepath` and `strings.Join`, as the objects use them -/

namespace strings

/-- Go `strings.Join(elems, sep)`. -/
def Join (elems : List String) (sep : String) : String :=
  String.mk (List.intercalate sep.data (elems.map String.data))

end strings

namespace filepath

/-- One path element met by Go `filepath.Clean`, the elements kept so far being `out`,
last one first: an empty element and `.` are dropped; `..` removes the last element kept,
is dropped at the root, and is kept when nothing but `..` elements precede it; any other
element is kept. -/
def cleanStep (rooted : Bool) (out : List (List Char)) (e : List Char) : List (List Char) :=
  if e = [] ∨ e = ['.'] then out
  else if e = ['.', '.'] then
    match out with
    | [] => if rooted then [] else [e]
    | last :: rest => if last = ['.', '.'] then e :: out else rest
  else e :: out

/-- Go `filepath.Clean` with the separator `/`: the shortest path equivalent to `path` by
lexical processing. Runs of separators count as one, `.` elements go, `..` elements are
resolved, the result ends in a separator only when it is the root, and the empty result
is `.`. -/
def Clean (path : String) : String :=
  if path = "" then "."
  else
    let rooted := strings.HasPrefix path.data ['/']
    let out := ((strings.Split '/' path.data).foldl (cleanStep rooted) []).reverse
    let joined := String.mk (List.intercalate ['/'] out)
    if rooted then "/" ++ joined
    else if joined = "" then "." else joined

/-- Go `filepath.Join` with the separator `/`: leading empty elements are ignored, the
rest is joined with separators and the result is cleaned; no element left gives `""`. -/
def Join (elem : List String) : String :=
  match elem.dropWhile (fun e => e = "") with
  | [] => ""
  | e :: rest => Clean (strings.Join (e :: rest) "/")

end filepath

/-- Whether a text has two slashes in a row, as `https://` has. -/
def hasDoubleSlash : List Char → Bool
  | [] => false
  | c :: rest => (c = '/' && rest.head? = some '/') || hasDoubleSlash rest

/-! ## `object/base.go` and `object/repo.go` -/

/-- Source function `join` of `object/base.go`: `filepath.Join(bits...)`. -/
def join (bits : List String) : String :=
  filepath.Join bits

/-- Source type `Repository`. -/
structure Repository where
  owner : String
  name : String
  deriving DecidableEq, Repr

/-- Source function `NewRepo`. -/
def NewRepo (owner name : String) : Repository :=
  { owner := owner, name := name }

/-- Source method `Repository.Path`. -/
def Repository.Path (r : Repository) : String :=
  filepath.Join [r.owner, r.name]

/-- Source method `Repository.FullPath`: `format("%s/%s/%s", APIURLs.URL, "repos",
r.Path())`. -/
def Repository.FullPath (r : Repository) : String :=
  APIURLs.URL ++ "/" ++ "repos" ++ "/" ++ r.Path

/-- Source method `Repository.toURL`: `format("%s/%s", r.FullPath(),
filepath.Join(suffix...))`. -/
def Repository.toURL (r : Repository) (suffix : List String) : String :=
  r.FullPath ++ "/" ++ filepath.Join suffix

/-- Source method `Repository.Issues`: the iterator returned, over the element type `T`
(`RepoIssue`), with the nil error. The parameter `includePRs` is not read: the source only
carries a TODO for it. -/
def Repository.Issues (T : Type) (r : Repository) (state author assignee : String)
    (_includePRs : Bool) : branchesIterator T × Option Error :=
  let params : List String := []
  let params := params ++ ["state=" ++ state]
  let assignee := if String.mk (strings.TrimSpace assignee.data) = "" then "none" else assignee
  let params := params ++ ["assignee=" ++ assignee]
  let params :=
    if String.mk (strings.TrimSpace author.data) ≠ "" then params ++ ["creator=" ++ author]
    else params
  let paramsStr := strings.Join params "&"
  let url := r.toURL ["issues?" ++ paramsStr]
  (branchesIterator.start T url, none)

/-! ## Go `net/textproto` and the header map of a response -/

namespace textproto

/-- Go `validHeaderFieldByte`: the characters of an HTTP token. -/
def validHeaderFieldByte (c : Char) : Bool :=
  c.isAlphanum || "!#$%&*+-.^_|~".data.contains c || c = Char.ofNat 39 || c = Char.ofNat 96

/-- The loop of Go `canonicalMIMEHeaderKey`: the first letter and every letter after a
hyphen in upper case, the other letters in lower case. -/
def canonLoop : Bool → List Char → List Char
  | _, [] => []
  | upper, c :: cs =>
    let c1 := if upper then c.toUpper else c.toLower
    c1 :: canonLoop (c1 = '-') cs

/-- Go `textproto.CanonicalMIMEHeaderKey` (`http.CanonicalHeaderKey`): the canonical form
of a header name; a name with a character that is not valid in a header field is returned
unchanged. -/
def CanonicalMIMEHeaderKey (s : String) : String :=
  if s.data.all validHeaderFieldByte then String.mk (canonLoop true s.data) else s

end textproto

/-- Go `resp.Header[key]`, the header map indexed directly, on a response received from
`net/http`. The keys of that map are in canonical form (`http.Response.Header`: "Keys in
the map are canonicalized"), and indexing does not canonicalize `key` as `Get` does: a key
that is not in canonical form finds nothing, a canonical key finds the values of the
header. -/
def Response.HeaderIndex (r : Response) (key : String) : List String :=
  if textproto.CanonicalMIMEHeaderKey key = key then r.Header key else []

/-! ## Go `net/url` and the default transport of `net/http` -/

namespace url

/-- Go `getScheme`: the scheme of a raw URL and what follows its colon. The scheme is made
of letters, digits, `+`, `-` and `.`, and starts with a letter; without one the scheme is
empty and the rest is the whole text. -/
def getScheme (raw : List Char) : List Char × List Char :=
  let s := raw.takeWhile (fun c => c.isAlphanum || c = '+' || c = '-' || c = '.')
  match raw.drop s.length with
  | ':' :: rest => if s.head?.any Char.isAlpha then (s, rest) else ([], raw)
  | _ => ([], raw)

/-- Go `url.Parse(rawURL).Host`: the fragment and the query are cut off; the URL has an
authority only when what follows the scheme starts with `//` (and, without a scheme, not
with `///`); the authority ends at the next `/`, and the host is what follows its last
`@`. A URL without authority has the empty host. -/
def Host (rawURL : String) : String :=
  let noFragment := rawURL.data.takeWhile (fun c => c != '#')
  let scheme := (getScheme noFragment).1
  let rest := (getScheme noFragment).2.takeWhile (fun c => c != '?')
  match rest with
  | '/' :: '/' :: more =>
    if scheme ≠ [] ∨ more.head? ≠ some '/' then
      let authority := more.takeWhile (fun c => c != '/')
      String.mk ((strings.Split '@' authority).getLast?.getD [])
    else ""
  | _ => ""

end url

/-- Go `(&http.Client{}).Do` over the default transport, `remote` being the answer to a
request that is sent: a request whose URL has no host is refused by the transport with the
error "http: no Host in request URL", and nothing is sent. -/
def defaultTransport (parses : String → Bool) (remote : Request → Except Error Response) :
    HTTP :=
  { parses := parses
    Do := fun req =>
      if url.Host req.URL = "" then Except.error (Error.external "http: no Host in request URL")
      else remote req }

/-! ## `authorisation/token.go`: the rate limit -/

/-- Source type `APICalls`. -/
structure APICalls where
  Remaining : Int
  Limit : Int
  deriving DecidableEq, Repr

/-- Source variable `ErrRateLimitUnretrievable`. -/
def ErrRateLimitUnretrievable : Error :=
  Error.New "Unable to retrieve rate limit for the current token"

/-- Source variable `ErrHTTPRequestFailure`. -/
def ErrHTTPRequestFailure : Error :=
  Error.New "Unable to create HTTP Request"

/-- First part of `RateLimiting` (lines 90-103): the early return, or the request handed to
`Do`. -/
def RateLimiting.request (http : HTTP) (token : Option TokenRetriever) :
    Res ((Option APICalls × Option Error) ⊕ Request) :=
  let url := filepath.Join [APIURLs.URL, "/rate_limit"]
  match Headers token true with
  | Res.panic => Res.panic
  | Res.val (_, some err) => Res.val (Sum.inl (none, some err))
  | Res.val (headers, none) =>
    match http.NewRequest "GET" url with
    | none => Res.val (Sum.inl (none, some ErrHTTPRequestFailure))
    | some req =>
      match setHeaders (some req) headers with
      | Res.panic => Res.panic
      | Res.val req1 => Res.val (Sum.inr req1)

/-- Last part of `RateLimiting` (lines 113-131): the counts read from the response. The
parameter `atoi` is Go's `strconv.Atoi`, `none` when it returns an error. -/
def RateLimiting.counts (atoi : String → Option Int) (resp : Response) : APICalls :=
  let remaining : Int := -1
  let limit : Int := -1
  if resp.StatusCode = StatusOK then
    let remaining :=
      match resp.HeaderIndex "X-RateLimit-Remaining" with
      | [] => remaining
      | v :: _ =>
        match atoi v with
        | some n => n
        | none => -1
    let limit :=
      match resp.HeaderIndex "X-RateLimit-Limit" with
      | [] => limit
      | v :: _ =>
        match atoi v with
        | some n => n
        | none => -1
    { Remaining := remaining, Limit := limit }
  else { Remaining := remaining, Limit := limit }

/-- Source function `RateLimiting`. -/
def RateLimiting (atoi : String → Option Int) (http : HTTP) (token : Option TokenRetriever) :
    Res (Option APICalls × Option Error) :=
  match RateLimiting.request http token with
  | Res.panic => Res.panic
  | Res.val (Sum.inl r) => Res.val r
  | Res.val (Sum.inr req) =>
    match http.Do req with
    | Except.error _ => Res.val (none, some ErrRateLimitUnretrievable)
    | Except.ok resp => Res.val (some (RateLimiting.counts atoi resp), none)

/-! ## `object/commitstatus.go`: equality of commit statuses -/

/-- The type `User` the objects point to; the sources read its `Login`. -/
structure User where
  Login : String
  deriving DecidableEq, Repr

/-- Source type `CommitStatus`. -/
structure CommitStatus where
  State : String := ""
  TargetURL : String := ""
  Description : String := ""
  Context : String := ""
  Creator : Option User := none
  CreatedAt : String := ""
  UpdatedAt : String := ""
  deriving DecidableEq, Repr

/-- Source method `CommitStatus.toDict`: the map literal, as the list of its entries. -/
def CommitStatus.toDict (cs : CommitStatus) : List (String × String) :=
  [("state", cs.State), ("target_url", cs.TargetURL), ("description", cs.Description),
   ("context", cs.Context)]

namespace reflect

/-- Go `reflect.DeepEqual` on two non-nil `map[string]string` values, each given by its
entries: they have the same length and every key of the first maps to the same value in
the second. -/
def DeepEqual (a b : List (String × String)) : Bool :=
  a.length == b.length && a.all (fun kv => b.lookup kv.1 == some kv.2)

end reflect

/-- Source method `CommitStatus.Equal`. The receiver is a value, `other` a pointer:
`other.toDict()` dereferences it, a panic when it is nil. -/
def CommitStatus.Equal (cs : CommitStatus) (other : Option CommitStatus) : Res Bool :=
  match other with
  | none => Res.panic
  | some o => Res.val (reflect.DeepEqual cs.toDict o.toDict)

/-! ## `object/*.go`: the methods built on the client -/

/-- Source method `(*PickledCachedClient).Get`: `GetWithContext(context.TODO(), ...)`. -/
def PickledCachedClient.Get (sha1hex : String → String) (http : HTTP)
    (c : PickledCachedClient) (fs : FileSystem) (url : String) (useStableAPI : Bool) :
    Res Page × PickledCachedClient × FileSystem :=
  c.GetWithContext sha1hex http fs (some Context.TODO) url useStableAPI

/-- Source method `(*Repository).IsCollaborator`; the client `HTTPClient()` returns is
passed in with the file system and returned as the call leaves them. -/
def Repository.IsCollaborator (sha1hex : String → String) (http : HTTP) (r : Repository)
    (c : PickledCachedClient) (fs : FileSystem) (login : String) :
    Res Bool × PickledCachedClient × FileSystem :=
  let url := r.toURL ["collaborators", login]
  match c.Get sha1hex http fs url true with
  | (Res.panic, c1, fs1) => (Res.panic, c1, fs1)
  | (Res.val page, c1, fs1) => (Res.val (page.StatusCode == StatusNoContent), c1, fs1)

/-- Source type `GithubOrganisation`. -/
structure GithubOrganisation where
  Name : String := ""
  ID : Int := 0
  Login : String := ""
  Description : String := ""
  URL : String := ""
  HTMLURL : String := ""
  Company : String := ""
  NMembers : Int := 0
  deriving DecidableEq, Repr

/-- Source function `Organisation`. The parameter `parseOrg` is `json.Unmarshal` into a nil
`*GithubOrganisation`: the pointer afterwards. A page without error and without content
makes `page.Content.Data` a nil dereference. -/
def Organisation (parseOrg : String → Option GithubOrganisation)
    (sha1hex : String → String) (http : HTTP) (c : PickledCachedClient) (fs : FileSystem)
    (name : String) :
    Res (Option GithubOrganisation × Option Error) × PickledCachedClient × FileSystem :=
  let url := join [APIURLs.URL, "orgs", name]
  match c.Get sha1hex http fs url true with
  | (Res.panic, c1, fs1) => (Res.panic, c1, fs1)
  | (Res.val page, c1, fs1) =>
    match page.Err with
    | some err => (Res.val (none, some err), c1, fs1)
    | none =>
      match page.Content with
      | none => (Res.panic, c1, fs1)
      | some content => (Res.val (parseOrg content.Data, none), c1, fs1)

/-- Source type `Team`, without the pointer to the parent team, which no method reads. -/
structure Team where
  ID : Int := 0
  URL : String := ""
  Name : String := ""
  Slug : String := ""
  Description : String := ""
  NMembers : Int := 0
  NRepos : Int := 0
  Org : GithubOrganisation := {}
  deriving DecidableEq, Repr

/-- Source method `Team.Members`: the iterator (a `teamMembersIterator`, over the element
type `T`) and the nil error. -/
def Team.Members (T : Type) (t : Team) : branchesIterator T × Option Error :=
  let url := join [t.URL, "members"]
  (branchesIterator.start T url, none)

/-- Source method `Team.IsMember`. -/
def Team.IsMember (sha1hex : String → String) (http : HTTP) (t : Team)
    (c : PickledCachedClient) (fs : FileSystem) (login : String) :
    Res (Bool × Option Error) × PickledCachedClient × FileSystem :=
  let url := join [t.URL, "memberships", login]
  match c.Get sha1hex http fs url true with
  | (Res.panic, c1, fs1) => (Res.panic, c1, fs1)
  | (Res.val page, c1, fs1) => (Res.val (page.StatusCode == 200, page.Err), c1, fs1)

/-- Source type `RepoIssue`, without the users and the times, which no method modelled
here reads. -/
structure RepoIssue where
  Number : Int := 0
  URL : String := ""
  State : String := ""
  Title : String := ""
  Body : String := ""
  deriving DecidableEq, Repr

/-- Source method `RepoIssue.Comments`: the iterator (an `issueCommentsIterator`, over the
element type `T`) and the nil error. -/
def RepoIssue.Comments (T : Type) (i : RepoIssue) : branchesIterator T × Option Error :=
  let url := join [i.URL, "comments"]
  (branchesIterator.start T url, none)

/-- Source method `RepoIssue.toURL`: `format("%s/%s", i.URL, filepath.Join(suffix...))`. -/
def RepoIssue.toURL (i : RepoIssue) (suffix : List String) : String :=
  i.URL ++ "/" ++ filepath.Join suffix

/-- Source method `RepoIssue.PostCommentWithContext`. -/
def RepoIssue.PostCommentWithContext (marshal : Option StringMap → Except Error String)
    (http : HTTP) (c : PickledCachedClient) (i : RepoIssue) (ctx : Option Context)
    (data : Option StringMap) : Res (Int × Option Error) × PickledCachedClient :=
  let url := i.toURL ["comments"]
  c.PostWithContext marshal http ctx url true data

/-- Source type `PullRequest`, without the head branch, the users and the times, which no
method modelled here reads. -/
structure PullRequest where
  Number : Int := 0
  State : String := ""
  Title : String := ""
  Body : String := ""
  URL : String := ""
  HTMLURL : String := ""
  deriving DecidableEq, Repr

/-- Source method `PullRequest.toURL`. -/
def PullRequest.toURL (p : PullRequest) (suffix : List String) : String :=
  p.URL ++ "/" ++ filepath.Join suffix

/-- Source method `PullRequest.Commits`: the iterator (a `commitsIterator`, over the element
type `T`) and the nil error. -/
def PullRequest.Commits (T : Type) (p : PullRequest) : branchesIterator T × Option Error :=
  let url := p.toURL ["commits"]
  (branchesIterator.start T url, none)

/-- The loop `for commits.HasNextWithContext(ctx) { commit = commits.Item() }` of
`HeadCommitWithContext` followed by its `return commit, commits.Err`: at most `fuel` calls
of `HasNextWithContext`, `none` when the loop has not ended after that many. The result
carries the iterator, the getter's state and the URLs requested. -/
def PullRequest.headCommitLoop {T σ : Type} (parseJSON : String → Option (List (Option T)))
    (g : PageGetter σ) (ctx : Option Context) :
    Nat → Option T → branchesIterator T → σ →
      Option (Res (Option T × Option Error) × branchesIterator T × σ × List String)
  | 0, _, _, _ => none
  | fuel + 1, commit, i, s =>
    match commitsIterator.HasNextWithContext parseJSON g i s ctx with
    | (Res.panic, i1, s1, reqs) => some (Res.panic, i1, s1, reqs)
    | (Res.val false, i1, s1, reqs) => some (Res.val (commit, i1.Err), i1, s1, reqs)
    | (Res.val true, i1, s1, reqs) =>
      match PullRequest.headCommitLoop parseJSON g ctx fuel i1.Item i1 s1 with
      | none => none
      | some (r, i2, s2, reqs2) => some (r, i2, s2, reqs ++ reqs2)

/-- Source method `PullRequest.HeadCommitWithContext`, with the bound `fuel` on the calls
of `HasNextWithContext`: the commit and the error returned (or a panic), the getter's
state and the URLs requested. -/
def PullRequest.HeadCommitWithContext {T σ : Type}
    (parseJSON : String → Option (List (Option T))) (g : PageGetter σ) (fuel : Nat)
    (p : PullRequest) (s : σ) (ctx : Option Context) :
    Option (Res (Option T × Option Error) × σ × List String) :=
  match p.Commits T with
  | (_, some err) => some (Res.val (none, some err), s, [])
  | (commits, none) =>
    (PullRequest.headCommitLoop parseJSON g ctx fuel none commits s).map
      (fun r => (r.1, r.2.2))

/-! ## Sample data for the closed examples -/

/-- The sample digest of the closed examples: the bytes themselves (any function will do,
the client only compares fingerprints). -/
def sampleDigest : String → String := fun s => s

/-- A transport that answers every request with the given response. -/
def answering (resp : Response) : HTTP :=
  { parses := fun _ => true, Do := fun _ => Except.ok resp }

/-- A response with the given status, body and `ETag`, `Last-Modified`, `Link` headers. -/
def sampleResponse (status : Int) (body etag lastModified link : String) : Response :=
  { StatusCode := status
    Header := fun k => if k = "ETag" then [etag] else if k = "Last-Modified" then [lastModified]
                       else if k = "Link" then [link] else []
    Body := Except.ok body }

/-- A client whose cache holds the one entry `e` under the key `key`. -/
def sampleClient (key : String) (e : Payload) : PickledCachedClient :=
  { APIToken := some { value := "t0" }, APIURL := APIURLs.URL
    cache := { Path := ".github-cache", Data := some (fun k => if k = key then some e else none) } }

/-- A cache entry with a next link. -/
def sampleEntry : Payload :=
  { Data := "[1]", ETag := "e1", LastModified := "d1", NextLink := "https://h/r?page=2" }

/-- An empty file system on which writes succeed. -/
def sampleFS : FileSystem := { files := fun _ => none }

/-- A decoder for the closed examples, over numbers: the arrays `[]`, `[7]` and `[8,9]`
decode to their elements, anything else leaves the slice nil. -/
def sampleParse (data : String) : Option (List (Option Nat)) :=
  if data = "[]" then some []
  else if data = "[7]" then some [some 7]
  else if data = "[8,9]" then some [some 8, some 9]
  else none

/-- A 200 page with the given URL, body and next link. -/
def samplePage (url body next : String) : Page :=
  { URL := url, Content := some { Data := body, NextLink := next }, StatusCode := 200 }

/-- The first `NextWithContext` call of a page iterator over the cached client, answered
with 404 by the transport. -/
def sampleNotFoundRun :
    Res (Option Page) × GithubPageIterator × (PickledCachedClient × FileSystem) × List String :=
  (NewGithubPageIterator "https://h/r").NextWithContext
    (PickledCachedClient.pageGetter sampleDigest (answering (sampleResponse 404 "" "" "" "")))
    (sampleClient "urlhttps://h/r" sampleEntry, sampleFS) (some Context.TODO)

/-- A context that has been cancelled: `ctx.Err()` is `context.Canceled`. -/
def cancelled : Context :=
  { Err := some (Error.external "context canceled") }

/-- A transport on which every request fails. -/
def refusing : HTTP :=
  { parses := fun _ => true, Do := fun _ => Except.error (Error.external "connection refused") }

/-- The file system after the sample client saved its cache: the file holds the map with
the one sample entry. -/
def sampleSavedFS : FileSystem :=
  ((sampleClient "urlhttps://h/r" sampleEntry).cache.Save sampleFS).2

/-- The first `HasNext` of a typed iterator over the cached client, whose request the
transport answers with 404. -/
def sampleTypedNotFoundRun :
    Res Bool × branchesIterator Nat × (PickledCachedClient × FileSystem) × List String :=
  (branchesIterator.start Nat "https://h/r").HasNext sampleParse
    (PickledCachedClient.pageGetter sampleDigest (answering (sampleResponse 404 "" "" "" "")))
    (sampleClient "urlhttps://h/r" sampleEntry, sampleFS)

/-- The first `HasNext` of a typed iterator over the cached client, whose request fails in
the transport. -/
def sampleTypedRefusedRun :
    Res Bool × branchesIterator Nat × (PickledCachedClient × FileSystem) × List String :=
  (branchesIterator.start Nat "https://h/r").HasNext sampleParse
    (PickledCachedClient.pageGetter sampleDigest refusing)
    (sampleClient "urlhttps://h/r" sampleEntry, sampleFS)

/-- The first `HasNext` of a typed iterator whose first page is `[8,9]`: it publishes 8 and
leaves 9 unconsumed in the batch. -/
def sampleMidBatchRun : Res Bool × branchesIterator Nat × List Page × List String :=
  (branchesIterator.start Nat "https://h/r").HasNext sampleParse scriptedGetter
    [samplePage "https://h/r" "[8,9]" ""]

/-- The first `HasNext` of a typed iterator whose first page has the body `[]` and a
link to a second page `[7]`. -/
def sampleEmptyLinkedRun : Res Bool × branchesIterator Nat × List Page × List String :=
  (branchesIterator.start Nat "https://h/r").HasNext sampleParse scriptedGetter
    [samplePage "https://h/r" "[]" "https://h/r?page=2",
     samplePage "https://h/r?page=2" "[7]" ""]

/-- A `GetWithContext` call answered with 404, made by the sample client when the file
holds its cache. -/
def sampleEvictionRun : Res Page × PickledCachedClient × FileSystem :=
  (sampleClient "urlhttps://h/r" sampleEntry).GetWithContext sampleDigest
    (answering (sampleResponse 404 "" "" "" "")) sampleSavedFS (some Context.TODO)
    "https://h/r" true

/-- A reader on which opening succeeds and whose decoder gives back the map that was
encoded, allocated also when the nil map was sent, and fails on other bytes. -/
def sampleReader : Reader :=
  { Decode := fun content =>
      match content with
      | FileContent.gob (some m) => Except.ok (some m)
      | FileContent.gob none => Except.ok (some (fun _ => none))
      | FileContent.raw _ => Except.error (Error.external "gob: decoding failed") }

/-- A JSON encoder for the closed examples: every body is encoded as the same text. -/
def sampleMarshal : Option StringMap → Except Error String :=
  fun _ => Except.ok "\x7b\x7d"

/-- A fresh `commitsIterator` whose first page is `[8,9]`, asked `HasNextWithContext` with
a cancelled context: it fetches the page, publishes 8, and then records the cancellation
in `Err`, with 9 still unconsumed in the batch. -/
def sampleCancelledMidBatchRun : Res Bool × branchesIterator Nat × List Page × List String :=
  commitsIterator.HasNextWithContext sampleParse scriptedGetter
    (branchesIterator.start Nat "https://h/r") [samplePage "https://h/r" "[8,9]" ""]
    (some cancelled)

/-- An integer parser for the closed examples: it accepts the numerals `42` and `5000`. -/
def sampleAtoi (v : String) : Option Int :=
  if v = "42" then some 42 else if v = "5000" then some 5000 else none

/-- A 200 answer of the rate-limit endpoint carrying the headers
`X-RateLimit-Remaining: 42` and `X-RateLimit-Limit: 5000`, found under every spelling of
their names that has the same canonical form. -/
def sampleRateResponse : Response :=
  { StatusCode := 200
    Header := fun k =>
      if textproto.CanonicalMIMEHeaderKey k = "X-Ratelimit-Remaining" then ["42"]
      else if textproto.CanonicalMIMEHeaderKey k = "X-Ratelimit-Limit" then ["5000"] else []
    Body := Except.ok "" }

/-- The page `GetWithContext` returns for a 404 answer to a request of `url`. -/
def sampleErrorPage (url : String) : Page :=
  { URL := url, Err := some (Error.New "Not found"), StatusCode := 404 }

/-- A pull request of the closed examples. -/
def samplePull : PullRequest :=
  { Number := 1, URL := "https://h/pulls/1" }

/-- The head commit of the sample pull request asked from the cached client, whose request
the transport answers with 404. -/
def sampleHeadCommitNotFoundRun :
    Option (Res (Option Nat × Option Error) × (PickledCachedClient × FileSystem) × List String) :=
  PullRequest.HeadCommitWithContext sampleParse
    (PickledCachedClient.pageGetter sampleDigest (answering (sampleResponse 404 "" "" "" "")))
    3 samplePull (sampleClient "urlhttps://h/r" sampleEntry, sampleFS) (some Context.TODO)

/-- The head commit of the sample pull request when the first page of commits is `[8,9]`
with a link to a second page, and the request for the second page is answered with 404. -/
def sampleHeadCommitBrokenRun :
    Option (Res (Option Nat × Option Error) × List Page × List String) :=
  PullRequest.HeadCommitWithContext sampleParse scriptedGetter 4 samplePull
    [samplePage "https://h/pulls/1/commits" "[8,9]" "https://h/pulls/1/commits?page=2",
     sampleErrorPage "https://h/pulls/1/commits?page=2"] (some Context.TODO)

/-- The sample decoder extended to empty arrays written with white space: `[ ]` and an
array with two line feeds between the brackets decode to the empty, non-nil slice. -/
def sampleParseBlank (data : String) : Option (List (Option Nat)) :=
  if data = "[ ]" ∨ data = "[\n\n]" then some [] else sampleParse data

/-- A client whose cache map is allocated and empty, as `NewCache` leaves it when there is
no cache file. -/
def sampleFreshClient : PickledCachedClient :=
  { APIToken := some { value := "t0" }, APIURL := APIURLs.URL
    cache := { Path := ".github-cache", Data := some (fun _ => none) } }

/-- A remote whose state does not change: it answers a request carrying `If-None-Match`
with the tag `etag` with 304, and any other request with the given status and body under
the tag `etag`. -/
def revalidating (status : Int) (body etag : String) : HTTP :=
  { parses := fun _ => true
    Do := fun req =>
      if req.Header "If-None-Match" = some etag then Except.ok (sampleResponse 304 "" etag "" "")
      else Except.ok (sampleResponse status body etag "" "") }

/-- A remote that knows one URL: it answers a request for `url` with `resp` and a request
for any other URL with 404. -/
def servingOnly (url : String) (resp : Response) : HTTP :=
  { parses := fun _ => true
    Do := fun req =>
      if req.URL = url then Except.ok resp else Except.ok (sampleResponse 404 "" "" "" "") }

/-- A team of the closed examples. -/
def sampleTeam : Team :=
  { ID := 1, URL := "https://api.github.com/teams/1", Name := "core" }

/-- An issue of the closed examples. -/
def sampleIssue : RepoIssue :=
  { Number := 1, URL := "https://h/issues/1" }

/-- A decoder of organisations for the closed examples: the body is taken as the login. -/
def sampleParseOrg (data : String) : Option GithubOrganisation :=
  some { Login := data }

/-- First `IsCollaborator("alice")` on the repository `o/n`, with an empty cache, the
remote answering 204 under the tag `e1`. -/
def sampleCollaboratorFirst : Res Bool × PickledCachedClient × FileSystem :=
  Repository.IsCollaborator sampleDigest (revalidating 204 "" "e1") (NewRepo "o" "n")
    sampleFreshClient sampleFS "alice"

/-- Second `IsCollaborator("alice")`, on the client and the file system the first call
left. -/
def sampleCollaboratorSecond : Res Bool × PickledCachedClient × FileSystem :=
  Repository.IsCollaborator sampleDigest (revalidating 204 "" "e1") (NewRepo "o" "n")
    sampleCollaboratorFirst.2.1 sampleCollaboratorFirst.2.2 "alice"

end Github

namespace Github

/-! ## Theorems: the cached GET -/

/-- C2: when the cache holds the entry `E` under the fingerprint of `U` and the transport
answers the request of `GetWithContext(U)` with status 304, the page returned has `Content`
equal to `E` (data, etag, last-modified and next link), status code 304 and no error, and the
client with its cache map, and the file system, are as before the call. -/
theorem GetWithContext_not_modified (sha1hex : String → String) (http : HTTP)
    (c : PickledCachedClient) (fs : FileSystem) (ctx : Option Context) (U : String)
    (useStableAPI : Bool) (resp : Response) (E : Payload)
    (hsend : c.roundTrip sha1hex http ctx U useStableAPI = Res.val (Sum.inr resp))
    (hentry : c.cache.get (c.cacheKey sha1hex U) = (E, true))
    (hstatus : resp.StatusCode = 304) :
    c.GetWithContext sha1hex http fs ctx U useStableAPI
      = (Res.val { URL := U, Content := some E, Err := none, StatusCode := 304 }, c, fs) := by
  unfold PickledCachedClient.GetWithContext
  rw [hsend]
  simp [PickledCachedClient.onResponse, hstatus, StatusNotModified, hentry]

/-- Witness of C2: a cache holding one entry, revalidated by a 304 answer. -/
theorem GetWithContext_not_modified_witness :
    (sampleClient "urlhttps://h/r" sampleEntry).GetWithContext sampleDigest
        (answering (sampleResponse 304 "" "" "" "")) sampleFS (some Context.TODO)
        "https://h/r" true
      = (Res.val { URL := "https://h/r", Content := some sampleEntry, Err := none
                   StatusCode := 304 },
         sampleClient "urlhttps://h/r" sampleEntry, sampleFS) :=
  GetWithContext_not_modified sampleDigest _ _ _ _ _ _ (sampleResponse 304 "" "" "" "") _
    (by rfl) (by rfl) (by rfl)

/-- C3: evaluation at the failing input. A 200 answer whose `Link` header is `abc` makes
`GetWithContext` panic inside `parseNextLink` (the piece has no `;`), after the old entry
was evicted and before anything is stored: no page is returned and the fingerprint of the
URL maps to nothing. -/
theorem GetWithContext_ok_malformed_link_panics :
    ((sampleClient "urlhttps://h/r" sampleEntry).GetWithContext sampleDigest
        (answering (sampleResponse 200 "[2]" "e2" "d2" "abc")) sampleFS (some Context.TODO)
        "https://h/r" true).1 = Res.panic ∧
    ((sampleClient "urlhttps://h/r" sampleEntry).GetWithContext sampleDigest
        (answering (sampleResponse 200 "[2]" "e2" "d2" "abc")) sampleFS (some Context.TODO)
        "https://h/r" true).2.1.cache.get "urlhttps://h/r" = ({}, false) := by
  constructor <;> rfl

/-- The entry `GetWithContext` builds from a 200 answer whose body is `B` and whose next
link parsed to `n`. -/
theorem onResponse_ok (sha1hex : String → String) (c : PickledCachedClient) (fs : FileSystem)
    (U : String) (resp : Response) (B n : String) (m : CacheData)
    (hmap : c.cache.Data = some m)
    (hstatus : resp.StatusCode = 200) (hbody : resp.Body = Except.ok B)
    (hlink : parseNextLink (resp.HeaderGet "Link") = Res.val n) :
    (c.onResponse sha1hex fs U resp).1
        = Res.val { URL := U
                    Content := some { Data := B, ETag := resp.HeaderGet "ETag"
                                      LastModified := resp.HeaderGet "Last-Modified"
                                      NextLink := n }
                    Err := none, StatusCode := 200 } ∧
      (c.onResponse sha1hex fs U resp).2.1.cache.get (c.cacheKey sha1hex U)
        = ({ Data := B, ETag := resp.HeaderGet "ETag"
             LastModified := resp.HeaderGet "Last-Modified", NextLink := n }, true) := by
  simp [PickledCachedClient.onResponse, hstatus, StatusNotModified, StatusNotFound,
    StatusForbidden, StatusOK, hbody, hlink, PickledCache.update, PickledCache.delete, hmap,
    PickledCache.get, CacheData.putAll, PickledCachedClient.cacheKey]

/-- The entry `GetWithContext` builds from a 204 answer. -/
theorem onResponse_no_content (sha1hex : String → String) (c : PickledCachedClient)
    (fs : FileSystem) (U : String) (resp : Response) (m : CacheData)
    (hmap : c.cache.Data = some m) (hstatus : resp.StatusCode = 204) :
    (c.onResponse sha1hex fs U resp).1
        = Res.val { URL := ""
                    Content := some { Data := "", ETag := resp.HeaderGet "ETag"
                                      LastModified := resp.HeaderGet "Last-Modified"
                                      NextLink := "" }
                    Err := none, StatusCode := 204 } ∧
      (c.onResponse sha1hex fs U resp).2.1.cache.get (c.cacheKey sha1hex U)
        = ({ Data := "", ETag := resp.HeaderGet "ETag"
             LastModified := resp.HeaderGet "Last-Modified", NextLink := "" }, true) := by
  simp [PickledCachedClient.onResponse, hstatus, StatusNotModified, StatusNotFound,
    StatusForbidden, StatusOK, StatusNoContent, PickledCache.update, PickledCache.delete, hmap,
    PickledCache.get, CacheData.putAll, PickledCachedClient.cacheKey]

/-- C4: when the transport answers the request of `GetWithContext(U)` with a status other
than 304, then after the call (also when it ended in a panic) the fingerprint of `U` maps
to nothing, or to the entry built from this response; it maps to nothing when the status
is neither 200 nor 204 and when the body of a 200 answer could not be read; and the lookup
under every other key gives what it gave before the call. -/
theorem GetWithContext_evicts (sha1hex : String → String) (http : HTTP)
    (c : PickledCachedClient) (fs : FileSystem) (ctx : Option Context) (U : String)
    (useStableAPI : Bool) (resp : Response)
    (hsend : c.roundTrip sha1hex http ctx U useStableAPI = Res.val (Sum.inr resp))
    (hstatus : resp.StatusCode ≠ 304) :
    ((resp.StatusCode ≠ 200 ∧ resp.StatusCode ≠ 204) →
      (c.GetWithContext sha1hex http fs ctx U useStableAPI).2.1.cache.get
        (c.cacheKey sha1hex U) = ({}, false)) ∧
    (∀ e, resp.StatusCode = 200 → resp.Body = Except.error e →
      (c.GetWithContext sha1hex http fs ctx U useStableAPI).2.1.cache.get
        (c.cacheKey sha1hex U) = ({}, false)) ∧
    ((c.GetWithContext sha1hex http fs ctx U useStableAPI).2.1.cache.get
        (c.cacheKey sha1hex U) = ({}, false) ∨
     (∃ B n, resp.StatusCode = 200 ∧ resp.Body = Except.ok B ∧
        parseNextLink (resp.HeaderGet "Link") = Res.val n ∧
        (c.GetWithContext sha1hex http fs ctx U useStableAPI).2.1.cache.get
          (c.cacheKey sha1hex U)
          = ({ Data := B, ETag := resp.HeaderGet "ETag"
               LastModified := resp.HeaderGet "Last-Modified", NextLink := n }, true)) ∨
     (resp.StatusCode = 204 ∧
        (c.GetWithContext sha1hex http fs ctx U useStableAPI).2.1.cache.get
          (c.cacheKey sha1hex U)
          = ({ Data := "", ETag := resp.HeaderGet "ETag"
               LastModified := resp.HeaderGet "Last-Modified", NextLink := "" }, true))) ∧
    (∀ k, k ≠ c.cacheKey sha1hex U →
      (c.GetWithContext sha1hex http fs ctx U useStableAPI).2.1.cache.get k
        = c.cache.get k) := by
  unfold PickledCachedClient.GetWithContext
  rw [hsend]
  have h304 : ¬ resp.StatusCode = StatusNotModified := hstatus
  obtain ⟨token, url, ⟨path, data⟩⟩ := c
  cases data with
  | none =>
    by_cases h404 : resp.StatusCode = StatusNotFound
    · simp_all [PickledCachedClient.onResponse, PickledCache.delete, PickledCache.get,
        PickledCachedClient.cacheKey, StatusNotFound]
    by_cases h403 : resp.StatusCode = StatusForbidden
    · simp_all [PickledCachedClient.onResponse, PickledCache.delete, PickledCache.get,
        PickledCachedClient.cacheKey, StatusForbidden, StatusNotFound]
    by_cases h200 : resp.StatusCode = StatusOK
    · cases hb : resp.Body <;> cases hl : parseNextLink (resp.HeaderGet "Link") <;>
        simp_all [PickledCachedClient.onResponse, PickledCache.delete, PickledCache.get,
          PickledCachedClient.cacheKey, StatusForbidden, StatusNotFound, StatusOK,
          PickledCache.update]
    by_cases h204 : resp.StatusCode = StatusNoContent
    · simp_all [PickledCachedClient.onResponse, PickledCache.delete, PickledCache.get,
        PickledCachedClient.cacheKey, StatusForbidden, StatusNotFound, StatusOK,
        StatusNoContent, PickledCache.update]
    · simp_all [PickledCachedClient.onResponse, PickledCache.delete, PickledCache.get,
        PickledCachedClient.cacheKey, StatusForbidden, StatusNotFound, StatusOK,
        StatusNoContent]
  | some m =>
    by_cases h404 : resp.StatusCode = StatusNotFound
    · simp_all [PickledCachedClient.onResponse, PickledCache.delete, PickledCache.get,
        PickledCachedClient.cacheKey, StatusNotFound]
    by_cases h403 : resp.StatusCode = StatusForbidden
    · simp_all [PickledCachedClient.onResponse, PickledCache.delete, PickledCache.get,
        PickledCachedClient.cacheKey, StatusForbidden, StatusNotFound]
    by_cases h200 : resp.StatusCode = StatusOK
    · cases hb : resp.Body <;> cases hl : parseNextLink (resp.HeaderGet "Link") <;>
        simp_all [PickledCachedClient.onResponse, PickledCache.delete, PickledCache.get,
          PickledCachedClient.cacheKey, StatusForbidden, StatusNotFound, StatusOK,
          PickledCache.update, CacheData.putAll]
    by_cases h204 : resp.StatusCode = StatusNoContent
    · simp_all [PickledCachedClient.onResponse, PickledCache.delete, PickledCache.get,
        PickledCachedClient.cacheKey, StatusForbidden, StatusNotFound, StatusOK,
        StatusNoContent, PickledCache.update, CacheData.putAll]
    · simp_all [PickledCachedClient.onResponse, PickledCache.delete, PickledCache.get,
        PickledCachedClient.cacheKey, StatusForbidden, StatusNotFound, StatusOK,
        StatusNoContent]

/-- Witness of C4: a cached entry is replaced by the entry of a 200 answer, and another key
is looked up as before. -/
theorem GetWithContext_evicts_witness :
    (sampleClient "urlhttps://h/r" sampleEntry).roundTrip sampleDigest
        (answering (sampleResponse 200 "[2]" "e2" "d2" "")) (some Context.TODO)
        "https://h/r" true
      = Res.val (Sum.inr (sampleResponse 200 "[2]" "e2" "d2" "")) ∧
    (sampleResponse 200 "[2]" "e2" "d2" "").StatusCode ≠ 304 ∧
    ((sampleClient "urlhttps://h/r" sampleEntry).GetWithContext sampleDigest
        (answering (sampleResponse 200 "[2]" "e2" "d2" "")) sampleFS (some Context.TODO)
        "https://h/r" true).2.1.cache.get "urlhttps://h/q"
      = (sampleClient "urlhttps://h/r" sampleEntry).cache.get "urlhttps://h/q" :=
  ⟨by rfl, by decide,
   (GetWithContext_evicts sampleDigest (answering (sampleResponse 200 "[2]" "e2" "d2" ""))
      (sampleClient "urlhttps://h/r" sampleEntry) sampleFS (some Context.TODO) "https://h/r"
      true (sampleResponse 200 "[2]" "e2" "d2" "") (by rfl) (by decide)).2.2.2
      "urlhttps://h/q" (by decide)⟩

/-- C5: when the transport answers the request of `GetWithContext(U)`: status 404 gives a
page with the error "Not found", status code 404 and no content; status 403 gives a page
with the error "Forbidden", a different error, status code 403 and no content; every
status outside 200, 204, 304, 403 and 404 gives a page whose error message is "HTTP GET
request returned status code " followed by the status in decimal, whose status code is
that status and which has no content. -/
theorem GetWithContext_status_errors (sha1hex : String → String) (http : HTTP)
    (c : PickledCachedClient) (fs : FileSystem) (ctx : Option Context) (U : String)
    (useStableAPI : Bool) (resp : Response)
    (hsend : c.roundTrip sha1hex http ctx U useStableAPI = Res.val (Sum.inr resp)) :
    (resp.StatusCode = 404 →
      (c.GetWithContext sha1hex http fs ctx U useStableAPI).1
        = Res.val { URL := U, Content := none, Err := some (Error.New "Not found")
                    StatusCode := 404 }) ∧
    (resp.StatusCode = 403 →
      (c.GetWithContext sha1hex http fs ctx U useStableAPI).1
        = Res.val { URL := U, Content := none, Err := some (Error.New "Forbidden")
                    StatusCode := 403 }) ∧
    Error.New "Forbidden" ≠ Error.New "Not found" ∧
    ((resp.StatusCode ≠ 200 ∧ resp.StatusCode ≠ 204 ∧ resp.StatusCode ≠ 304 ∧
        resp.StatusCode ≠ 403 ∧ resp.StatusCode ≠ 404) →
      (c.GetWithContext sha1hex http fs ctx U useStableAPI).1
        = Res.val { URL := "", Content := none
                    Err := some (Error.New ("HTTP GET request returned status code " ++
                                            toString resp.StatusCode))
                    StatusCode := resp.StatusCode }) := by
  unfold PickledCachedClient.GetWithContext
  rw [hsend]
  refine ⟨?_, ?_, by decide, ?_⟩
  · intro h
    simp [PickledCachedClient.onResponse, h, StatusNotModified, StatusNotFound]
  · intro h
    simp [PickledCachedClient.onResponse, h, StatusNotModified, StatusNotFound,
      StatusForbidden]
  · rintro ⟨h200, h204, h304, h403, h404⟩
    simp [PickledCachedClient.onResponse, h200, h204, h304, h403, h404, StatusNotModified,
      StatusNotFound, StatusForbidden, StatusOK, StatusNoContent]

/-- Witness of C5: a 500 answer gives the page with the message carrying 500. -/
theorem GetWithContext_status_errors_witness :
    (sampleClient "urlhttps://h/r" sampleEntry).roundTrip sampleDigest
        (answering (sampleResponse 500 "" "" "" "")) (some Context.TODO) "https://h/r" true
      = Res.val (Sum.inr (sampleResponse 500 "" "" "" "")) ∧
    ((sampleClient "urlhttps://h/r" sampleEntry).GetWithContext sampleDigest
        (answering (sampleResponse 500 "" "" "" "")) sampleFS (some Context.TODO)
        "https://h/r" true).1
      = Res.val { URL := "", Content := none
                  Err := some (Error.New "HTTP GET request returned status code 500")
                  StatusCode := 500 } :=
  ⟨by rfl,
   (GetWithContext_status_errors sampleDigest (answering (sampleResponse 500 "" "" "" ""))
      (sampleClient "urlhttps://h/r" sampleEntry) sampleFS (some Context.TODO) "https://h/r"
      true (sampleResponse 500 "" "" "" "") (by rfl)).2.2.2
      ⟨by decide, by decide, by decide, by decide, by decide⟩⟩

/-! ## Theorems: the Link header -/

/-- C7: evaluation at the failing inputs. On the header `abc`, on a header whose URL holds
a comma, and on a header with a malformed piece before a well-formed `rel="next"` piece,
`parseNextLink` panics: `tokens[1]` is read from a one-element slice. -/
theorem parseNextLink_malformed_panics :
    parseNextLink "abc" = Res.panic ∧
    parseNextLink "<https://h/r?a=1,2&page=2>; rel=\"next\"" = Res.panic ∧
    parseNextLink "abc, <https://h/r?page=2>; rel=\"next\"" = Res.panic := by
  refine ⟨by rfl, by rfl, by rfl⟩

/-- C6: evaluation at the failing input. The header made of the descriptors
`<https://h/r?page=1>; rel="a,b"` and `<https://h/r?page=2>; rel="next"` has the form the
claim describes (URLs without comma, semicolon or angle bracket) and its second descriptor
has the relation `next`, yet `parseNextLink` panics on it, and on its first descriptor
alone: the split at the commas cuts the relation name `a,b`, and `tokens[1]` is read from
the one-element slice of the piece `b"`. -/
theorem parseNextLink_comma_in_relation_panics :
    (∀ d ∈ [({ url := "https://h/r?page=1", rel := "a,b" } : LinkDescriptor),
            { pad := " ", url := "https://h/r?page=2", rel := "next" }], d.WellFormed) ∧
    linkHeader [{ url := "https://h/r?page=1", rel := "a,b" },
                { pad := " ", url := "https://h/r?page=2", rel := "next" }]
      = "<https://h/r?page=1>; rel=\"a,b\", <https://h/r?page=2>; rel=\"next\"" ∧
    nextOf [{ url := "https://h/r?page=1", rel := "a,b" },
            { pad := " ", url := "https://h/r?page=2", rel := "next" }]
      = "https://h/r?page=2" ∧
    parseNextLink "<https://h/r?page=1>; rel=\"a,b\", <https://h/r?page=2>; rel=\"next\""
      = Res.panic ∧
    parseNextLink "<https://h/r?page=1>; rel=\"a,b\"" = Res.panic := by
  refine ⟨?_, by rfl, by rfl, by rfl, by rfl⟩
  intro d hd
  simp only [List.mem_cons, List.mem_singleton, List.not_mem_nil, or_false] at hd
  rcases hd with rfl | rfl <;> exact ⟨by decide, by decide⟩

/-- `Split` never returns the empty slice. -/
theorem Split_ne_nil (sep : Char) (l : List Char) : strings.Split sep l ≠ [] := by
  cases l with
  | nil => simp [strings.Split]
  | cons c cs =>
    unfold strings.Split
    cases strings.Split sep cs with
    | nil => simp
    | cons p ps => by_cases h : c = sep <;> simp [h]

/-- A string without the separator is its own single piece. -/
theorem Split_of_not_mem (sep : Char) (l : List Char) (h : sep ∉ l) :
    strings.Split sep l = [l] := by
  induction l with
  | nil => simp [strings.Split]
  | cons c cs ih =>
    have hc : c ≠ sep := fun e => h (by simp [e])
    have hcs : sep ∉ cs := fun e => h (by simp [e])
    unfold strings.Split
    rw [ih hcs]
    simp [hc]

/-- The first piece of a split ends at the first separator. -/
theorem Split_append_sep (sep : Char) (l r : List Char) (h : sep ∉ l) :
    strings.Split sep (l ++ sep :: r) = l :: strings.Split sep r := by
  induction l with
  | nil =>
    show strings.Split sep (sep :: r) = [] :: strings.Split sep r
    have hne := Split_ne_nil sep r
    rw [strings.Split]
    cases hs : strings.Split sep r with
    | nil => exact absurd hs hne
    | cons p ps => simp
  | cons c cs ih =>
    have hc : c ≠ sep := fun e => h (by simp [e])
    have hcs : sep ∉ cs := fun e => h (by simp [e])
    show strings.Split sep (c :: (cs ++ sep :: r)) = (c :: cs) :: strings.Split sep r
    rw [strings.Split, ih hcs]
    simp [hc]

/-- Leading characters that all satisfy the test are dropped. -/
theorem dropWhile_append_of_all (f : Char → Bool) (pre l : List Char)
    (h : ∀ c ∈ pre, f c = true) : (pre ++ l).dropWhile f = l.dropWhile f := by
  induction pre with
  | nil => rfl
  | cons a as ih =>
    have ha : f a = true := h a (by simp)
    have has : ∀ c ∈ as, f c = true := fun c hc => h c (by simp [hc])
    simp [List.dropWhile, ha, ih has]

/-- Trimming on both sides gives back the core, when the padding satisfies the test and
neither end of the core does. -/
theorem trim_core (f : Char → Bool) (pre l post : List Char)
    (hpre : ∀ c ∈ pre, f c = true) (hpost : ∀ c ∈ post, f c = true)
    (hhead : ∀ a t, l = a :: t → f a = false)
    (hlast : ∀ t z, l = t ++ [z] → f z = false) :
    strings.trimRight f ((pre ++ (l ++ post)).dropWhile f) = l := by
  have hrev : ∀ c ∈ post.reverse, f c = true := fun c hc => hpost c (by simpa using hc)
  rw [dropWhile_append_of_all f pre _ hpre]
  rcases List.eq_nil_or_concat l with hl | ⟨t, z, hl⟩
  · subst hl
    have h1 : post.dropWhile f = [] := by
      rw [List.dropWhile_eq_nil_iff]
      exact hpost
    simp [h1, strings.trimRight]
  · rw [List.concat_eq_append] at hl
    have hz : f z = false := hlast t z hl
    have h1 : (l ++ post).dropWhile f = l ++ post := by
      cases l with
      | nil => simp at hl
      | cons a u =>
        have ha : f a = false := hhead a u rfl
        simp [List.dropWhile, ha]
    rw [h1]
    unfold strings.trimRight
    rw [List.reverse_append, dropWhile_append_of_all f _ _ hrev, hl]
    simp [List.dropWhile, hz]

/-- The two pieces of a well-formed descriptor with a plain relation name around its
semicolon. -/
theorem Split_descriptor (d : LinkDescriptor) (hd : d.WellFormed ∧ d.PlainRelation) :
    strings.Split ';' d.chars
      = [d.pad.data ++ '<' :: (d.url.data ++ ['>']),
         ' ' :: 'r' :: 'e' :: 'l' :: '=' :: '"' :: (d.rel.data ++ ['"'])] := by
  obtain ⟨⟨hpad, hurl⟩, hrel⟩ := hd
  have h1 : ';' ∉ d.pad.data ++ '<' :: (d.url.data ++ ['>']) := by
    intro hmem
    simp only [List.mem_append, List.mem_cons, List.mem_singleton, List.not_mem_nil,
      or_false] at hmem
    rcases hmem with h | h | h | h
    · have := hpad _ h
      revert this
      decide
    · revert h; decide
    · exact (hurl _ h).2.1 rfl
    · revert h; decide
  have h2 : ';' ∉ ' ' :: 'r' :: 'e' :: 'l' :: '=' :: '"' :: (d.rel.data ++ ['"']) := by
    intro hmem
    simp only [List.mem_append, List.mem_cons, List.mem_singleton, List.not_mem_nil,
      or_false] at hmem
    rcases hmem with h | h | h | h | h | h | h | h
    · revert h; decide
    · revert h; decide
    · revert h; decide
    · revert h; decide
    · revert h; decide
    · revert h; decide
    · exact (hrel _ h).2.1 rfl
    · revert h; decide
  have hchars : d.chars = (d.pad.data ++ '<' :: (d.url.data ++ ['>'])) ++ ';' ::
      (' ' :: 'r' :: 'e' :: 'l' :: '=' :: '"' :: (d.rel.data ++ ['"'])) := by
    simp [LinkDescriptor.chars]
  rw [hchars, Split_append_sep ';' _ _ h1, Split_of_not_mem ';' _ h2]

/-- A well-formed descriptor with a plain relation name holds no comma. -/
theorem comma_not_mem_chars (d : LinkDescriptor) (hd : d.WellFormed ∧ d.PlainRelation) : ',' ∉ d.chars := by
  obtain ⟨⟨hpad, hurl⟩, hrel⟩ := hd
  intro hmem
  simp only [LinkDescriptor.chars, List.mem_append, List.mem_cons, List.mem_singleton,
    List.not_mem_nil, or_false] at hmem
  rcases hmem with h | h | h | h | h | h | h | h | h | h | h | h | h
  · have := hpad _ h
    revert this
    decide
  · revert h; decide
  · exact (hurl _ h).1 rfl
  · revert h; decide
  · revert h; decide
  · revert h; decide
  · revert h; decide
  · revert h; decide
  · revert h; decide
  · revert h; decide
  · revert h; decide
  · exact (hrel _ h).1 rfl
  · revert h; decide

/-- The prefix test of `parseNextLink` on a relation name without double quote: it
succeeds exactly for the name `next`. -/
theorem next_isPrefixOf_rel (rel : List Char) (hrel : '"' ∉ rel) :
    ['n', 'e', 'x', 't', '"'].isPrefixOf (rel ++ ['"']) = decide (rel = ['n', 'e', 'x', 't']) := by
  rcases rel with _ | ⟨a, _ | ⟨b, _ | ⟨c, _ | ⟨d, _ | ⟨e, r⟩⟩⟩⟩⟩
  · decide
  · simp [List.isPrefixOf]
  · simp [List.isPrefixOf]
  · simp [List.isPrefixOf]
  · rw [Bool.eq_iff_iff]
    simp only [List.isPrefixOf, List.cons_append, List.nil_append, Bool.and_eq_true,
      beq_iff_eq, decide_eq_true_eq, Bool.and_true, List.cons.injEq, and_true]
    constructor <;> rintro ⟨h1, h2, h3, h4⟩ <;> exact ⟨h1.symm, h2.symm, h3.symm, h4.symm⟩
  · have he : e ≠ '"' := fun h => hrel (by simp [h])
    simp only [List.isPrefixOf, List.cons_append]
    rw [Bool.eq_iff_iff]
    simp only [Bool.and_eq_true, beq_iff_eq, decide_eq_true_eq, Bool.and_true]
    constructor
    · rintro ⟨_, _, _, _, h⟩
      exact absurd h.symm he
    · intro h
      simp at h

/-- One round of the loop of `parseNextLink` on a well-formed descriptor with a plain
relation name. -/
theorem parseNextLinkLoop_cons (d : LinkDescriptor) (hd : d.WellFormed ∧ d.PlainRelation)
    (rest : List (List Char)) :
    parseNextLinkLoop (d.chars :: rest)
      = if d.rel = "next" then Res.val d.url else parseNextLinkLoop rest := by
  have hsplit := Split_descriptor d hd
  obtain ⟨⟨hpad, hurl⟩, hrel⟩ := hd
  have hwhat : strings.TrimSpace (' ' :: 'r' :: 'e' :: 'l' :: '=' :: '"' :: (d.rel.data ++ ['"']))
      = 'r' :: 'e' :: 'l' :: '=' :: '"' :: (d.rel.data ++ ['"']) := by
    have h := trim_core strings.isSpace [' ']
      ('r' :: 'e' :: 'l' :: '=' :: '"' :: (d.rel.data ++ ['"'])) []
      (by decide) (by simp)
      (by intro a t h; injection h with h1 _; subst h1; decide)
      (by
        intro t z h
        have h2 : 'r' :: 'e' :: 'l' :: '=' :: '"' :: (d.rel.data ++ ['"'])
            = ('r' :: 'e' :: 'l' :: '=' :: '"' :: d.rel.data) ++ ['"'] := by simp
        rw [h2] at h
        have := List.append_inj_right' h rfl
        injection this with h3 _
        subst h3
        decide)
    simpa [strings.TrimSpace] using h
  have hurlTrim : strings.TrimSpace (d.pad.data ++ '<' :: (d.url.data ++ ['>']))
      = '<' :: (d.url.data ++ ['>']) := by
    have h := trim_core strings.isSpace d.pad.data ('<' :: (d.url.data ++ ['>'])) []
      hpad (by simp)
      (by intro a t h; injection h with h1 _; subst h1; decide)
      (by
        intro t z h
        have h2 : '<' :: (d.url.data ++ ['>']) = ('<' :: d.url.data) ++ ['>'] := by simp
        rw [h2] at h
        have := List.append_inj_right' h rfl
        injection this with h3 _
        subst h3
        decide)
    simpa [strings.TrimSpace] using h
  have hcut : strings.Trim ('<' :: (d.url.data ++ ['>'])) "<>".data = d.url.data := by
    have hnot : ∀ c ∈ d.url.data, (['<', '>'].contains c) = false := by
      intro c hc
      have := hurl c hc
      simp [this.2.2.1, this.2.2.2]
    have h := trim_core (fun c => ['<', '>'].contains c) ['<'] d.url.data ['>']
      (by decide) (by decide)
      (by intro a t h; exact hnot a (by simp [h]))
      (by intro t z h; exact hnot z (by simp [h]))
    simpa [strings.Trim] using h
  have hq : '"' ∉ d.rel.data := fun h => (hrel _ h).2.2 rfl
  have hpre : strings.HasPrefix ('r' :: 'e' :: 'l' :: '=' :: '"' :: (d.rel.data ++ ['"']))
      "rel=\"next\"".data = decide (d.rel.data = ['n', 'e', 'x', 't']) := by
    rw [← next_isPrefixOf_rel d.rel.data hq]
    simp [strings.HasPrefix, List.isPrefixOf]
  have hrelEq : (d.rel = "next") ↔ d.rel.data = ['n', 'e', 'x', 't'] := by
    constructor
    · intro h; rw [h]
    · intro h
      cases hr : d.rel with
      | mk l =>
        rw [hr] at h
        simp only at h
        rw [h]
  rw [parseNextLinkLoop, hsplit]
  simp only [hwhat, hurlTrim, hcut, hpre]
  by_cases hn : d.rel = "next"
  · have := hrelEq.mp hn
    simp [hn, this]
  · have : ¬ d.rel.data = ['n', 'e', 'x', 't'] := fun h => hn (hrelEq.mpr h)
    simp [hn, this]

/-- The loop of `parseNextLink` over well-formed descriptors with plain relation names
finds the first `next`. -/
theorem parseNextLinkLoop_descriptors (ds : List LinkDescriptor)
    (hds : ∀ d ∈ ds, d.WellFormed ∧ d.PlainRelation) :
    parseNextLinkLoop (ds.map LinkDescriptor.chars) = Res.val (nextOf ds) := by
  induction ds with
  | nil => rfl
  | cons d ds ih =>
    have hd : d.WellFormed ∧ d.PlainRelation := hds d (by simp)
    have hrest : ∀ e ∈ ds, e.WellFormed ∧ e.PlainRelation := fun e he => hds e (by simp [he])
    rw [List.map_cons, parseNextLinkLoop_cons d hd, ih hrest]
    by_cases hn : d.rel = "next" <;> simp [nextOf, hn]

/-- Splitting a header of well-formed descriptors with plain relation names at the commas
gives the descriptors. -/
theorem Split_linkHeaderChars (ds : List LinkDescriptor) (hne : ds ≠ [])
    (hds : ∀ d ∈ ds, d.WellFormed ∧ d.PlainRelation) :
    strings.Split ',' (linkHeaderChars ds) = ds.map LinkDescriptor.chars := by
  induction ds with
  | nil => exact absurd rfl hne
  | cons d ds ih =>
    have hd : d.WellFormed ∧ d.PlainRelation := hds d (by simp)
    cases ds with
    | nil => simp [linkHeaderChars, Split_of_not_mem ',' _ (comma_not_mem_chars d hd)]
    | cons e es =>
      have hrest : ∀ x ∈ e :: es, x.WellFormed ∧ x.PlainRelation := fun x hx => hds x (by simp [hx])
      rw [linkHeaderChars, Split_append_sep ',' _ _ (comma_not_mem_chars d hd),
        ih (by simp) hrest]
      simp

/-- A header of at least one descriptor is not the empty string. -/
theorem linkHeader_ne_empty (ds : List LinkDescriptor) (hne : ds ≠ []) :
    linkHeader ds ≠ "" := by
  intro h
  have h1 : linkHeaderChars ds = [] := by
    have := congrArg String.data h
    simpa [linkHeader] using this
  cases ds with
  | nil => exact hne rfl
  | cons d ds =>
    cases ds with
    | nil => simp [linkHeaderChars, LinkDescriptor.chars] at h1
    | cons e es => simp [linkHeaderChars, LinkDescriptor.chars] at h1

/-- On a `Link` header made of at least one comma-separated descriptor `<url>; rel="rel"`
(white space allowed before a descriptor; URLs without comma, semicolon or angle bracket)
whose relation names, in addition, hold no comma, semicolon or double quote,
`parseNextLink` returns the URL of the first descriptor whose relation is exactly `next`,
as it stands between the angle brackets, and the empty string when no descriptor has the
relation `next`; on the empty header it returns the empty string. -/
theorem parseNextLink_well_formed (ds : List LinkDescriptor) (hne : ds ≠ [])
    (hds : ∀ d ∈ ds, d.WellFormed ∧ d.PlainRelation) :
    parseNextLink (linkHeader ds) = Res.val (nextOf ds) ∧
    (∀ pre d post, ds = pre ++ d :: post → d.rel = "next" → (∀ e ∈ pre, e.rel ≠ "next") →
      parseNextLink (linkHeader ds) = Res.val d.url) ∧
    ((∀ d ∈ ds, d.rel ≠ "next") → parseNextLink (linkHeader ds) = Res.val "") ∧
    parseNextLink "" = Res.val "" := by
  have hmain : parseNextLink (linkHeader ds) = Res.val (nextOf ds) := by
    unfold parseNextLink
    rw [if_neg (linkHeader_ne_empty ds hne)]
    show parseNextLinkLoop (strings.Split ',' (linkHeaderChars ds)) = _
    rw [Split_linkHeaderChars ds hne hds, parseNextLinkLoop_descriptors ds hds]
  refine ⟨hmain, ?_, ?_, by rfl⟩
  · intro pre d post hsplit hnext hpre
    rw [hmain, hsplit]
    clear hmain hsplit hds hne
    induction pre with
    | nil => simp [nextOf, hnext]
    | cons e es ih =>
      have he : e.rel ≠ "next" := hpre e (by simp)
      have hes : ∀ x ∈ es, x.rel ≠ "next" := fun x hx => hpre x (by simp [hx])
      simp only [List.cons_append, nextOf, he, if_false]
      exact ih hes
  · intro hnone
    rw [hmain]
    clear hmain hds hne
    induction ds with
    | nil => rfl
    | cons e es ih =>
      have he : e.rel ≠ "next" := hnone e (by simp)
      have hes : ∀ x ∈ es, x.rel ≠ "next" := fun x hx => hnone x (by simp [hx])
      simp only [nextOf, he, if_false]
      exact ih hes

/-- The header GitHub sends on the second of five pages: the link to the third page is
found. -/
theorem parseNextLink_well_formed_witness :
    linkHeader
      [{ url := "https://h/r?page=1", rel := "prev" },
       { pad := " ", url := "https://h/r?page=3", rel := "next" },
       { pad := " ", url := "https://h/r?page=5", rel := "last" }]
      = "<https://h/r?page=1>; rel=\"prev\", <https://h/r?page=3>; rel=\"next\", <https://h/r?page=5>; rel=\"last\"" ∧
    parseNextLink (linkHeader
      [{ url := "https://h/r?page=1", rel := "prev" },
       { pad := " ", url := "https://h/r?page=3", rel := "next" },
       { pad := " ", url := "https://h/r?page=5", rel := "last" }])
      = Res.val "https://h/r?page=3" :=
  ⟨by rfl, (parseNextLink_well_formed
    [{ url := "https://h/r?page=1", rel := "prev" },
     { pad := " ", url := "https://h/r?page=3", rel := "next" },
     { pad := " ", url := "https://h/r?page=5", rel := "last" }]
    (by simp)
    (by
      intro d hd
      simp only [List.mem_cons, List.mem_singleton, List.not_mem_nil, or_false] at hd
      rcases hd with rfl | rfl | rfl <;>
        refine ⟨⟨by decide, by decide⟩, by unfold LinkDescriptor.PlainRelation; decide⟩)).1⟩

/-! ## Theorems: the page iterator -/

/-- C8: `NextWithContext` makes at most one request per call. When no page was fetched
yet the request is for `StartURL`; when the current page has content with a non-empty
`NextLink` the request is for exactly that link. In both cases, when the getter produces
a page, the call returns that page, stores it as `Current` and makes `Error()` return the
page's `Err`. -/
theorem NextWithContext_requests_in_order {σ : Type} (g : PageGetter σ)
    (i : GithubPageIterator) (s : σ) (ctx : Option Context) :
    (i.NextWithContext g s ctx).2.2.2.length ≤ 1 ∧
    (∀ url,
      ((i.Current = none ∧ url = i.StartURL) ∨
        (∃ cur content, i.Current = some cur ∧ cur.Content = some content ∧
          content.NextLink ≠ "" ∧ url = content.NextLink)) →
      (i.NextWithContext g s ctx).2.2.2 = [url] ∧
      ∀ page s1, g.GetWithContext s ctx url true = (Res.val (some page), s1) →
        i.NextWithContext g s ctx
          = (Res.val (some page), { i with Current := some page, err := page.Err }, s1, [url]) ∧
        (i.NextWithContext g s ctx).2.1.Current = some page ∧
        (i.NextWithContext g s ctx).2.1.Error = page.Err) := by
  constructor
  · unfold GithubPageIterator.NextWithContext
    cases hu : i.nextURL with
    | panic => simp
    | val o =>
      cases o with
      | none => simp
      | some url =>
        simp only
        rcases hg : g.GetWithContext s ctx url true with ⟨r, s1⟩
        cases r with
        | panic => simp
        | val q => cases q <;> simp
  · intro url hcase
    have hurl : i.nextURL = Res.val (some url) := by
      rcases hcase with ⟨hc, rfl⟩ | ⟨cur, content, hc, hcont, hne, rfl⟩
      · simp [GithubPageIterator.nextURL, hc]
      · simp [GithubPageIterator.nextURL, hc, Page.IsLast, hcont, hne]
    constructor
    · unfold GithubPageIterator.NextWithContext
      rw [hurl]
      simp only
      rcases hg : g.GetWithContext s ctx url true with ⟨r, s1⟩
      cases r with
      | panic => simp
      | val q => cases q <;> simp
    · intro page s1 hg
      simp [GithubPageIterator.NextWithContext, hurl, hg, GithubPageIterator.Error]

/-- Witness of C8: the second call of an iterator whose current page links to page 2
requests that link and stores the page served. -/
theorem NextWithContext_requests_in_order_witness :
    (({ StartURL := "https://h/r"
        Current := some { URL := "https://h/r", Content := some sampleEntry, StatusCode := 200 } } :
        GithubPageIterator).NextWithContext scriptedGetter
        [{ URL := "https://h/r?page=2", Content := some { Data := "[3]" }, StatusCode := 200 }]
        (some Context.TODO)).2.2.2 = ["https://h/r?page=2"] :=
  ((NextWithContext_requests_in_order scriptedGetter
      { StartURL := "https://h/r"
        Current := some { URL := "https://h/r", Content := some sampleEntry, StatusCode := 200 } }
      [{ URL := "https://h/r?page=2", Content := some { Data := "[3]" }, StatusCode := 200 }]
      (some Context.TODO)).2 "https://h/r?page=2"
    (Or.inr ⟨_, sampleEntry, rfl, rfl, by decide, rfl⟩)).1

/-- C9, as stated, fails: a page whose body is `[]` but whose `NextLink` is not empty has no
content, yet `IsLast` returns false for it, and `NextWithContext` with that current page
requests the link from the getter and returns the page served, not nil. -/
theorem IsLast_empty_body_with_link :
    (({ Content := some { Data := "[]", NextLink := "https://h/r?page=2" } } : Page).NoContent
      = true) ∧
    (({ Content := some { Data := "[]", NextLink := "https://h/r?page=2" } } : Page).IsLast
      = Res.val false) ∧
    (({ StartURL := "https://h/r"
        Current := some { Content := some { Data := "[]", NextLink := "https://h/r?page=2" } } } :
        GithubPageIterator).NextWithContext scriptedGetter
        [{ URL := "https://h/r?page=2", Content := some { Data := "[3]" }, StatusCode := 200 }]
        (some Context.TODO)).1
      = Res.val (some { URL := "https://h/r?page=2", Content := some { Data := "[3]" }
                        StatusCode := 200 }) ∧
    (({ StartURL := "https://h/r"
        Current := some { Content := some { Data := "[]", NextLink := "https://h/r?page=2" } } } :
        GithubPageIterator).NextWithContext scriptedGetter
        [{ URL := "https://h/r?page=2", Content := some { Data := "[3]" }, StatusCode := 200 }]
        (some Context.TODO)).2.2.2 = ["https://h/r?page=2"] := by
  refine ⟨by rfl, by rfl, by rfl, by rfl⟩

/-- C9, amended: for a page whose `Content` is present, `IsLast` returns, without
panicking, whether `Content.NextLink` is empty, whatever the body; and when the current
page has content with an empty `NextLink`, `NextWithContext` returns nil, requests
nothing from the getter and leaves the iterator and the getter's state as they were. -/
theorem IsLast_iff_no_next_link (p : Page) (content : Payload)
    (hcontent : p.Content = some content) :
    p.IsLast = Res.val (decide (content.NextLink = "")) ∧
    (content.NextLink = "" →
      p.IsLast = Res.val true ∧
      ∀ (σ : Type) (g : PageGetter σ) (i : GithubPageIterator) (s : σ) (ctx : Option Context),
        i.Current = some p → i.NextWithContext g s ctx = (Res.val none, i, s, [])) := by
  refine ⟨by simp [Page.IsLast, hcontent], fun hlink => ⟨by simp [Page.IsLast, hcontent, hlink], ?_⟩⟩
  intro σ g i s ctx hcur
  simp [GithubPageIterator.NextWithContext, GithubPageIterator.nextURL, hcur, Page.IsLast,
    hcontent, hlink]

/-- Witness of C9 amended: a page with content and no next link is last. -/
theorem IsLast_iff_no_next_link_witness :
    ({ Content := some { Data := "[3]" } } : Page).IsLast = Res.val true :=
  ((IsLast_iff_no_next_link { Content := some { Data := "[3]" } } { Data := "[3]" } rfl).2
    rfl).1

/-- C10: evaluation at the failing input. An iterator over the cached client whose first
request is answered with 404 returns the page carrying the error "Not found", which has no
content, and `Error()` reports it; the next `NextWithContext` call on that iterator then
panics, because `IsLast` reads `Content.NextLink` of that page (the sticky error is not
consulted). -/
theorem NextWithContext_after_error_page_panics :
    sampleNotFoundRun.1
      = Res.val (some { URL := "https://h/r", Content := none
                        Err := some (Error.New "Not found"), StatusCode := 404 }) ∧
    sampleNotFoundRun.2.1.Error = some (Error.New "Not found") ∧
    (sampleNotFoundRun.2.1.NextWithContext
        (PickledCachedClient.pageGetter sampleDigest (answering (sampleResponse 404 "" "" "" "")))
        sampleNotFoundRun.2.2.1 (some Context.TODO)).1 = Res.panic := by
  refine ⟨by rfl, by rfl, by rfl⟩

/-! ## Theorems: the typed iterators -/

/-- At a boundary, when the page iterator has nothing more to request, `HasNext` reports
false and requests nothing. -/
theorem HasNext_exhausted {T σ : Type} (parseJSON : String → Option (List (Option T)))
    (g : PageGetter σ) (i : branchesIterator T) (s : σ) (hb : i.AtBoundary)
    (hurl : i.it.nextURL = Res.val none) :
    i.HasNext parseJSON g s
      = (Res.val false, { i with currentPage := none, currentIndex := 0, current := none },
          s, []) := by
  obtain ⟨herr, hpage⟩ := hb
  have hcond : i.currentPage.isNone = true ∨ i.currentIndex = sliceLen i.currentPage := by
    rcases hpage with h | h
    · left; simp [h]
    · right; exact h
  simp [branchesIterator.HasNext, branchesIterator.NextWithContext, herr, if_pos hcond,
    branchesIterator.load, branchesIterator.nextPage, GithubPageIterator.NextWithContext, hurl]

/-- At a boundary, when the getter serves a page that carries nothing, `HasNext` reports
false after that one request. -/
theorem HasNext_fetch_nothing {T σ : Type} (parseJSON : String → Option (List (Option T)))
    (g : PageGetter σ) (i : branchesIterator T) (s s1 : σ) (url : String) (p : Page)
    (hb : i.AtBoundary) (hurl : i.it.nextURL = Res.val (some url))
    (hg : g.GetWithContext s (some Context.TODO) url true = (Res.val (some p), s1))
    (hp : CarriesNothing p ([] : List T)) :
    i.HasNext parseJSON g s
      = (Res.val false,
          { Err := none, it := { i.it with Current := some p, err := none }
            currentPage := none, current := none, currentIndex := 0 }, s1, [url]) := by
  obtain ⟨herr, hpage⟩ := hb
  obtain ⟨hperr, -, content, hcontent, hdata⟩ := hp
  have hcond : i.currentPage.isNone = true ∨ i.currentIndex = sliceLen i.currentPage := by
    rcases hpage with h | h
    · left; simp [h]
    · right; exact h
  have hno : p.NoContent = true := by
    rcases hdata with h | h <;> simp [Page.NoContent, Payload.Empty, hcontent, h]
  simp [branchesIterator.HasNext, branchesIterator.NextWithContext, herr, if_pos hcond,
    branchesIterator.load, branchesIterator.nextPage, GithubPageIterator.NextWithContext, hurl,
    hg, hno, hperr]

/-- At a boundary, when the getter serves a page that carries elements, `HasNext` reports
true after that one request, publishes the first element and holds the batch. -/
theorem HasNext_fetch_elements {T σ : Type} (parseJSON : String → Option (List (Option T)))
    (g : PageGetter σ) (i : branchesIterator T) (s s1 : σ) (url : String) (p : Page)
    (x : T) (xs : List T)
    (hb : i.AtBoundary) (hurl : i.it.nextURL = Res.val (some url))
    (hg : g.GetWithContext s (some Context.TODO) url true = (Res.val (some p), s1))
    (hp : CarriesElements parseJSON p (x :: xs)) :
    i.HasNext parseJSON g s
      = (Res.val true,
          { Err := none, it := { i.it with Current := some p, err := none }
            currentPage := some ((x :: xs).map some), current := some x, currentIndex := 1 },
          s1, [url]) := by
  obtain ⟨herr, hpage⟩ := hb
  obtain ⟨hperr, -, content, hcontent, hd1, hd2, hparse⟩ := hp
  have hcond : i.currentPage.isNone = true ∨ i.currentIndex = sliceLen i.currentPage := by
    rcases hpage with h | h
    · left; simp [h]
    · right; exact h
  have hno : p.NoContent = false := by
    simp [Page.NoContent, Payload.Empty, hcontent, hd1, hd2]
  simp [branchesIterator.HasNext, branchesIterator.NextWithContext, herr, if_pos hcond,
    branchesIterator.load, branchesIterator.nextPage, GithubPageIterator.NextWithContext, hurl,
    hg, hno, hperr, hcontent, hparse, GithubPageIterator.Error, sliceIndex]

/-- Inside a batch, `HasNext` publishes the element at the current index, advances the
index and requests nothing. -/
theorem HasNext_in_page {T σ : Type} (parseJSON : String → Option (List (Option T)))
    (g : PageGetter σ) (i : branchesIterator T) (s : σ) (l : List (Option T)) (x : T)
    (herr : i.Err = none) (hpage : i.currentPage = some l)
    (hx : l[i.currentIndex]? = some (some x)) :
    i.HasNext parseJSON g s
      = (Res.val true, { i with current := some x, currentIndex := i.currentIndex + 1 },
          s, []) := by
  have hlt : i.currentIndex < l.length := by
    rcases Nat.lt_or_ge i.currentIndex l.length with h | h
    · exact h
    · rw [List.getElem?_eq_none h] at hx
      exact absurd hx (by simp)
  have hne : ¬ i.currentIndex = l.length := Nat.ne_of_lt hlt
  simp [branchesIterator.HasNext, branchesIterator.NextWithContext, herr, hpage, sliceLen,
    hne, sliceIndex, hx]

/-- Inside a batch the loop yields the elements not consumed yet, requests nothing and
reaches the boundary at the end of the batch. -/
theorem drain_in_page {T σ : Type} (parseJSON : String → Option (List (Option T)))
    (g : PageGetter σ) (s : σ) (todo : List T) :
    ∀ (done : List T) (i : branchesIterator T), i.Err = none →
      i.currentPage = some ((done ++ todo).map some) → i.currentIndex = done.length →
      ∃ iB : branchesIterator T, iB.Err = none ∧ iB.it = i.it ∧
        iB.currentPage = i.currentPage ∧ iB.currentIndex = (done ++ todo).length ∧
        ∀ fuel items iEnd sEnd reqs,
          branchesIterator.drain parseJSON g fuel iB s = some (Res.val items, iEnd, sEnd, reqs) →
          branchesIterator.drain parseJSON g (fuel + todo.length) i s
            = some (Res.val (todo.map some ++ items), iEnd, sEnd, reqs) := by
  induction todo with
  | nil =>
    intro done i herr hpage hidx
    exact ⟨i, herr, rfl, rfl, by simpa using hidx, fun fuel items iEnd sEnd reqs h => by simpa using h⟩
  | cons x t ih =>
    intro done i herr hpage hidx
    have hx : ((done ++ x :: t).map some)[i.currentIndex]? = some (some x) := by
      rw [hidx, List.map_append, List.getElem?_append_right (by simp)]
      simp
    have hstep := HasNext_in_page parseJSON g i s _ x herr hpage hx
    obtain ⟨iB, hBerr, hBit, hBpage, hBidx, hB⟩ :=
      ih (done ++ [x]) { i with current := some x, currentIndex := i.currentIndex + 1 }
        herr (by simpa using hpage) (by simp [hidx])
    refine ⟨iB, hBerr, hBit, hBpage, by simpa using hBidx, ?_⟩
    intro fuel items iEnd sEnd reqs h
    have h1 := hB fuel items iEnd sEnd reqs h
    have hfuel : fuel + (x :: t).length = (fuel + t.length) + 1 := by simp [Nat.add_assoc]
    rw [hfuel, branchesIterator.drain, hstep]
    simp [h1, branchesIterator.Item]

/-- What the page iterator requests next when its current page has content. -/
theorem nextURL_of_current (it : GithubPageIterator) (p : Page) (content : Payload)
    (e : Option Error) (hc : p.Content = some content) :
    ({ it with Current := some p, err := e } : GithubPageIterator).nextURL
      = if content.NextLink = "" then Res.val none else Res.val (some content.NextLink) := by
  by_cases h : content.NextLink = "" <;>
    simp [GithubPageIterator.nextURL, Page.IsLast, hc, h]

/-- From a boundary, one page that carries elements: the loop requests it once, yields
its elements and reaches the boundary after it. -/
theorem drain_page {T σ : Type} (parseJSON : String → Option (List (Option T)))
    (g : PageGetter σ) (i : branchesIterator T) (s s1 : σ) (url : String) (p : Page)
    (elems : List T) (hb : i.AtBoundary) (hurl : i.it.nextURL = Res.val (some url))
    (hg : g.GetWithContext s (some Context.TODO) url true = (Res.val (some p), s1))
    (hp : CarriesElements parseJSON p elems) :
    ∃ iB : branchesIterator T, iB.AtBoundary ∧
      iB.it = { i.it with Current := some p, err := none } ∧
      ∀ fuel items iEnd sEnd reqs,
        branchesIterator.drain parseJSON g fuel iB s1 = some (Res.val items, iEnd, sEnd, reqs) →
        branchesIterator.drain parseJSON g (fuel + elems.length) i s
          = some (Res.val (elems.map some ++ items), iEnd, sEnd, url :: reqs) := by
  cases elems with
  | nil => exact absurd rfl hp.2.1
  | cons x xs =>
    have hstep := HasNext_fetch_elements parseJSON g i s s1 url p x xs hb hurl hg hp
    obtain ⟨iB, hBerr, hBit, hBpage, hBidx, hB⟩ :=
      drain_in_page parseJSON g s1 xs [x]
        { Err := none, it := { i.it with Current := some p, err := none }
          currentPage := some ((x :: xs).map some), current := some x, currentIndex := 1 }
        rfl rfl rfl
    refine ⟨iB, ⟨hBerr, Or.inr ?_⟩, hBit, ?_⟩
    · rw [hBidx, hBpage]
      simp [sliceLen]
    · intro fuel items iEnd sEnd reqs h
      have h1 := hB fuel items iEnd sEnd reqs h
      have hfuel : fuel + (x :: xs).length = (fuel + xs.length) + 1 := by
        simp [Nat.add_assoc]
      rw [hfuel, branchesIterator.drain, hstep]
      simp only []
      rw [h1]
      rfl

/-- The number of requests for a sequence of pages is the number of pages. -/
theorem requestsFor_length {T : Type} (pages : List (Page × List T)) :
    ∀ url, (requestsFor url pages).length = pages.length := by
  induction pages with
  | nil => intro url; rfl
  | cons pe rest ih => intro url; simp [requestsFor, ih]

/-- From a boundary, a sequence of pages served in order: the loop yields the elements
of all pages, requests each page once and ends at a boundary with nothing to request. -/
theorem drain_pages {T σ : Type} (parseJSON : String → Option (List (Option T)))
    (g : PageGetter σ) (s' : σ) (pages : List (Page × List T)) :
    ∀ (i : branchesIterator T) (s : σ) (url : String), i.AtBoundary →
      i.it.nextURL = Res.val (some url) → ServesPages parseJSON g s url pages s' →
      ∀ fuel, (allElements pages).length < fuel →
        ∃ iEnd : branchesIterator T,
          branchesIterator.drain parseJSON g fuel i s
            = some (Res.val ((allElements pages).map some), iEnd, s', requestsFor url pages) ∧
          iEnd.AtBoundary ∧ iEnd.it.nextURL = Res.val none := by
  induction pages with
  | nil => intro i s url _ _ h; exact absurd h (by simp [ServesPages])
  | cons pe rest ih =>
    intro i s url hb hurl h fuel hfuel
    cases rest with
    | nil =>
      obtain ⟨hg, hcarry, hlink⟩ := h
      rcases hcarry with hp | hp
      · obtain ⟨iB, hBb, hBit, hB⟩ := drain_page parseJSON g i s s' url pe.1 pe.2 hb hurl hg hp
        obtain ⟨-, -, content, hcontent, -⟩ := hp
        have hBurl : iB.it.nextURL = Res.val none := by
          have hl : content.NextLink = "" := by simpa [Page.NextLink, hcontent] using hlink
          rw [hBit, nextURL_of_current _ _ content _ hcontent, if_pos hl]
        have hlast := HasNext_exhausted parseJSON g iB s' hBb hBurl
        obtain ⟨k, hk⟩ : ∃ k, fuel = (k + 1) + pe.2.length := by
          refine ⟨fuel - pe.2.length - 1, ?_⟩
          simp [allElements] at hfuel
          omega
        have hd : branchesIterator.drain parseJSON g (k + 1) iB s'
            = some (Res.val [],
                { iB with currentPage := none, currentIndex := 0, current := none }, s', []) := by
          rw [branchesIterator.drain, hlast]
        refine ⟨{ iB with currentPage := none, currentIndex := 0, current := none }, ?_,
          ⟨hBb.1, Or.inl rfl⟩, hBurl⟩
        rw [hk, hB (k + 1) _ _ _ _ hd]
        simp [allElements, requestsFor]
      · have hnil : pe.2 = [] := hp.2.1
        have hp' : CarriesNothing pe.1 ([] : List T) := by rw [← hnil]; exact hp
        have hstep := HasNext_fetch_nothing parseJSON g i s s' url pe.1 hb hurl hg hp'
        obtain ⟨-, -, content, hcontent, -⟩ := hp
        obtain ⟨k, hk⟩ : ∃ k, fuel = k + 1 := ⟨fuel - 1, by omega⟩
        refine ⟨{ Err := none, it := { i.it with Current := some pe.1, err := none }
                  currentPage := none, current := none, currentIndex := 0 }, ?_,
          ⟨rfl, Or.inl rfl⟩, ?_⟩
        · rw [hk, branchesIterator.drain, hstep]
          simp [allElements, requestsFor, hnil]
        · have hl : content.NextLink = "" := by simpa [Page.NextLink, hcontent] using hlink
          show ({ i.it with Current := some pe.1, err := none } : GithubPageIterator).nextURL = _
          rw [nextURL_of_current _ _ content _ hcontent, if_pos hl]
    | cons qe rest' =>
      obtain ⟨hg1, hp, hlink, hrest⟩ := h
      have hg : g.GetWithContext s (some Context.TODO) url true
          = (Res.val (some pe.1), (g.GetWithContext s (some Context.TODO) url true).2) :=
        Prod.ext hg1 rfl
      obtain ⟨iB, hBb, hBit, hB⟩ := drain_page parseJSON g i s _ url pe.1 pe.2 hb hurl hg hp
      obtain ⟨-, -, content, hcontent, -⟩ := hp
      have hl : content.NextLink ≠ "" := by simpa [Page.NextLink, hcontent] using hlink
      have hlk : pe.1.NextLink = content.NextLink := by simp [Page.NextLink, hcontent]
      have hBurl : iB.it.nextURL = Res.val (some pe.1.NextLink) := by
        rw [hBit, nextURL_of_current _ _ content _ hcontent, if_neg hl, hlk]
      obtain ⟨k, hk, hklt⟩ : ∃ k, fuel = k + pe.2.length ∧
          (allElements (qe :: rest')).length < k := by
        refine ⟨fuel - pe.2.length, ?_, ?_⟩
        · simp [allElements] at hfuel
          omega
        · simp [allElements] at hfuel ⊢
          omega
      obtain ⟨iEnd, hdrain, hEb, hEurl⟩ := ih iB _ _ hBb hBurl hrest k hklt
      refine ⟨iEnd, ?_, hEb, hEurl⟩
      rw [hk, hB k _ _ _ _ hdrain]
      simp [allElements, requestsFor]

/-- C1, as stated, fails: of two pages whose bodies are JSON arrays, the first `[]` with a
link to the second and the second `[7]` with no link, the loop over `HasNext`/`Item` yields
nothing and stops after one request, although the concatenation of the pages is `[7]` and
there are two pages. -/
theorem drain_stops_at_empty_page :
    (branchesIterator.drain sampleParse scriptedGetter 5
        (branchesIterator.start Nat "https://h/r")
        [samplePage "https://h/r" "[]" "https://h/r?page=2",
         samplePage "https://h/r?page=2" "[7]" ""]).map (fun r => (r.1, r.2.2.2))
      = some (Res.val [], ["https://h/r"]) ∧
    sampleParse "[]" = some [] ∧ sampleParse "[7]" = some [some 7] ∧
    allElements [(samplePage "https://h/r" "[]" "https://h/r?page=2", ([] : List Nat)),
                 (samplePage "https://h/r?page=2" "[7]" "", [7])] = [7] := by
  refine ⟨by rfl, by rfl, by rfl, by rfl⟩

/-- C1, amended: when the getter serves N ≥ 1 pages in order, every page without error
and with content, every page but the last carrying a non-empty `NextLink` to the next one
and a body that is neither `""` nor `"[]"` and decodes to a non-empty array of non-null
elements, the last page carrying an empty `NextLink` and either such a body or the body
`""` or `"[]"`: the loop over `HasNext`/`Item` of a fresh typed iterator ends (given more
fuel than there are elements) having yielded exactly the concatenation of the elements of
the pages in page order, having requested the start URL and then each `NextLink` once, N
requests in all; the iterator has no error, and a further `HasNext` returns false and
requests nothing. -/
theorem drain_yields_all_pages {T σ : Type} (parseJSON : String → Option (List (Option T)))
    (g : PageGetter σ) (s s' : σ) (url : String) (pages : List (Page × List T))
    (hserve : ServesPages parseJSON g s url pages s')
    (fuel : Nat) (hfuel : (allElements pages).length < fuel) :
    ∃ iEnd : branchesIterator T,
      branchesIterator.drain parseJSON g fuel (branchesIterator.start T url) s
        = some (Res.val ((allElements pages).map some), iEnd, s', requestsFor url pages) ∧
      (requestsFor url pages).length = pages.length ∧
      1 ≤ pages.length ∧
      iEnd.Err = none ∧
      iEnd.HasNext parseJSON g s'
        = (Res.val false, { iEnd with currentPage := none, currentIndex := 0, current := none },
            s', []) := by
  have hb : (branchesIterator.start T url).AtBoundary := ⟨rfl, Or.inl rfl⟩
  have hurl : (branchesIterator.start T url).it.nextURL = Res.val (some url) := rfl
  obtain ⟨iEnd, hdrain, hEb, hEurl⟩ :=
    drain_pages parseJSON g s' pages _ s url hb hurl hserve fuel hfuel
  refine ⟨iEnd, hdrain, requestsFor_length pages url, ?_, hEb.1,
    HasNext_exhausted parseJSON g iEnd s' hEb hEurl⟩
  cases pages with
  | nil => exact absurd hserve (by simp [ServesPages])
  | cons pe rest => simp

/-- Witness of C1 amended: two pages, `[7]` linking to `[8,9]`, are enumerated as 7, 8, 9
with one request for the start URL and one for the link. -/
theorem drain_yields_all_pages_witness :
    (branchesIterator.drain sampleParse scriptedGetter 4
        (branchesIterator.start Nat "https://h/r")
        [samplePage "https://h/r" "[7]" "https://h/r?page=2",
         samplePage "https://h/r?page=2" "[8,9]" ""]).map (fun r => (r.1, r.2.2.1, r.2.2.2))
      = some (Res.val [some 7, some 8, some 9], [], ["https://h/r", "https://h/r?page=2"]) :=
  match drain_yields_all_pages sampleParse scriptedGetter
      [samplePage "https://h/r" "[7]" "https://h/r?page=2",
       samplePage "https://h/r?page=2" "[8,9]" ""] [] "https://h/r"
      [(samplePage "https://h/r" "[7]" "https://h/r?page=2", [7]),
       (samplePage "https://h/r?page=2" "[8,9]" "", [8, 9])]
      ⟨rfl, ⟨rfl, by decide, _, rfl, by decide, by decide, rfl⟩, by decide,
        rfl, Or.inl ⟨rfl, by decide, _, rfl, by decide, by decide, rfl⟩, rfl⟩
      4 (by decide) with
  | ⟨_, h, _⟩ => by rw [h]; rfl

/-! ## Theorems: empty pages, errors and the failed state -/

/-- C11: for `branchesIterator` and the iterators with its text (`commitsIterator`,
`commitStatusesIterator`, `issuesIterator`, `issueCommentsIterator`, `teamsIterator`,
`teamMembersIterator`): when the getter answers the first request with a page that has no
error and the body `[]`, the first `HasNext` returns false, `Item` is nil, `Err` is nil,
and exactly one request was made, for the start URL. -/
theorem HasNext_first_page_empty {T σ : Type} (parseJSON : String → Option (List (Option T)))
    (g : PageGetter σ) (s s1 : σ) (url : String) (p : Page) (content : Payload)
    (hg : g.GetWithContext s (some Context.TODO) url true = (Res.val (some p), s1))
    (hcontent : p.Content = some content) (hbody : content.Data = "[]")
    (herr : p.Err = none) :
    ((branchesIterator.start T url).HasNext parseJSON g s).1 = Res.val false ∧
    ((branchesIterator.start T url).HasNext parseJSON g s).2.1.Item = none ∧
    ((branchesIterator.start T url).HasNext parseJSON g s).2.1.Err = none ∧
    ((branchesIterator.start T url).HasNext parseJSON g s).2.2.2 = [url] := by
  have hb : (branchesIterator.start T url).AtBoundary := ⟨rfl, Or.inl rfl⟩
  have hurl : (branchesIterator.start T url).it.nextURL = Res.val (some url) := rfl
  have hp : CarriesNothing p ([] : List T) := ⟨herr, rfl, content, hcontent, Or.inr hbody⟩
  rw [HasNext_fetch_nothing parseJSON g _ s s1 url p hb hurl hg hp]
  exact ⟨rfl, rfl, rfl, rfl⟩

/-- Witness of C11: one page with the body `[]`. -/
theorem HasNext_first_page_empty_witness :
    ((branchesIterator.start Nat "https://h/r").HasNext sampleParse scriptedGetter
        [samplePage "https://h/r" "[]" ""]).1 = Res.val false ∧
    ((branchesIterator.start Nat "https://h/r").HasNext sampleParse scriptedGetter
        [samplePage "https://h/r" "[]" ""]).2.2.2 = ["https://h/r"] :=
  have h := HasNext_first_page_empty sampleParse scriptedGetter
    [samplePage "https://h/r" "[]" ""] [] "https://h/r" (samplePage "https://h/r" "[]" "")
    { Data := "[]", NextLink := "" } rfl rfl rfl rfl
  ⟨h.1, h.2.2.2⟩

/-- C12: evaluation at the failing input. When the first page of a `pullsIterator` has the
body `[]`, status 200 and no error, `HasNext` returns false, but `Err` is not nil: it is
the error "No content (status 200)"; on the same page `branchesIterator` returns false
with `Err` nil. -/
theorem pulls_HasNext_first_page_empty_sets_Err :
    ((pullsIterator.start Nat "https://h/r").HasNext sampleParse scriptedGetter
        [samplePage "https://h/r" "[]" ""]).1 = Res.val false ∧
    ((pullsIterator.start Nat "https://h/r").HasNext sampleParse scriptedGetter
        [samplePage "https://h/r" "[]" ""]).2.1.Err
      = some (Error.New "No content (status 200)") ∧
    (samplePage "https://h/r" "[]" "").Err = none ∧
    ((branchesIterator.start Nat "https://h/r").HasNext sampleParse scriptedGetter
        [samplePage "https://h/r" "[]" ""]).1 = Res.val false ∧
    ((branchesIterator.start Nat "https://h/r").HasNext sampleParse scriptedGetter
        [samplePage "https://h/r" "[]" ""]).2.1.Err = none := by
  refine ⟨by rfl, by rfl, by rfl, by rfl, by rfl⟩

/-- For `pullsIterator`, whenever the getter answers the first request with a page that has
no error and the body `[]`, the first `HasNext` returns false, `Item` is nil, exactly one
request was made, and `Err` is set to the error "No content (status N)", where N is the
status code of the page. -/
theorem pulls_HasNext_first_page_empty {T σ : Type}
    (parseJSON : String → Option (List (Option T)))
    (g : PageGetter σ) (s s1 : σ) (url : String) (p : Page) (content : Payload)
    (hg : g.GetWithContext s (some Context.TODO) url true = (Res.val (some p), s1))
    (hcontent : p.Content = some content) (hbody : content.Data = "[]")
    (herr : p.Err = none) :
    ((pullsIterator.start T url).HasNext parseJSON g s).1 = Res.val false ∧
    ((pullsIterator.start T url).HasNext parseJSON g s).2.1.Item = none ∧
    ((pullsIterator.start T url).HasNext parseJSON g s).2.1.Err
      = some (Error.New ("No content (status " ++ toString p.StatusCode ++ ")")) ∧
    ((pullsIterator.start T url).HasNext parseJSON g s).2.2.2 = [url] := by
  have hno : p.NoContent = true := by
    simp [Page.NoContent, Payload.Empty, hcontent, hbody]
  have hurl : (NewGithubPageIterator url).nextURL = Res.val (some url) := rfl
  simp [pullsIterator.HasNext, pullsIterator.NextWithContext, pullsIterator.start,
    pullsIterator.load, pullsIterator.nextPage, GithubPageIterator.NextWithContext, hurl, hg,
    hno, herr, pullsIterator.Item]

/-- One page with the body `[]` and status 200 is requested once by `pullsIterator`. -/
theorem pulls_HasNext_first_page_empty_witness :
    ((pullsIterator.start Nat "https://h/r").HasNext sampleParse scriptedGetter
        [samplePage "https://h/r" "[]" ""]).2.2.2 = ["https://h/r"] :=
  (pulls_HasNext_first_page_empty sampleParse scriptedGetter
    [samplePage "https://h/r" "[]" ""] [] "https://h/r" (samplePage "https://h/r" "[]" "")
    { Data := "[]", NextLink := "" } rfl rfl rfl rfl).2.2.2

/-- C13: evaluation at the failing inputs. A typed iterator over the cached client whose
first request is answered with 404, or fails in the transport, gets a page that carries an
error and no content; the page iterator records the error, but the typed iterator's
`HasNext` (through `NextWithContext`) ends with `Err` nil: the page counts as "no content"
before its error is looked at. On the same 404 page `pullsIterator` sets `Err`, but to its
own error "No content (status 404)". -/
theorem typed_iterator_drops_page_error :
    sampleTypedNotFoundRun.1 = Res.val false ∧
    sampleTypedNotFoundRun.2.1.Item = none ∧
    sampleTypedNotFoundRun.2.1.it.Current
      = some { URL := "https://h/r", Content := none, Err := some (Error.New "Not found")
               StatusCode := 404 } ∧
    sampleTypedNotFoundRun.2.1.it.Error = some (Error.New "Not found") ∧
    sampleTypedNotFoundRun.2.1.Err = none ∧
    sampleTypedRefusedRun.1 = Res.val false ∧
    sampleTypedRefusedRun.2.1.it.Error = some (Error.external "connection refused") ∧
    sampleTypedRefusedRun.2.1.Err = none ∧
    ((pullsIterator.start Nat "https://h/r").HasNext sampleParse
        (PickledCachedClient.pageGetter sampleDigest (answering (sampleResponse 404 "" "" "" "")))
        (sampleClient "urlhttps://h/r" sampleEntry, sampleFS)).2.1.Err
      = some (Error.New "No content (status 404)") := by
  refine ⟨by rfl, by rfl, by rfl, by rfl, by rfl, by rfl, by rfl, by rfl, by rfl⟩

/-- When the page served carries an error together with content whose body is neither
`""` nor `"[]"`, the `HasNext` that fetches it records the error as the sticky `Err` and
leaves the current element nil. -/
theorem HasNext_records_error_of_page_with_body {T σ : Type}
    (parseJSON : String → Option (List (Option T))) (g : PageGetter σ)
    (i : branchesIterator T) (s s1 : σ) (url : String) (p : Page) (content : Payload)
    (e : Error)
    (hb : i.AtBoundary) (hurl : i.it.nextURL = Res.val (some url))
    (hg : g.GetWithContext s (some Context.TODO) url true = (Res.val (some p), s1))
    (herr : p.Err = some e) (hne : e ≠ Error.NoMorePages)
    (hcontent : p.Content = some content)
    (hd1 : content.Data ≠ "") (hd2 : content.Data ≠ "[]") :
    (i.HasNext parseJSON g s).1 = Res.val false ∧
    (i.HasNext parseJSON g s).2.1.Err = some e ∧
    (i.HasNext parseJSON g s).2.1.Item = none := by
  obtain ⟨hierr, hpage⟩ := hb
  have hcond : i.currentPage.isNone = true ∨ i.currentIndex = sliceLen i.currentPage := by
    rcases hpage with h | h
    · left; simp [h]
    · right; exact h
  have hno : p.NoContent = false := by
    simp [Page.NoContent, Payload.Empty, hcontent, hd1, hd2]
  simp [branchesIterator.HasNext, branchesIterator.NextWithContext, hierr, if_pos hcond,
    branchesIterator.load, branchesIterator.nextPage, GithubPageIterator.NextWithContext, hurl,
    hg, hno, herr, hcontent, GithubPageIterator.Error, hne, branchesIterator.Item]

/-- C14: failed is an absorbing state. For a typed iterator with the text of
`branchesIterator`, and for `pullsIterator`: when `Err` is an error `e` before a call of
`NextWithContext` (with any context), `Next` or `HasNext`, the call only sets the current
element to nil: `Item` is nil afterwards, `HasNext` returned false, `Err` is still `e`,
and no page was requested. -/
theorem failed_is_absorbing {T σ : Type} (parseJSON : String → Option (List (Option T)))
    (g : PageGetter σ) (s : σ) (ctx : Option Context) (e : Error) :
    (∀ i : branchesIterator T, i.Err = some e →
      i.NextWithContext parseJSON g s ctx = (Res.val (), { i with current := none }, s, []) ∧
      i.Next parseJSON g s = (Res.val (), { i with current := none }, s, []) ∧
      i.HasNext parseJSON g s = (Res.val false, { i with current := none }, s, []) ∧
      (i.HasNext parseJSON g s).2.1.Item = none ∧
      (i.HasNext parseJSON g s).2.1.Err = some e) ∧
    (∀ i : pullsIterator T, i.Err = some e →
      i.NextWithContext parseJSON g s ctx = (Res.val (), { i with current := none }, s, []) ∧
      i.Next parseJSON g s = (Res.val (), { i with current := none }, s, []) ∧
      i.HasNext parseJSON g s = (Res.val false, { i with current := none }, s, []) ∧
      (i.HasNext parseJSON g s).2.1.Item = none ∧
      (i.HasNext parseJSON g s).2.1.Err = some e) := by
  constructor
  · intro i herr
    simp [branchesIterator.NextWithContext, branchesIterator.Next, branchesIterator.HasNext,
      branchesIterator.Item, herr]
  · intro i herr
    simp [pullsIterator.NextWithContext, pullsIterator.Next, pullsIterator.HasNext,
      pullsIterator.Item, herr]

/-- Witness of C14: an iterator that failed in the middle of a batch stays failed and
requests nothing, although a page is on offer. -/
theorem failed_is_absorbing_witness :
    (({ Err := some (Error.New "Not found"), it := NewGithubPageIterator "https://h/r"
        currentPage := some [some 8, some 9], current := some 8, currentIndex := 1 } :
        branchesIterator Nat).HasNext sampleParse scriptedGetter
        [samplePage "https://h/r" "[7]" ""])
      = (Res.val false,
          { Err := some (Error.New "Not found"), it := NewGithubPageIterator "https://h/r"
            currentPage := some [some 8, some 9], current := none, currentIndex := 1 },
          [samplePage "https://h/r" "[7]" ""], []) :=
  ((failed_is_absorbing sampleParse scriptedGetter [samplePage "https://h/r" "[7]" ""]
      (some Context.TODO) (Error.New "Not found")).1
    { Err := some (Error.New "Not found"), it := NewGithubPageIterator "https://h/r"
      currentPage := some [some 8, some 9], current := some 8, currentIndex := 1 } rfl).2.2.1

/-- C15: evaluation at the failing inputs. After a first page with the body `[]` and a
link, `HasNext` returns false; the next `HasNext` on the same iterator requests the link
and returns true with the element 7 of the second page. After a first page without
content (the 404 page of the cached client), `HasNext` returns false with `Err` nil; the
next `HasNext` panics, because the page iterator calls `IsLast` on that page. -/
theorem HasNext_after_false_restarts_or_panics :
    sampleEmptyLinkedRun.1 = Res.val false ∧
    (sampleEmptyLinkedRun.2.1.HasNext sampleParse scriptedGetter sampleEmptyLinkedRun.2.2.1).1
      = Res.val true ∧
    (sampleEmptyLinkedRun.2.1.HasNext sampleParse scriptedGetter
        sampleEmptyLinkedRun.2.2.1).2.1.Item = some 7 ∧
    (sampleEmptyLinkedRun.2.1.HasNext sampleParse scriptedGetter
        sampleEmptyLinkedRun.2.2.1).2.2.2 = ["https://h/r?page=2"] ∧
    sampleTypedNotFoundRun.1 = Res.val false ∧
    sampleTypedNotFoundRun.2.1.Err = none ∧
    (sampleTypedNotFoundRun.2.1.HasNext sampleParse
        (PickledCachedClient.pageGetter sampleDigest (answering (sampleResponse 404 "" "" "" "")))
        sampleTypedNotFoundRun.2.2.1).1 = Res.panic := by
  refine ⟨by rfl, by rfl, by rfl, by rfl, by rfl, by rfl, by rfl⟩

/-- C16: evaluation at the failing input. A first page without error whose body is a JSON
object leaves the decoded slice nil; `load` returns no error, and `NextWithContext` then
reads `currentPage[0]` of the nil slice: it panics with an index out of range, and so
does `HasNext`. -/
theorem NextWithContext_undecodable_page_panics :
    sampleParse "\x7b\"message\":\"x\"\x7d" = none ∧
    ((branchesIterator.start Nat "https://h/r").NextWithContext sampleParse scriptedGetter
        [samplePage "https://h/r" "\x7b\"message\":\"x\"\x7d" ""] (some Context.TODO)).1
      = Res.panic ∧
    ((branchesIterator.start Nat "https://h/r").HasNext sampleParse scriptedGetter
        [samplePage "https://h/r" "\x7b\"message\":\"x\"\x7d" ""]).1 = Res.panic ∧
    ((branchesIterator.start Nat "https://h/r").HasNext sampleParse scriptedGetter
        [samplePage "https://h/r" "\x7b\"message\":\"x\"\x7d" ""]).2.1.Err = none := by
  refine ⟨by rfl, by rfl, by rfl, by rfl⟩

/-- Whenever the page served has no error and a body, other than `""` and `[]`, that
leaves the decoded slice nil, the `HasNext` that fetches it panics. -/
theorem HasNext_undecodable_page_panics {T σ : Type}
    (parseJSON : String → Option (List (Option T))) (g : PageGetter σ)
    (i : branchesIterator T) (s s1 : σ) (url : String) (p : Page) (content : Payload)
    (hb : i.AtBoundary) (hurl : i.it.nextURL = Res.val (some url))
    (hg : g.GetWithContext s (some Context.TODO) url true = (Res.val (some p), s1))
    (herr : p.Err = none) (hcontent : p.Content = some content)
    (hd1 : content.Data ≠ "") (hd2 : content.Data ≠ "[]")
    (hparse : parseJSON content.Data = none) :
    (i.HasNext parseJSON g s).1 = Res.panic := by
  obtain ⟨hierr, hpage⟩ := hb
  have hcond : i.currentPage.isNone = true ∨ i.currentIndex = sliceLen i.currentPage := by
    rcases hpage with h | h
    · left; simp [h]
    · right; exact h
  have hno : p.NoContent = false := by
    simp [Page.NoContent, Payload.Empty, hcontent, hd1, hd2]
  simp [branchesIterator.HasNext, branchesIterator.NextWithContext, hierr, if_pos hcond,
    branchesIterator.load, branchesIterator.nextPage, GithubPageIterator.NextWithContext, hurl,
    hg, hno, herr, hcontent, hparse, GithubPageIterator.Error, sliceIndex]

/-! ## Theorems: cancellation -/

/-- With a cancelled context, whenever the `NextWithContext` inside it returns,
`HasNextWithContext` of `commitsIterator` (and `commitStatusesIterator`) and of
`pullsIterator` returns false and sets `Err` to the error of the context. -/
theorem HasNextWithContext_cancelled {T σ : Type}
    (parseJSON : String → Option (List (Option T))) (g : PageGetter σ) (s : σ)
    (cx : Context) (e : Error) (hcx : cx.Err = some e) :
    (∀ i : branchesIterator T, (i.NextWithContext parseJSON g s (some cx)).1 = Res.val () →
      (commitsIterator.HasNextWithContext parseJSON g i s (some cx)).1 = Res.val false ∧
      (commitsIterator.HasNextWithContext parseJSON g i s (some cx)).2.1.Err = some e) ∧
    (∀ i : pullsIterator T, (i.NextWithContext parseJSON g s (some cx)).1 = Res.val () →
      (i.HasNextWithContext parseJSON g s (some cx)).1 = Res.val false ∧
      (i.HasNextWithContext parseJSON g s (some cx)).2.1.Err = some e) := by
  constructor
  · intro i h
    unfold commitsIterator.HasNextWithContext
    rcases hr : i.NextWithContext parseJSON g s (some cx) with ⟨r, i1, s1, reqs⟩
    rw [hr] at h
    simp only at h
    subst h
    simp [hcx]
  · intro i h
    unfold pullsIterator.HasNextWithContext
    rcases hr : i.NextWithContext parseJSON g s (some cx) with ⟨r, i1, s1, reqs⟩
    rw [hr] at h
    simp only at h
    subst h
    simp [hcx]

/-- C17: evaluation at the failing input. A `commitsIterator` over the cached client whose
first request was answered with 404 has `Err` nil after its first `HasNext` (the error of
the page was dropped); when `HasNextWithContext` is then called with a cancelled context,
the `NextWithContext` inside it panics in `IsLast` on the content-less page, so the call
neither returns false nor sets `Err`. -/
theorem HasNextWithContext_cancelled_panics :
    sampleTypedNotFoundRun.1 = Res.val false ∧
    sampleTypedNotFoundRun.2.1.Err = none ∧
    cancelled.Err = some (Error.external "context canceled") ∧
    (commitsIterator.HasNextWithContext sampleParse
        (PickledCachedClient.pageGetter sampleDigest (answering (sampleResponse 404 "" "" "" "")))
        sampleTypedNotFoundRun.2.1 sampleTypedNotFoundRun.2.2.1 (some cancelled)).1
      = Res.panic ∧
    (commitsIterator.HasNextWithContext sampleParse
        (PickledCachedClient.pageGetter sampleDigest (answering (sampleResponse 404 "" "" "" "")))
        sampleTypedNotFoundRun.2.1 sampleTypedNotFoundRun.2.2.1 (some cancelled)).2.1.Err
      = none := by
  refine ⟨by rfl, by rfl, by rfl, by rfl, by rfl⟩

/-- C18: evaluation at the failing input. A `branchesIterator` that has published 8 of the
batch `[8,9]` is asked `HasNextWithContext` with a cancelled context: it returns true,
publishes 9 and leaves `Err` nil, since its `HasNextWithContext` never looks at the
context. On the same state the `HasNextWithContext` of `commitsIterator` returns false and
sets `Err` to the cancellation error. -/
theorem branches_HasNextWithContext_ignores_cancellation :
    sampleMidBatchRun.1 = Res.val true ∧
    sampleMidBatchRun.2.1.Item = some 8 ∧
    cancelled.Err = some (Error.external "context canceled") ∧
    (sampleMidBatchRun.2.1.HasNextWithContext sampleParse scriptedGetter
        sampleMidBatchRun.2.2.1 (some cancelled)).1 = Res.val true ∧
    (sampleMidBatchRun.2.1.HasNextWithContext sampleParse scriptedGetter
        sampleMidBatchRun.2.2.1 (some cancelled)).2.1.Item = some 9 ∧
    (sampleMidBatchRun.2.1.HasNextWithContext sampleParse scriptedGetter
        sampleMidBatchRun.2.2.1 (some cancelled)).2.1.Err = none ∧
    (commitsIterator.HasNextWithContext sampleParse scriptedGetter sampleMidBatchRun.2.1
        sampleMidBatchRun.2.2.1 (some cancelled)).1 = Res.val false ∧
    (commitsIterator.HasNextWithContext sampleParse scriptedGetter sampleMidBatchRun.2.1
        sampleMidBatchRun.2.2.1 (some cancelled)).2.1.Err
      = some (Error.external "context canceled") := by
  refine ⟨by rfl, by rfl, by rfl, by rfl, by rfl, by rfl, by rfl, by rfl⟩

/-- The first part of `GetWithContext` hands the request it built to the transport. -/
theorem roundTrip_eq_request (sha1hex : String → String) (http : HTTP)
    (c : PickledCachedClient) (ctx : Option Context) (U : String) (useStableAPI : Bool) :
    c.roundTrip sha1hex http ctx U useStableAPI
      = match c.request sha1hex http ctx U useStableAPI with
        | Res.panic => Res.panic
        | Res.val (Sum.inl page) => Res.val (Sum.inl page)
        | Res.val (Sum.inr req) =>
          match http.Do req with
          | Except.error err =>
            match ctx with
            | none => Res.panic
            | some cx =>
              match cx.Err with
              | some cerr => Res.val (Sum.inl { URL := U, Err := some cerr })
              | none => Res.val (Sum.inl { URL := U, Err := some err })
          | Except.ok resp => Res.val (Sum.inr resp) := by
  unfold PickledCachedClient.request PickledCachedClient.roundTrip
  simp only
  cases withContext (http.NewRequest "GET" U) ctx with
  | panic => rfl
  | val r0 =>
    simp only
    cases GetHeaders (GithubToken.asRetriever c.APIToken) useStableAPI
        (if (c.cache.get (c.cacheKey sha1hex U)).2 = true then
          (c.cache.get (c.cacheKey sha1hex U)).1.ETag else "")
        (if (c.cache.get (c.cacheKey sha1hex U)).2 = true then
          (c.cache.get (c.cacheKey sha1hex U)).1.LastModified else "") with
    | panic => rfl
    | val hv =>
      obtain ⟨headers, herr⟩ := hv
      cases herr with
      | some e => rfl
      | none =>
        simp only
        cases setHeaders r0 headers with
        | panic => rfl
        | val r1 => rfl

/-- C19: when `GetWithContext(U)` is called with a context and the transport fails on the
request it built, the page returned has the URL, no content and status code 0; its error is
the context's error when the context is done and the transport's error otherwise; the
client with its cache map, and the file system, are as before the call. -/
theorem GetWithContext_transport_failure (sha1hex : String → String) (http : HTTP)
    (c : PickledCachedClient) (fs : FileSystem) (cx : Context) (U : String)
    (useStableAPI : Bool) (req : Request) (err : Error)
    (hreq : c.request sha1hex http (some cx) U useStableAPI = Res.val (Sum.inr req))
    (hdo : http.Do req = Except.error err) :
    (cx.Err = none →
      c.GetWithContext sha1hex http fs (some cx) U useStableAPI
        = (Res.val { URL := U, Content := none, Err := some err, StatusCode := 0 }, c, fs)) ∧
    (∀ cerr, cx.Err = some cerr →
      c.GetWithContext sha1hex http fs (some cx) U useStableAPI
        = (Res.val { URL := U, Content := none, Err := some cerr, StatusCode := 0 }, c, fs)) ∧
    (c.GetWithContext sha1hex http fs (some cx) U useStableAPI).2.1.cache.Data
      = c.cache.Data := by
  have hround := roundTrip_eq_request sha1hex http c (some cx) U useStableAPI
  rw [hreq] at hround
  simp only [hdo] at hround
  unfold PickledCachedClient.GetWithContext
  rw [hround]
  refine ⟨?_, ?_, ?_⟩
  · intro h
    simp [h]
  · intro cerr h
    simp [h]
  · cases cx.Err <;> rfl

/-- Witness of C19: the transport refuses the connection while the context is cancelled;
the page carries the cancellation error. -/
theorem GetWithContext_transport_failure_witness :
    (sampleClient "urlhttps://h/r" sampleEntry).GetWithContext sampleDigest refusing sampleFS
        (some cancelled) "https://h/r" true
      = (Res.val { URL := "https://h/r", Content := none
                   Err := some (Error.external "context canceled"), StatusCode := 0 },
         sampleClient "urlhttps://h/r" sampleEntry, sampleFS) :=
  (GetWithContext_transport_failure sampleDigest refusing
    (sampleClient "urlhttps://h/r" sampleEntry) sampleFS cancelled "https://h/r" true
    { Method := "GET", URL := "https://h/r"
      Header := fun k => if k = "If-Modified-Since" then some "d1"
                         else if k = "If-None-Match" then some "e1"
                         else if k = "Accept" then some "application/vnd.github.v3+json"
                         else if k = "Authorization" then some "token t0" else none
      ctx := some cancelled }
    (Error.external "connection refused") (by rfl) (by rfl)).2.1
    (Error.external "context canceled") rfl

/-- After a 200 answer whose body was read and whose `Link` header parsed, and after a 204
answer, on an allocated cache map and a file system on which writes succeed, the file at
the cache path holds the in-memory map. -/
theorem onResponse_stored_is_persisted (sha1hex : String → String) (c : PickledCachedClient)
    (fs : FileSystem) (U : String) (resp : Response) (m : CacheData)
    (hmap : c.cache.Data = some m) (hcreate : fs.createErr = none)
    (hencode : fs.encodeErr = none)
    (hstatus : (resp.StatusCode = 200 ∧ ∃ B n, resp.Body = Except.ok B ∧
        parseNextLink (resp.HeaderGet "Link") = Res.val n) ∨ resp.StatusCode = 204) :
    (c.onResponse sha1hex fs U resp).2.2.files c.cache.Path
      = some (FileContent.gob (c.onResponse sha1hex fs U resp).2.1.cache.Data) := by
  rcases hstatus with ⟨h200, B, n, hbody, hlink⟩ | h204
  · simp [PickledCachedClient.onResponse, h200, StatusNotModified, StatusNotFound,
      StatusForbidden, StatusOK, hbody, hlink, PickledCache.update, PickledCache.delete, hmap,
      PickledCache.Save, hcreate, hencode]
  · simp [PickledCachedClient.onResponse, h204, StatusNotModified, StatusNotFound,
      StatusForbidden, StatusOK, StatusNoContent, PickledCache.update, PickledCache.delete,
      hmap, PickledCache.Save, hcreate, hencode]

/-- C20, as stated, fails: the sample client holds one entry and the file holds the same
map; writes succeed. A `GetWithContext` answered with 404 completes and evicts the entry
from the in-memory map, but the file is not written: it still holds the entry, so the
persisted content differs from the in-memory map. -/
theorem eviction_is_not_persisted :
    sampleSavedFS.createErr = none ∧ sampleSavedFS.encodeErr = none ∧
    (sampleClient "urlhttps://h/r" sampleEntry).cache.get "urlhttps://h/r"
      = (sampleEntry, true) ∧
    sampleSavedFS.persisted ".github-cache" "urlhttps://h/r" = some sampleEntry ∧
    sampleEvictionRun.1
      = Res.val { URL := "https://h/r", Content := none, Err := some (Error.New "Not found")
                  StatusCode := 404 } ∧
    sampleEvictionRun.2.1.cache.get "urlhttps://h/r" = ({}, false) ∧
    sampleEvictionRun.2.2.persisted ".github-cache" "urlhttps://h/r" = some sampleEntry := by
  refine ⟨by rfl, by rfl, by rfl, by rfl, by rfl, by rfl, by rfl⟩

/-- C20, amended: when the transport answers the request of `GetWithContext(U)`, file
writes succeed and the call completes: after a 200 answer whose body was read, and after a
204 answer, the file at the cache path holds exactly the in-memory map as the call leaves
it (the new entry stored, the old one evicted); after any other answer, and after a 200
answer whose body could not be read, the files are as before the call (an eviction alone
is not written to the file). -/
theorem GetWithContext_persists_stored (sha1hex : String → String) (http : HTTP)
    (c : PickledCachedClient) (fs : FileSystem) (ctx : Option Context) (U : String)
    (useStableAPI : Bool) (resp : Response) (page : Page)
    (hsend : c.roundTrip sha1hex http ctx U useStableAPI = Res.val (Sum.inr resp))
    (hcreate : fs.createErr = none) (hencode : fs.encodeErr = none)
    (hdone : (c.GetWithContext sha1hex http fs ctx U useStableAPI).1 = Res.val page) :
    (((resp.StatusCode = 200 ∧ ∃ B, resp.Body = Except.ok B) ∨ resp.StatusCode = 204) →
      (c.GetWithContext sha1hex http fs ctx U useStableAPI).2.2.files c.cache.Path
        = some (FileContent.gob
            (c.GetWithContext sha1hex http fs ctx U useStableAPI).2.1.cache.Data)) ∧
    (((resp.StatusCode ≠ 200 ∧ resp.StatusCode ≠ 204) ∨
        (resp.StatusCode = 200 ∧ ∃ e, resp.Body = Except.error e)) →
      (c.GetWithContext sha1hex http fs ctx U useStableAPI).2.2.files = fs.files) := by
  unfold PickledCachedClient.GetWithContext at hdone ⊢
  rw [hsend] at hdone ⊢
  simp only at hdone ⊢
  obtain ⟨token, url, ⟨path, data⟩⟩ := c
  constructor
  · rintro (⟨h200, B, hbody⟩ | h204)
    · cases hl : parseNextLink (resp.HeaderGet "Link") with
      | panic =>
        simp [PickledCachedClient.onResponse, h200, StatusNotModified, StatusNotFound,
          StatusForbidden, StatusOK, hbody, hl] at hdone
      | val n =>
        cases data with
        | none =>
          simp [PickledCachedClient.onResponse, h200, StatusNotModified, StatusNotFound,
            StatusForbidden, StatusOK, hbody, hl, PickledCache.update,
            PickledCache.delete] at hdone
        | some m =>
          simp [PickledCachedClient.onResponse, h200, StatusNotModified, StatusNotFound,
            StatusForbidden, StatusOK, hbody, hl, PickledCache.update, PickledCache.delete,
            PickledCache.Save, hcreate, hencode]
    · cases data with
      | none =>
        simp [PickledCachedClient.onResponse, h204, StatusNotModified, StatusNotFound,
          StatusForbidden, StatusOK, StatusNoContent, PickledCache.update,
          PickledCache.delete] at hdone
      | some m =>
        simp [PickledCachedClient.onResponse, h204, StatusNotModified, StatusNotFound,
          StatusForbidden, StatusOK, StatusNoContent, PickledCache.update,
          PickledCache.delete, PickledCache.Save, hcreate, hencode]
  · rintro (⟨h200, h204⟩ | ⟨h200, e, hbody⟩)
    · by_cases h304 : resp.StatusCode = StatusNotModified
      · simp [PickledCachedClient.onResponse, h304]
      by_cases h404 : resp.StatusCode = StatusNotFound
      · simp [PickledCachedClient.onResponse, h404, StatusNotModified, StatusNotFound]
      by_cases h403 : resp.StatusCode = StatusForbidden
      · simp [PickledCachedClient.onResponse, h403, StatusNotModified, StatusNotFound,
          StatusForbidden]
      · have h1 : ¬ resp.StatusCode = StatusOK := h200
        have h2 : ¬ resp.StatusCode = StatusNoContent := h204
        simp [PickledCachedClient.onResponse, h304, h404, h403, h1, h2]
    · simp [PickledCachedClient.onResponse, h200, StatusNotModified, StatusNotFound,
        StatusForbidden, StatusOK, hbody]

/-- Witness of C20 amended: a 200 answer replaces the entry, and the file then holds the
new entry, as the in-memory map does. -/
theorem GetWithContext_persists_stored_witness :
    ((sampleClient "urlhttps://h/r" sampleEntry).GetWithContext sampleDigest
        (answering (sampleResponse 200 "[2]" "e2" "d2" "")) sampleSavedFS (some Context.TODO)
        "https://h/r" true).2.2.files ".github-cache"
      = some (FileContent.gob
          ((sampleClient "urlhttps://h/r" sampleEntry).GetWithContext sampleDigest
            (answering (sampleResponse 200 "[2]" "e2" "d2" "")) sampleSavedFS
            (some Context.TODO) "https://h/r" true).2.1.cache.Data) ∧
    ((sampleClient "urlhttps://h/r" sampleEntry).GetWithContext sampleDigest
        (answering (sampleResponse 200 "[2]" "e2" "d2" "")) sampleSavedFS (some Context.TODO)
        "https://h/r" true).2.2.persisted ".github-cache" "urlhttps://h/r"
      = some { Data := "[2]", ETag := "e2", LastModified := "d2", NextLink := "" } :=
  ⟨(GetWithContext_persists_stored sampleDigest
      (answering (sampleResponse 200 "[2]" "e2" "d2" ""))
      (sampleClient "urlhttps://h/r" sampleEntry) sampleSavedFS (some Context.TODO)
      "https://h/r" true (sampleResponse 200 "[2]" "e2" "d2" "")
      { URL := "https://h/r"
        Content := some { Data := "[2]", ETag := "e2", LastModified := "d2", NextLink := "" }
        StatusCode := 200 }
      (by rfl) (by rfl) (by rfl) (by rfl)).1 (Or.inl ⟨rfl, "[2]", rfl⟩),
   by rfl⟩

/-! ## Theorems: the cache store -/

/-- C21: for every allocated in-memory map `M` (the empty one included), on a file system
where creating and encoding the file and opening it succeed, and with a gob decoder that
gives back `M` from what the encoder wrote for `M`: `Save` returns no error, and `Load` on
a cache with the same `Path` (whatever its `Data`) then returns no error and leaves its
`Data` equal to `M`, so every key is looked up as in the cache that was saved. -/
theorem Save_then_Load_restores (rd : Reader) (pc fresh : PickledCache) (fs : FileSystem)
    (M : CacheData) (hdata : pc.Data = some M) (hpath : fresh.Path = pc.Path)
    (hcreate : fs.createErr = none) (hencode : fs.encodeErr = none)
    (hopen : rd.openErr = none)
    (hgob : rd.Decode (FileContent.gob (some M)) = Except.ok (some M)) :
    (pc.Save fs).1 = none ∧
    (fresh.Load rd (pc.Save fs).2).1 = none ∧
    (fresh.Load rd (pc.Save fs).2).2.Data = some M ∧
    (fresh.Load rd (pc.Save fs).2).2.Path = pc.Path ∧
    ∀ k, (fresh.Load rd (pc.Save fs).2).2.get k = pc.get k := by
  have hsave : pc.Save fs
      = (none, { fs with files := fun p => if p = pc.Path then some (FileContent.gob pc.Data)
                                           else fs.files p }) := by
    simp [PickledCache.Save, hcreate, hencode]
  have hload : fresh.Load rd (pc.Save fs).2 = (none, { fresh with Data := some M }) := by
    rw [hsave]
    simp [PickledCache.Load, fileExists, hpath, hopen, hdata, hgob]
  rw [hload]
  refine ⟨by rw [hsave], rfl, rfl, hpath, ?_⟩
  intro k
  simp [PickledCache.get, hdata]

/-- Witness of C21: the sample cache with its one entry, saved and loaded into a cache
that starts with the nil map. -/
theorem Save_then_Load_restores_witness :
    (({ Path := ".github-cache", Data := none } : PickledCache).Load sampleReader
        ((sampleClient "urlhttps://h/r" sampleEntry).cache.Save sampleFS).2).2.get
        "urlhttps://h/r" = (sampleEntry, true) :=
  (Save_then_Load_restores sampleReader (sampleClient "urlhttps://h/r" sampleEntry).cache
    { Path := ".github-cache", Data := none } sampleFS
    (fun k => if k = "urlhttps://h/r" then some sampleEntry else none)
    rfl rfl rfl rfl rfl rfl).2.2.2.2 "urlhttps://h/r"

/-- C22, as stated, fails: `Load` on a cache whose path names no file does leave `Data` an
empty allocated map, but it returns an error, the sentinel `errInexistantCache`. -/
theorem Load_missing_file_returns_sentinel :
    fileExists sampleFS ".github-cache" = false ∧
    (({ Path := ".github-cache", Data := none } : PickledCache).Load sampleReader sampleFS).1
      = some Error.errInexistantCache ∧
    (({ Path := ".github-cache", Data := none } : PickledCache).Load sampleReader
        sampleFS).2.get "urlhttps://h/r" = ({}, false) := by
  refine ⟨by rfl, by rfl, by rfl⟩

/-- C22, amended: `Load` on a cache whose path names no file leaves `Data` an empty
allocated map and returns the sentinel error `errInexistantCache`, which `NewCache` does
not treat as a failure (it does not call `logging.Fatal` and returns the cache with the
empty map). When the file exists, `Load` returns an error, and leaves the cache unchanged,
exactly when the file cannot be opened or cannot be decoded; otherwise it returns no error
and `Data` is the decoded map. -/
theorem Load_outcomes (rd : Reader) (pc : PickledCache) (fs : FileSystem) :
    (fs.files pc.Path = none →
      pc.Load rd fs = (some Error.errInexistantCache, { pc with Data := some (fun _ => none) }) ∧
      ∀ lookupEnv abs,
        fs.files (abs (match lookupEnv with
                       | some v => v
                       | none => ".github-cache")) = none →
        (NewCache rd lookupEnv abs fs).2 = false ∧
        (NewCache rd lookupEnv abs fs).1.Data = some (fun _ => none)) ∧
    (∀ content, fs.files pc.Path = some content →
      (∀ e, rd.openErr = some e → pc.Load rd fs = (some e, pc)) ∧
      (∀ e, rd.openErr = none → rd.Decode content = Except.error e →
        pc.Load rd fs = (some e, pc)) ∧
      (∀ d, rd.openErr = none → rd.Decode content = Except.ok d →
        pc.Load rd fs = (none, { pc with Data := d }))) := by
  constructor
  · intro hnone
    refine ⟨by simp [PickledCache.Load, fileExists, hnone], ?_⟩
    intro lookupEnv abs habs
    simp [NewCache, PickledCache.Load, fileExists, habs]
  · intro content hsome
    refine ⟨?_, ?_, ?_⟩
    · intro e he
      simp [PickledCache.Load, fileExists, hsome, he]
    · intro e ho hd
      simp [PickledCache.Load, fileExists, hsome, ho, hd]
    · intro d ho hd
      simp [PickledCache.Load, fileExists, hsome, ho, hd]

/-- Witness of C22 amended: `NewCache` on a file system without the cache file does not
call `logging.Fatal`. -/
theorem Load_outcomes_witness :
    (NewCache sampleReader none (fun p => p) sampleFS).2 = false :=
  (((Load_outcomes sampleReader { Path := ".github-cache", Data := none } sampleFS).1 rfl).2
    none (fun p => p) rfl).1

/-- C23: on an allocated cache map, after `update` with the one entry `k: v` (with or
without saving) `get(k)` returns `(v, true)` whatever was stored under `k`; after
`delete(k)` `get(k)` returns found = false; `delete` of a key that is not found leaves the
map unchanged; and both operations leave the lookup of every other key unchanged. -/
theorem cache_is_key_value_store (pc : PickledCache) (m : CacheData)
    (hdata : pc.Data = some m) (k : String) (v : Payload) (save : Bool) (fs : FileSystem) :
    (pc.update [(k, v)] save fs).1 = Res.val () ∧
    (pc.update [(k, v)] save fs).2.1.get k = (v, true) ∧
    (∀ k', k' ≠ k → (pc.update [(k, v)] save fs).2.1.get k' = pc.get k') ∧
    ((pc.delete k).get k).2 = false ∧
    (∀ k', k' ≠ k → (pc.delete k).get k' = pc.get k') ∧
    ((pc.get k).2 = false → (pc.delete k).Data = pc.Data) := by
  refine ⟨?_, ?_, ?_, ?_, ?_, ?_⟩
  · simp [PickledCache.update, hdata]
  · simp [PickledCache.update, hdata, PickledCache.get, CacheData.putAll]
  · intro k' hk
    simp [PickledCache.update, hdata, PickledCache.get, CacheData.putAll, hk]
  · simp [PickledCache.delete, hdata, PickledCache.get]
  · intro k' hk
    simp [PickledCache.delete, hdata, PickledCache.get, hk]
  · intro habsent
    have hk : m k = none := by
      cases hm : m k with
      | none => rfl
      | some x => simp [PickledCache.get, hdata, hm] at habsent
    simp only [PickledCache.delete, hdata, Option.map_some']
    congr 1
    funext x
    by_cases hx : x = k
    · simp [hx, hk]
    · simp [hx]

/-- Witness of C23: the sample cache, updated under its own key. -/
theorem cache_is_key_value_store_witness :
    ((sampleClient "urlhttps://h/r" sampleEntry).cache.update
        [("urlhttps://h/r", { Data := "[2]" })] true sampleFS).2.1.get "urlhttps://h/r"
      = ({ Data := "[2]" }, true) :=
  (cache_is_key_value_store (sampleClient "urlhttps://h/r" sampleEntry).cache
    (fun k => if k = "urlhttps://h/r" then some sampleEntry else none) rfl
    "urlhttps://h/r" { Data := "[2]" } true sampleFS).2.1

/-- C24, as stated, fails: the list of the pairs ("a","ba"), ("ab","a") and its swap are
different sequences and reorderings of each other, yet `generateCacheID` gives them the
same fingerprint, with the sample digest, which is injective, and with every other
digest: both feed the bytes `abaaba` to the hash. -/
theorem generateCacheID_swap_collides :
    [("a", "ba"), ("ab", "a")] ≠ [("ab", "a"), ("a", "ba")] ∧
    List.Perm [("a", "ba"), ("ab", "a")] [("ab", "a"), ("a", "ba")] ∧
    Function.Injective sampleDigest ∧
    hashedBytes [("a", "ba"), ("ab", "a")] = "abaaba" ∧
    hashedBytes [("ab", "a"), ("a", "ba")] = "abaaba" ∧
    (sampleClient "urlhttps://h/r" sampleEntry).cache.generateCacheID sampleDigest
        [("a", "ba"), ("ab", "a")]
      = (sampleClient "urlhttps://h/r" sampleEntry).cache.generateCacheID sampleDigest
        [("ab", "a"), ("a", "ba")] ∧
    ∀ sha1hex : String → String,
      (sampleClient "urlhttps://h/r" sampleEntry).cache.generateCacheID sha1hex
          [("a", "ba"), ("ab", "a")]
        = (sampleClient "urlhttps://h/r" sampleEntry).cache.generateCacheID sha1hex
          [("ab", "a"), ("a", "ba")] := by
  refine ⟨by decide, List.Perm.swap _ _ _, fun a b h => h, by rfl, by rfl, by rfl, ?_⟩
  intro sha1hex
  rfl

/-- C24, amended: `generateCacheID` is the digest of the names and values written one
after the other with nothing between them. Equal sequences get equal fingerprints; two
sequences that write the same bytes get the same fingerprint; and with an injective
digest two sequences get the same fingerprint exactly when they write the same bytes, so
a reordering gets a different fingerprint exactly when it changes the bytes written. -/
theorem generateCacheID_eq_iff (pc : PickledCache) (sha1hex : String → String)
    (es es' : List (String × String)) :
    pc.generateCacheID sha1hex es = sha1hex (hashedBytes es) ∧
    (es = es' → pc.generateCacheID sha1hex es = pc.generateCacheID sha1hex es') ∧
    (hashedBytes es = hashedBytes es' →
      pc.generateCacheID sha1hex es = pc.generateCacheID sha1hex es') ∧
    (Function.Injective sha1hex →
      (pc.generateCacheID sha1hex es = pc.generateCacheID sha1hex es' ↔
        hashedBytes es = hashedBytes es')) := by
  refine ⟨rfl, ?_, ?_, ?_⟩
  · intro h
    rw [h]
  · intro h
    show sha1hex (hashedBytes es) = sha1hex (hashedBytes es')
    rw [h]
  · intro hinj
    constructor
    · intro h
      exact hinj h
    · intro h
      show sha1hex (hashedBytes es) = sha1hex (hashedBytes es')
      rw [h]

/-- Witness of C24 amended: with the injective sample digest, swapping ("a","b") and
("c","d") changes the bytes written and so the fingerprint. -/
theorem generateCacheID_eq_iff_witness :
    (sampleClient "urlhttps://h/r" sampleEntry).cache.generateCacheID sampleDigest
        [("a", "b"), ("c", "d")]
      ≠ (sampleClient "urlhttps://h/r" sampleEntry).cache.generateCacheID sampleDigest
        [("c", "d"), ("a", "b")] :=
  fun h =>
    absurd (((generateCacheID_eq_iff (sampleClient "urlhttps://h/r" sampleEntry).cache
      sampleDigest [("a", "b"), ("c", "d")] [("c", "d"), ("a", "b")]).2.2.2
      (fun _ _ hxy => hxy)).mp h) (by decide)

/-! ## Theorems: the headers -/

/-- C25: without a token retriever `Headers` returns the nil map and the error
`ErrNilTokenRetriever`, for both values of `useStableAPI`; for every retriever, whose
`Token()` returns, it returns an allocated map and the nil error. -/
theorem Headers_nil_retriever :
    (∀ useStableAPI, Headers none useStableAPI
      = Res.val (none, some Error.ErrNilTokenRetriever)) ∧
    (∀ (t : TokenRetriever) (tok : String) (useStableAPI : Bool), t.Token = Res.val tok →
      ∃ m, Headers (some t) useStableAPI = Res.val (some m, none)) := by
  constructor
  · intro b
    rfl
  · intro t tok b ht
    simp [Headers, ht]

/-- Witness of C25: the retriever Go builds from a token pointer. -/
theorem Headers_nil_retriever_witness :
    ∃ m, Headers (GithubToken.asRetriever (some { value := "t0" })) true
      = Res.val (some m, none) :=
  Headers_nil_retriever.2 { Token := Res.val "t0" } "t0" true rfl

/-- C26: for every retriever whose `Token()` returns `tok`, `Headers` returns, with no
error, a map with exactly the keys `Accept` and `Authorization`: `Accept` is
`APIURLs.STABLE` when `useStableAPI` is true and `APIURLs.PREVIEW` when it is false, and
`Authorization` is `token ` followed by `tok`. -/
theorem Headers_map (t : TokenRetriever) (tok : String) (useStableAPI : Bool)
    (ht : t.Token = Res.val tok) :
    ∃ m, Headers (some t) useStableAPI = Res.val (some m, none) ∧
      m "Accept" = some (if useStableAPI then APIURLs.STABLE else APIURLs.PREVIEW) ∧
      m "Authorization" = some ("token " ++ tok) ∧
      (∀ k, k ≠ "Accept" → k ≠ "Authorization" → m k = none) ∧
      APIURLs.STABLE = "application/vnd.github.v3+json" ∧
      APIURLs.PREVIEW = "application/vnd.github.korra-preview" := by
  have hempty : ∀ x : String, "" ++ x = x := by
    intro x
    apply String.ext
    simp
  refine ⟨fun k => if k = "Accept" then
        some ("" ++ if useStableAPI = true then APIURLs.STABLE else APIURLs.PREVIEW)
      else if k = "Authorization" then some ("token " ++ tok) else none,
    by simp only [Headers, ht], ?_, ?_, ?_, rfl, rfl⟩
  · simp [hempty]
  · simp
  · intro k h1 h2
    simp [h1, h2]

/-- Witness of C26: the stable headers for the token `t0`. -/
theorem Headers_map_witness :
    ∃ m, Headers (GithubToken.asRetriever (some { value := "t0" })) true
        = Res.val (some m, none) ∧
      m "Accept" = some "application/vnd.github.v3+json" ∧
      m "Authorization" = some "token t0" :=
  match Headers_map { Token := Res.val "t0" } "t0" true rfl with
  | ⟨m, h, ha, hb, _⟩ => ⟨m, h, ha, hb⟩

/-- C27: for every retriever whose `Token()` returns, `GetHeaders` returns, with no error,
the map of `Headers` extended with `If-None-Match` = `etag` exactly when `etag` is not
empty and with `If-Modified-Since` = `lastModified` exactly when `lastModified` is not
empty, every other key as in `Headers`; `PostHeaders` returns the map of `Headers`, which
has neither conditional header. -/
theorem GetHeaders_conditional (t : TokenRetriever) (tok : String) (useStableAPI : Bool)
    (etag lastModified : String) (ht : t.Token = Res.val tok) :
    ∃ auth m, Headers (some t) useStableAPI = Res.val (some auth, none) ∧
      PostHeaders (some t) useStableAPI = Res.val (some auth, none) ∧
      GetHeaders (some t) useStableAPI etag lastModified = Res.val (some m, none) ∧
      auth "If-None-Match" = none ∧ auth "If-Modified-Since" = none ∧
      m "If-None-Match" = (if etag = "" then none else some etag) ∧
      m "If-Modified-Since" = (if lastModified = "" then none else some lastModified) ∧
      ∀ k, k ≠ "If-None-Match" → k ≠ "If-Modified-Since" → m k = auth k := by
  have hset : ∀ (m : StringMap) (k v : String),
      setIfNonEmpty (some m) k v = Res.val (some (if v = "" then m else m.set k v)) := by
    intro m k v
    by_cases hv : v = "" <;> simp [setIfNonEmpty, hv]
  have hH : Headers (some t) useStableAPI
      = Res.val (some (fun k => if k = "Accept" then
            some ("" ++ if useStableAPI = true then APIURLs.STABLE else APIURLs.PREVIEW)
          else if k = "Authorization" then some ("token " ++ tok) else none), none) := by
    simp only [Headers, ht]
  refine ⟨_, _, hH, hH, by simp only [GetHeaders, hH, hset]; rfl, ?_, ?_, ?_, ?_, ?_⟩
  · simp
  · simp
  · by_cases he : etag = "" <;> by_cases hl : lastModified = "" <;>
      simp [he, hl, StringMap.set]
  · by_cases he : etag = "" <;> by_cases hl : lastModified = "" <;>
      simp [he, hl, StringMap.set]
  · intro k h1 h2
    by_cases he : etag = "" <;> by_cases hl : lastModified = "" <;>
      simp [he, hl, StringMap.set, h1, h2]

/-- Witness of C27: an etag and no last-modified date. -/
theorem GetHeaders_conditional_witness :
    ∃ m, GetHeaders (GithubToken.asRetriever (some { value := "t0" })) true "e1" ""
        = Res.val (some m, none) ∧
      m "If-None-Match" = some "e1" ∧ m "If-Modified-Since" = none :=
  match GetHeaders_conditional { Token := Res.val "t0" } "t0" true "e1" "" rfl with
  | ⟨_, m, _, _, hg, _, _, h1, h2, _⟩ => ⟨m, hg, h1, h2⟩

/-! ## Theorems: POST and PATCH -/

/-- C28: `PostWithContext` and `PatchWithContext` leave the client, and with it the cache
map, exactly as they found it, whatever the cache, URL, body and transport do (also when
the call panics); and once the request has been built, a response of the transport makes
them return its raw status code with a nil error, and an error of the transport makes them
return status 0 with that error. -/
theorem Post_and_Patch_leave_cache (marshal : Option StringMap → Except Error String)
    (http : HTTP) (c : PickledCachedClient) (ctx : Option Context) (url : String)
    (useStableAPI : Bool) (data : Option StringMap) :
    (c.PostWithContext marshal http ctx url useStableAPI data).2 = c ∧
    (c.PatchWithContext marshal http ctx url useStableAPI data).2 = c ∧
    (∀ req, c.bodyRequest marshal http "POST" ctx url useStableAPI data
          = Res.val (Sum.inr req) →
      (∀ resp, http.Do req = Except.ok resp →
        (c.PostWithContext marshal http ctx url useStableAPI data).1
          = Res.val (resp.StatusCode, none)) ∧
      (∀ err, http.Do req = Except.error err →
        (c.PostWithContext marshal http ctx url useStableAPI data).1
          = Res.val (0, some err))) ∧
    (∀ req, c.bodyRequest marshal http "PATCH" ctx url useStableAPI data
          = Res.val (Sum.inr req) →
      (∀ resp, http.Do req = Except.ok resp →
        (c.PatchWithContext marshal http ctx url useStableAPI data).1
          = Res.val (resp.StatusCode, none)) ∧
      (∀ err, http.Do req = Except.error err →
        (c.PatchWithContext marshal http ctx url useStableAPI data).1
          = Res.val (0, some err))) := by
  refine ⟨?_, ?_, ?_, ?_⟩
  · unfold PickledCachedClient.PostWithContext
    split
    · rfl
    · rfl
    · split <;> rfl
  · unfold PickledCachedClient.PatchWithContext
    split
    · rfl
    · rfl
    · split <;> rfl
  · intro req hreq
    constructor
    · intro resp hdo
      simp only [PickledCachedClient.PostWithContext, hreq, hdo]
    · intro err hdo
      simp only [PickledCachedClient.PostWithContext, hreq, hdo]
  · intro req hreq
    constructor
    · intro resp hdo
      simp only [PickledCachedClient.PatchWithContext, hreq, hdo]
    · intro err hdo
      simp only [PickledCachedClient.PatchWithContext, hreq, hdo]

/-- Witness of C28: a POST answered 201 returns `(201, nil)`, and a PATCH on a transport
that refuses every request returns status 0 with the transport's error. -/
theorem Post_and_Patch_leave_cache_witness :
    ((sampleClient "urlhttps://h/r" sampleEntry).PostWithContext sampleMarshal
        (answering (sampleResponse 201 "" "" "" "")) (some Context.TODO) "https://h/r" true
        none).1 = Res.val (201, none) ∧
    ((sampleClient "urlhttps://h/r" sampleEntry).PatchWithContext sampleMarshal refusing
        (some Context.TODO) "https://h/r" true none).1
      = Res.val (0, some (Error.external "connection refused")) :=
  ⟨((Post_and_Patch_leave_cache sampleMarshal (answering (sampleResponse 201 "" "" "" ""))
        (sampleClient "urlhttps://h/r" sampleEntry) (some Context.TODO) "https://h/r" true
        none).2.2.1 _ rfl).1 _ rfl,
   ((Post_and_Patch_leave_cache sampleMarshal refusing
        (sampleClient "urlhttps://h/r" sampleEntry) (some Context.TODO) "https://h/r" true
        none).2.2.2 _ rfl).2 _ rfl⟩

/-! ## Theorems: the URL recorded in a page -/

/-- C29: evaluation at the failing inputs. A GET of `https://h/r` answered 204, and one
answered 500, each return a page whose `URL` field is the empty string, not the URL
requested. -/
theorem GetWithContext_no_content_and_unexpected_status_omit_URL :
    (∃ p, ((sampleClient "urlhttps://h/r" sampleEntry).GetWithContext sampleDigest
          (answering (sampleResponse 204 "" "e2" "d2" "")) sampleFS (some Context.TODO)
          "https://h/r" true).1 = Res.val p ∧
       p.StatusCode = 204 ∧ p.URL = "" ∧ p.URL ≠ "https://h/r") ∧
    (∃ p, ((sampleClient "urlhttps://h/r" sampleEntry).GetWithContext sampleDigest
          (answering (sampleResponse 500 "" "" "" "")) sampleFS (some Context.TODO)
          "https://h/r" true).1 = Res.val p ∧
       p.StatusCode = 500 ∧ p.URL = "" ∧ p.URL ≠ "https://h/r") :=
  ⟨⟨_, rfl, rfl, rfl, by decide⟩, ⟨_, rfl, rfl, rfl, by decide⟩⟩

/-- The paths of `GetWithContext` that do record the URL: a page returned before a response
arrived (header failure, transport failure), and the pages of a 304, 404, 403 or 200
answer. -/
theorem GetWithContext_other_paths_record_URL (sha1hex : String → String) (http : HTTP)
    (c : PickledCachedClient) (fs : FileSystem) (ctx : Option Context) (url : String)
    (useStableAPI : Bool) :
    (∀ p, c.roundTrip sha1hex http ctx url useStableAPI = Res.val (Sum.inl p) →
        p.URL = url) ∧
    (∀ resp p, (c.onResponse sha1hex fs url resp).1 = Res.val p →
        resp.StatusCode = 304 ∨ resp.StatusCode = 404 ∨ resp.StatusCode = 403 ∨
          resp.StatusCode = 200 → p.URL = url) := by
  constructor
  · intro p h
    unfold PickledCachedClient.roundTrip at h
    simp only [] at h
    split at h
    · cases h
    · split at h
      · cases h
      · cases h; rfl
      · split at h
        · cases h
        · split at h
          · split at h
            · cases h
            · split at h <;> cases h <;> rfl
          · cases h
  · intro resp p h hs
    unfold PickledCachedClient.onResponse at h
    simp only [StatusNotModified, StatusNotFound, StatusForbidden, StatusOK,
      StatusNoContent] at h
    rcases hs with hs | hs | hs | hs <;> simp only [hs] at h
    · simp at h; rw [← h]
    · simp at h; rw [← h]
    · simp at h; rw [← h]
    · simp at h
      split at h
      · simp at h; rw [← h]
      · split at h
        · simp at h
        · split at h
          · simp at h
          · simp at h; rw [← h]


/-! ## Theorems: laziness of the typed iterators -/

/-- One call of the page iterator sends at most one request to the getter. -/
theorem pageIterator_requests_le_one {σ : Type} (g : PageGetter σ) (it : GithubPageIterator)
    (s : σ) (ctx : Option Context) :
    (it.NextWithContext g s ctx).2.2.2.length ≤ 1 := by
  unfold GithubPageIterator.NextWithContext
  split
  · simp
  · simp
  · split <;> simp

/-- The requests of `nextPage` are those of its one call of the page iterator. -/
theorem nextPage_requests {T σ : Type} (parseJSON : String → Option (List (Option T)))
    (g : PageGetter σ) (i : branchesIterator T) (s : σ) (ctx : Option Context) :
    (i.nextPage parseJSON g s ctx).2.2.2 = (i.it.NextWithContext g s ctx).2.2.2 := by
  rcases h : i.it.NextWithContext g s ctx with ⟨r, it1, s1, reqs⟩
  unfold branchesIterator.nextPage
  rw [h]
  rcases r with (_ | page) | _
  · rfl
  · simp only []
    split
    · rfl
    · split <;> rfl
  · rfl

/-- The requests of `load` are those of its one call of `nextPage`. -/
theorem load_requests {T σ : Type} (parseJSON : String → Option (List (Option T)))
    (g : PageGetter σ) (i : branchesIterator T) (s : σ) (ctx : Option Context) :
    (i.load parseJSON g s ctx).2.2.2 = (i.nextPage parseJSON g s ctx).2.2.2 := by
  rcases h : i.nextPage parseJSON g s ctx with ⟨r, i1, s1, reqs⟩
  unfold branchesIterator.load
  rw [h]
  rcases r with ⟨items, err⟩ | _
  · simp only []
    split <;> rfl
  · rfl

/-- The requests of the typed `NextWithContext`: none, or those of its one call of
`load`. -/
theorem NextWithContext_requests {T σ : Type} (parseJSON : String → Option (List (Option T)))
    (g : PageGetter σ) (i : branchesIterator T) (s : σ) (ctx : Option Context) :
    (i.NextWithContext parseJSON g s ctx).2.2.2 = [] ∨
      (i.NextWithContext parseJSON g s ctx).2.2.2 = (i.load parseJSON g s ctx).2.2.2 := by
  unfold branchesIterator.NextWithContext
  by_cases hErr : i.Err ≠ none
  · left; rw [if_pos hErr]
  · rw [if_neg hErr]
    by_cases hc : i.currentPage.isNone = true ∨ i.currentIndex = sliceLen i.currentPage
    · right
      simp only [if_pos hc]
      rcases h : i.load parseJSON g s ctx with ⟨r, i1, s1, reqs⟩
      rcases r with (_ | e) | _
      · simp only []
        split <;> rfl
      · rfl
      · rfl
    · left
      simp only [if_neg hc]
      split <;> rfl


/-- C30, counterexample: a `commitsIterator` that fetched the batch `[8,9]`, published 8 and
then recorded a cancellation in `Err` holds a batch that is neither absent nor fully
consumed (index 1 of 2); its next `NextWithContext` makes no page request, yet it does not
publish element 1 and does not advance: the item is nil and the index is still 1. -/
theorem NextWithContext_failed_mid_batch_publishes_nothing :
    sampleCancelledMidBatchRun.2.1.Err = some (Error.external "context canceled") ∧
    sampleCancelledMidBatchRun.2.1.currentPage = some [some 8, some 9] ∧
    sampleCancelledMidBatchRun.2.1.currentIndex = 1 ∧
    (branchesIterator.NextWithContext sampleParse scriptedGetter
        sampleCancelledMidBatchRun.2.1 sampleCancelledMidBatchRun.2.2.1
        (some Context.TODO)).1 = Res.val () ∧
    (branchesIterator.NextWithContext sampleParse scriptedGetter
        sampleCancelledMidBatchRun.2.1 sampleCancelledMidBatchRun.2.2.1
        (some Context.TODO)).2.1.Item = none ∧
    (branchesIterator.NextWithContext sampleParse scriptedGetter
        sampleCancelledMidBatchRun.2.1 sampleCancelledMidBatchRun.2.2.1
        (some Context.TODO)).2.1.currentIndex = 1 ∧
    (branchesIterator.NextWithContext sampleParse scriptedGetter
        sampleCancelledMidBatchRun.2.1 sampleCancelledMidBatchRun.2.2.1
        (some Context.TODO)).2.2.2 = [] := by
  refine ⟨rfl, rfl, rfl, rfl, rfl, rfl, rfl⟩

/-- C30, amended: a call of the typed `NextWithContext` sends at most one request; unless
`Err` is nil and the batch is absent or fully consumed, it sends none and leaves the page
iterator and the getter as they were; when `Err` is nil and `currentIndex` is the index of
an element `x` of `currentPage`, it publishes `x` and advances `currentIndex` by exactly
one, everything else unchanged and no request made; and when `Err` is set it only clears
the published item. -/
theorem NextWithContext_is_lazy {T σ : Type} (parseJSON : String → Option (List (Option T)))
    (g : PageGetter σ) (i : branchesIterator T) (s : σ) (ctx : Option Context) :
    (i.NextWithContext parseJSON g s ctx).2.2.2.length ≤ 1 ∧
    (¬ (i.Err = none ∧ (i.currentPage = none ∨ i.currentIndex = sliceLen i.currentPage)) →
      (i.NextWithContext parseJSON g s ctx).2.1.it = i.it ∧
      (i.NextWithContext parseJSON g s ctx).2.2.1 = s ∧
      (i.NextWithContext parseJSON g s ctx).2.2.2 = []) ∧
    (∀ l x, i.Err = none → i.currentPage = some l → l[i.currentIndex]? = some x →
      i.NextWithContext parseJSON g s ctx
        = (Res.val (), { i with current := x, currentIndex := i.currentIndex + 1 }, s, [])) ∧
    (i.Err ≠ none →
      i.NextWithContext parseJSON g s ctx = (Res.val (), { i with current := none }, s, [])) := by
  refine ⟨?_, ?_, ?_, ?_⟩
  · rcases NextWithContext_requests parseJSON g i s ctx with h | h
    · rw [h]; simp
    · rw [h, load_requests, nextPage_requests]
      exact pageIterator_requests_le_one g i.it s ctx
  · intro hn
    unfold branchesIterator.NextWithContext
    by_cases hErr : i.Err ≠ none
    · rw [if_pos hErr]
      exact ⟨rfl, rfl, rfl⟩
    · rw [if_neg hErr]
      have hE : i.Err = none := not_not.mp hErr
      have hc : ¬ (i.currentPage.isNone = true ∨ i.currentIndex = sliceLen i.currentPage) := by
        rintro (h | h)
        · exact hn ⟨hE, Or.inl (Option.isNone_iff_eq_none.mp h)⟩
        · exact hn ⟨hE, Or.inr h⟩
      simp only [if_neg hc]
      split <;> exact ⟨rfl, rfl, rfl⟩
  · intro l x hE hp hx
    have hlt : i.currentIndex < l.length := by
      by_contra hge
      rw [List.getElem?_eq_none (Nat.le_of_not_lt hge)] at hx
      cases hx
    have hc : ¬ (i.currentPage.isNone = true ∨ i.currentIndex = sliceLen i.currentPage) := by
      rw [hp]
      simp only [Option.isNone_some, sliceLen, Bool.false_eq_true, false_or]
      exact Nat.ne_of_lt hlt
    unfold branchesIterator.NextWithContext
    rw [if_neg (by simp [hE])]
    simp only [if_neg hc]
    simp only [sliceIndex, hp, hx]
  · intro hErr
    unfold branchesIterator.NextWithContext
    rw [if_pos hErr]

/-- Witness of C30 (amended): an iterator inside the batch `[8,9]` at index 1 publishes 9
and moves to index 2 without a request. -/
theorem NextWithContext_is_lazy_witness :
    branchesIterator.NextWithContext sampleParse scriptedGetter
        { it := NewGithubPageIterator "https://h/r", currentPage := some [some 8, some 9]
          current := some 8, currentIndex := 1 } [] (some Context.TODO)
      = (Res.val (), { it := NewGithubPageIterator "https://h/r"
                       currentPage := some [some 8, some 9]
                       current := some 9, currentIndex := 2 }, [], []) :=
  (NextWithContext_is_lazy sampleParse scriptedGetter
      { it := NewGithubPageIterator "https://h/r", currentPage := some [some 8, some 9]
        current := some 8, currentIndex := 1 } [] (some Context.TODO)).2.2.1
    [some 8, some 9] (some 9) rfl rfl rfl


/-! ## Theorems: the issues of a repository -/

/-- C31: evaluation at the failing input. `Issues` builds the same iterator, with the same
start URL, whether `includePRs` is false or true, for every repository, state, author and
assignee; for the repository `o/n`, state `open` and blank author and assignee both start
at `https://api.github.com/repos/o/n/issues?state=open&assignee=none`, a request that is
not restricted to issues that are not pull requests. -/
theorem Issues_ignores_includePRs :
    (∀ (T : Type) (r : Repository) (state author assignee : String),
      Repository.Issues T r state author assignee false
        = Repository.Issues T r state author assignee true) ∧
    (Repository.Issues Nat (NewRepo "o" "n") "open" "" "" false).1.it.StartURL
      = "https://api.github.com/repos/o/n/issues?state=open&assignee=none" ∧
    (Repository.Issues Nat (NewRepo "o" "n") "open" "" "" true).1.it.StartURL
      = "https://api.github.com/repos/o/n/issues?state=open&assignee=none" := by
  refine ⟨fun _ _ _ _ _ => rfl, by decide, by decide⟩

/-- The assignee and author conventions of `Issues`: a blank assignee (empty or white
space only) is requested as `assignee=none`, another one under its own name; a blank author
adds no `creator` parameter, another one adds `creator=` with its name. -/
theorem Issues_assignee_and_creator (T : Type) (r : Repository)
    (state author assignee : String) (includePRs : Bool) :
    (String.mk (strings.TrimSpace assignee.data) = "" →
      String.mk (strings.TrimSpace author.data) = "" →
      (Repository.Issues T r state author assignee includePRs).1.it.StartURL
        = r.toURL ["issues?" ++ ("state=" ++ state ++ "&" ++ "assignee=none")]) ∧
    (String.mk (strings.TrimSpace assignee.data) = "" →
      String.mk (strings.TrimSpace author.data) ≠ "" →
      (Repository.Issues T r state author assignee includePRs).1.it.StartURL
        = r.toURL ["issues?" ++ ("state=" ++ state ++ "&" ++ "assignee=none" ++ "&"
            ++ ("creator=" ++ author))]) ∧
    (String.mk (strings.TrimSpace assignee.data) ≠ "" →
      String.mk (strings.TrimSpace author.data) = "" →
      (Repository.Issues T r state author assignee includePRs).1.it.StartURL
        = r.toURL ["issues?" ++ ("state=" ++ state ++ "&" ++ ("assignee=" ++ assignee))]) ∧
    (Repository.Issues T r state author assignee includePRs).2 = none := by
  have h2 : ∀ a b : String, strings.Join [a, b] "&" = a ++ "&" ++ b := by
    intro a b
    apply String.ext
    simp [strings.Join, List.intercalate]
  have h3 : ∀ a b c : String, strings.Join [a, b, c] "&" = a ++ "&" ++ b ++ "&" ++ c := by
    intro a b c
    apply String.ext
    simp [strings.Join, List.intercalate]
  refine ⟨?_, ?_, ?_, rfl⟩
  · intro ha hu
    simp only [Repository.Issues, ha, hu, branchesIterator.start, NewGithubPageIterator]
    simp [h2]
  · intro ha hu
    simp only [Repository.Issues, ha, branchesIterator.start, NewGithubPageIterator]
    simp [hu, h3]
  · intro ha hu
    simp only [Repository.Issues, hu, branchesIterator.start, NewGithubPageIterator]
    simp [ha, h2]

/-! ## Theorems: the rate limit -/

/-- C32: evaluation at the failing input. `RateLimiting` requests
`https:/api.github.com/rate_limit`, the result of `filepath.Join` on the API URL, which has
no host (the URL with `//` has the host `api.github.com`); over Go's transport, with a
remote that would answer every request with 200, `X-RateLimit-Remaining: 42` and
`X-RateLimit-Limit: 5000`, the request is refused and `RateLimiting` returns no counts and
the error `ErrRateLimitUnretrievable`. -/
theorem RateLimiting_request_has_no_host :
    filepath.Join [APIURLs.URL, "/rate_limit"] = "https:/api.github.com/rate_limit" ∧
    url.Host "https:/api.github.com/rate_limit" = "" ∧
    url.Host "https://api.github.com/rate_limit" = "api.github.com" ∧
    sampleRateResponse.HeaderGet "X-RateLimit-Remaining" = "42" ∧
    sampleRateResponse.HeaderGet "X-RateLimit-Limit" = "5000" ∧
    RateLimiting sampleAtoi
        (defaultTransport (fun _ => true) (fun _ => Except.ok sampleRateResponse))
        (GithubToken.asRetriever (some { value := "t0" }))
      = Res.val (none, some ErrRateLimitUnretrievable) := by
  refine ⟨by decide, by decide, by decide, by decide, by decide, by rfl⟩

/-- Over Go's transport `RateLimiting` never returns counts, whatever the token, the
remote and the integer parser: the URL it requests has no host. -/
theorem RateLimiting_returns_no_counts (atoi : String → Option Int) (parses : String → Bool)
    (remote : Request → Except Error Response) (token : Option TokenRetriever)
    (calls : APICalls) (err : Option Error) :
    RateLimiting atoi (defaultTransport parses remote) token ≠ Res.val (some calls, err) := by
  have hhost : url.Host (filepath.Join [APIURLs.URL, "/rate_limit"]) = "" := by decide
  unfold RateLimiting RateLimiting.request
  simp only []
  cases hH : Headers token true with
  | panic => simp
  | val r =>
    obtain ⟨headers, e⟩ := r
    cases e with
    | some e1 => simp
    | none =>
      simp only []
      by_cases hp : parses (filepath.Join [APIURLs.URL, "/rate_limit"]) = true
      · cases headers with
        | none =>
          simp [HTTP.NewRequest, defaultTransport, hp, setHeaders, hhost]
        | some m =>
          simp [HTTP.NewRequest, defaultTransport, hp, setHeaders, hhost]
      · simp [HTTP.NewRequest, defaultTransport, hp]

/-- With a transport that does hand a response to `RateLimiting` (a replaced round
tripper): a 200 answer carries `X-RateLimit-Remaining: 42` and `X-RateLimit-Limit: 5000`,
which `Get` reads and `atoi` accepts; the map holds them under the canonical keys
`X-Ratelimit-Remaining` and `X-Ratelimit-Limit`, so the direct index with the keys
`RateLimiting` uses finds nothing, and `RateLimiting` returns -1 for both counts, with a
nil error. -/
theorem RateLimiting_misses_the_headers :
    sampleRateResponse.HeaderGet "X-RateLimit-Remaining" = "42" ∧
    sampleRateResponse.HeaderGet "X-RateLimit-Limit" = "5000" ∧
    sampleAtoi "42" = some 42 ∧ sampleAtoi "5000" = some 5000 ∧
    textproto.CanonicalMIMEHeaderKey "X-RateLimit-Remaining" = "X-Ratelimit-Remaining" ∧
    textproto.CanonicalMIMEHeaderKey "X-RateLimit-Limit" = "X-Ratelimit-Limit" ∧
    sampleRateResponse.HeaderIndex "X-Ratelimit-Remaining" = ["42"] ∧
    sampleRateResponse.HeaderIndex "X-RateLimit-Remaining" = [] ∧
    sampleRateResponse.HeaderIndex "X-RateLimit-Limit" = [] ∧
    RateLimiting sampleAtoi (answering sampleRateResponse)
        (GithubToken.asRetriever (some { value := "t0" }))
      = Res.val (some { Remaining := -1, Limit := -1 }, none) := by
  refine ⟨by decide, by decide, by decide, by decide, by decide, by decide, by decide,
    by decide, by decide, by rfl⟩

/-- Whatever the response and the integer parser, the counts `RateLimiting` reads are -1
and -1: the keys it indexes the header map with are not in canonical form. -/
theorem RateLimiting_counts_sentinel (atoi : String → Option Int) (resp : Response) :
    RateLimiting.counts atoi resp = { Remaining := -1, Limit := -1 } := by
  have h1 : resp.HeaderIndex "X-RateLimit-Remaining" = [] := by
    simp only [Response.HeaderIndex]
    rw [if_neg (by decide)]
  have h2 : resp.HeaderIndex "X-RateLimit-Limit" = [] := by
    simp only [Response.HeaderIndex]
    rw [if_neg (by decide)]
  simp only [RateLimiting.counts, h1, h2]
  split <;> rfl

/-- The returns of `RateLimiting` once the request is built: a response gives the counts
it reads with a nil error, a failure of the transport gives no counts and
`ErrRateLimitUnretrievable`. -/
theorem RateLimiting_returns (atoi : String → Option Int) (http : HTTP)
    (token : Option TokenRetriever) (req : Request)
    (hreq : RateLimiting.request http token = Res.val (Sum.inr req)) :
    (∀ resp, http.Do req = Except.ok resp →
      RateLimiting atoi http token = Res.val (some (RateLimiting.counts atoi resp), none)) ∧
    (∀ err, http.Do req = Except.error err →
      RateLimiting atoi http token = Res.val (none, some ErrRateLimitUnretrievable)) := by
  constructor
  · intro resp hdo
    simp only [RateLimiting, hreq, hdo]
  · intro err hdo
    simp only [RateLimiting, hreq, hdo]

/-! ## Theorems: equality of commit statuses -/

/-- C33: for all statuses `a` and `b`, `a.Equal(&b)` returns, and it returns true exactly
when `State`, `TargetURL`, `Description` and `Context` are pairwise equal; the relation is
reflexive, symmetric and transitive, and does not depend on `Creator`, `CreatedAt` and
`UpdatedAt` of either side. -/
theorem Equal_iff_four_fields (a b : CommitStatus) :
    (∃ v, a.Equal (some b) = Res.val v) ∧
    (a.Equal (some b) = Res.val true ↔
      a.State = b.State ∧ a.TargetURL = b.TargetURL ∧ a.Description = b.Description ∧
        a.Context = b.Context) ∧
    a.Equal (some a) = Res.val true ∧
    a.Equal (some b) = b.Equal (some a) ∧
    (∀ c : CommitStatus, a.Equal (some b) = Res.val true → b.Equal (some c) = Res.val true →
      a.Equal (some c) = Res.val true) ∧
    (∀ (creator : Option User) (createdAt updatedAt : String),
      CommitStatus.Equal { a with Creator := creator, CreatedAt := createdAt,
                                  UpdatedAt := updatedAt } (some b) = a.Equal (some b) ∧
      a.Equal (some { b with Creator := creator, CreatedAt := createdAt,
                             UpdatedAt := updatedAt }) = a.Equal (some b)) := by
  have key : ∀ x y : CommitStatus, (x.Equal (some y) = Res.val true ↔
      x.State = y.State ∧ x.TargetURL = y.TargetURL ∧ x.Description = y.Description ∧
        x.Context = y.Context) := by
    intro x y
    simp [CommitStatus.Equal, reflect.DeepEqual, CommitStatus.toDict, List.lookup]
    constructor
    · rintro ⟨h1, h2, h3, h4⟩
      exact ⟨h1.symm, h2.symm, h3.symm, h4.symm⟩
    · rintro ⟨h1, h2, h3, h4⟩
      exact ⟨h1.symm, h2.symm, h3.symm, h4.symm⟩
  have bool : ∀ x y : CommitStatus, x.Equal (some y)
      = Res.val (decide (x.State = y.State ∧ x.TargetURL = y.TargetURL ∧
          x.Description = y.Description ∧ x.Context = y.Context)) := by
    intro x y
    by_cases h : x.State = y.State ∧ x.TargetURL = y.TargetURL ∧
        x.Description = y.Description ∧ x.Context = y.Context
    · rw [(key x y).mpr h]; simp [h]
    · have hne : x.Equal (some y) ≠ Res.val true := fun hq => h ((key x y).mp hq)
      simp only [CommitStatus.Equal] at hne ⊢
      cases hv : reflect.DeepEqual x.toDict y.toDict with
      | true => rw [hv] at hne; exact absurd rfl hne
      | false => simp [h]
  refine ⟨⟨_, rfl⟩, key a b, (key a a).mpr ⟨rfl, rfl, rfl, rfl⟩, ?_, ?_, ?_⟩
  · rw [bool a b, bool b a]
    congr 1
    apply decide_eq_decide.mpr
    constructor
    · rintro ⟨h1, h2, h3, h4⟩
      exact ⟨h1.symm, h2.symm, h3.symm, h4.symm⟩
    · rintro ⟨h1, h2, h3, h4⟩
      exact ⟨h1.symm, h2.symm, h3.symm, h4.symm⟩
  · intro c hab hbc
    obtain ⟨h1, h2, h3, h4⟩ := (key a b).mp hab
    obtain ⟨k1, k2, k3, k4⟩ := (key b c).mp hbc
    exact (key a c).mpr ⟨h1.trans k1, h2.trans k2, h3.trans k3, h4.trans k4⟩
  · intro creator createdAt updatedAt
    exact ⟨rfl, rfl⟩

/-- Witness of C33: three statuses of one check that differ in creator and dates only are
equal by transitivity. -/
theorem Equal_iff_four_fields_witness :
    CommitStatus.Equal { State := "success", Context := "ci", CreatedAt := "d1" }
      (some { State := "success", Context := "ci", CreatedAt := "d3" }) = Res.val true :=
  (Equal_iff_four_fields { State := "success", Context := "ci", CreatedAt := "d1" }
      { State := "success", Context := "ci", CreatedAt := "d2" }).2.2.2.2.1
    { State := "success", Context := "ci", CreatedAt := "d3" } rfl rfl

/-! ## Theorems: the head commit of a pull request -/

/-- With a context that is never done, `HasNextWithContext` of `commitsIterator` is
`HasNext`. -/
theorem commits_HasNextWithContext_TODO {T σ : Type}
    (parseJSON : String → Option (List (Option T))) (g : PageGetter σ)
    (i : branchesIterator T) (s : σ) :
    commitsIterator.HasNextWithContext parseJSON g i s (some Context.TODO)
      = i.HasNext parseJSON g s := by
  unfold commitsIterator.HasNextWithContext branchesIterator.HasNext
  rcases h : i.NextWithContext parseJSON g s (some Context.TODO) with ⟨r, i1, s1, reqs⟩
  cases r <;> rfl

/-- When the loop over `HasNext`/`Item` ends having yielded `items`, the loop of
`HeadCommitWithContext` with a context that is never done ends in the same state, and
returns the last of `items` (the commit it started with when there is none) together with
the iterator's `Err`. -/
theorem headCommitLoop_of_drain {T σ : Type} (parseJSON : String → Option (List (Option T)))
    (g : PageGetter σ) :
    ∀ (fuel : Nat) (commit : Option T) (i : branchesIterator T) (s : σ)
      (items : List (Option T)) (iEnd : branchesIterator T) (s' : σ) (reqs : List String),
      branchesIterator.drain parseJSON g fuel i s = some (Res.val items, iEnd, s', reqs) →
      PullRequest.headCommitLoop parseJSON g (some Context.TODO) fuel commit i s
        = some (Res.val ((items.getLast?).getD commit, iEnd.Err), iEnd, s', reqs) := by
  intro fuel
  induction fuel with
  | zero =>
    intro commit i s items iEnd s' reqs h
    simp [branchesIterator.drain] at h
  | succ fuel ih =>
    intro commit i s items iEnd s' reqs h
    unfold PullRequest.headCommitLoop
    rw [commits_HasNextWithContext_TODO]
    unfold branchesIterator.drain at h
    rcases hH : i.HasNext parseJSON g s with ⟨r, i1, s1, reqs1⟩
    rw [hH] at h
    rcases r with b | _
    · cases b
      · simp only [Option.some.injEq, Prod.mk.injEq, Res.val.injEq] at h
        obtain ⟨hitems, hi, hs, hreqs⟩ := h
        subst hitems hi hs hreqs
        rfl
      · simp only [] at h ⊢
        rcases hd : branchesIterator.drain parseJSON g fuel i1 s1 with _ | ⟨r2, i2, s2, reqs2⟩
        · rw [hd] at h; cases h
        · rw [hd] at h
          rcases r2 with items2 | _
          · simp only [Option.some.injEq, Prod.mk.injEq, Res.val.injEq] at h
            obtain ⟨hitems, hi, hs, hreqs⟩ := h
            subst hitems hi hs hreqs
            rw [ih i1.Item i1 s1 items2 i2 s2 reqs2 hd]
            cases items2 with
            | nil => rfl
            | cons x rest =>
              simp only [List.getLast?_cons_cons]
              cases hl : (x :: rest).getLast? with
              | none => simp at hl
              | some v => rfl
          · simp at h
    · simp at h

/-- When the getter serves the pages of commits of a pull request in order, each without
error (the conditions of `ServesPages`), `HeadCommitWithContext` with a context that is
never done returns, given more fuel than there are commits, the last element of the
concatenation of the pages, nil when there is none, and the nil error, having requested
each page once. -/
theorem HeadCommit_of_served_pages {T σ : Type} (parseJSON : String → Option (List (Option T)))
    (g : PageGetter σ) (p : PullRequest) (s s' : σ) (pages : List (Page × List T))
    (hserve : ServesPages parseJSON g s (p.toURL ["commits"]) pages s')
    (fuel : Nat) (hfuel : (allElements pages).length < fuel) :
    PullRequest.HeadCommitWithContext parseJSON g fuel p s (some Context.TODO)
      = some (Res.val ((allElements pages).getLast?, none), s',
          requestsFor (p.toURL ["commits"]) pages) := by
  have hb : (branchesIterator.start T (p.toURL ["commits"])).AtBoundary := ⟨rfl, Or.inl rfl⟩
  have hurl : (branchesIterator.start T (p.toURL ["commits"])).it.nextURL
      = Res.val (some (p.toURL ["commits"])) := rfl
  obtain ⟨iEnd, hdrain, hEb, -⟩ :=
    drain_pages parseJSON g s' pages _ s _ hb hurl hserve fuel hfuel
  have hloop := headCommitLoop_of_drain parseJSON g fuel none _ s _ iEnd s' _ hdrain
  have hlast : (((allElements pages).map some).getLast?).getD none
      = (allElements pages).getLast? := by
    cases h : (allElements pages).getLast? with
    | none =>
      rw [List.getLast?_eq_none_iff] at h
      rw [h]; rfl
    | some v =>
      rw [List.getLast?_map, h]; rfl
  simp only [PullRequest.HeadCommitWithContext, PullRequest.Commits, hloop, Option.map_some',
    hlast, hEb.1]

/-- C34: evaluation at the failing inputs. When the request for the commits of a pull
request is answered with 404, `HeadCommitWithContext` returns the nil commit with a nil
error; when the first page of commits is `[8,9]` and the request for the second page is
answered with 404, it returns commit 9 with a nil error. In both runs the enumeration
stopped on the error of a page, and that error is not returned. -/
theorem HeadCommit_drops_page_error :
    sampleHeadCommitNotFoundRun.map (fun r => (r.1, r.2.2))
      = some (Res.val (none, none), ["https://h/pulls/1/commits"]) ∧
    sampleHeadCommitBrokenRun.map (fun r => (r.1, r.2.2))
      = some (Res.val (some 9, none),
          ["https://h/pulls/1/commits", "https://h/pulls/1/commits?page=2"]) := by
  refine ⟨by rfl, by rfl⟩

/-! ## Theorems: empty arrays written with white space -/

/-- C36: evaluation at the failing input. A first page without error whose body is `[ ]`,
or an array with two line feeds between the brackets, decodes to the empty slice; `load`
returns no error, and `NextWithContext` then reads `currentPage[0]` of the empty slice: it
panics with an index out of range, and so does `HasNext`, with `Err` nil; on the body `[]`
`HasNext` returns false with `Err` nil. -/
theorem HasNext_blank_empty_array_panics :
    sampleParseBlank "[ ]" = some [] ∧ sampleParseBlank "[\n\n]" = some [] ∧
    ((branchesIterator.start Nat "https://h/r").NextWithContext sampleParseBlank scriptedGetter
        [samplePage "https://h/r" "[ ]" ""] (some Context.TODO)).1 = Res.panic ∧
    ((branchesIterator.start Nat "https://h/r").HasNext sampleParseBlank scriptedGetter
        [samplePage "https://h/r" "[ ]" ""]).1 = Res.panic ∧
    ((branchesIterator.start Nat "https://h/r").HasNext sampleParseBlank scriptedGetter
        [samplePage "https://h/r" "[ ]" ""]).2.1.Err = none ∧
    ((branchesIterator.start Nat "https://h/r").HasNext sampleParseBlank scriptedGetter
        [samplePage "https://h/r" "[\n\n]" ""]).1 = Res.panic ∧
    ((branchesIterator.start Nat "https://h/r").HasNext sampleParseBlank scriptedGetter
        [samplePage "https://h/r" "[]" ""]).1 = Res.val false ∧
    ((branchesIterator.start Nat "https://h/r").HasNext sampleParseBlank scriptedGetter
        [samplePage "https://h/r" "[]" ""]).2.1.Err = none := by
  refine ⟨by rfl, by rfl, by rfl, by rfl, by rfl, by rfl, by rfl, by rfl⟩

/-- Whenever the page served has no error and a body, other than `""` and `[]`, that
decodes to the empty slice, the `HasNext` that fetches it panics. -/
theorem HasNext_empty_decoded_page_panics {T σ : Type}
    (parseJSON : String → Option (List (Option T))) (g : PageGetter σ)
    (i : branchesIterator T) (s s1 : σ) (url : String) (p : Page) (content : Payload)
    (hb : i.AtBoundary) (hurl : i.it.nextURL = Res.val (some url))
    (hg : g.GetWithContext s (some Context.TODO) url true = (Res.val (some p), s1))
    (herr : p.Err = none) (hcontent : p.Content = some content)
    (hd1 : content.Data ≠ "") (hd2 : content.Data ≠ "[]")
    (hparse : parseJSON content.Data = some []) :
    (i.HasNext parseJSON g s).1 = Res.panic := by
  obtain ⟨hierr, hpage⟩ := hb
  have hcond : i.currentPage.isNone = true ∨ i.currentIndex = sliceLen i.currentPage := by
    rcases hpage with h | h
    · left; simp [h]
    · right; exact h
  have hno : p.NoContent = false := by
    simp [Page.NoContent, Payload.Empty, hcontent, hd1, hd2]
  simp [branchesIterator.HasNext, branchesIterator.NextWithContext, hierr, if_pos hcond,
    branchesIterator.load, branchesIterator.nextPage, GithubPageIterator.NextWithContext, hurl,
    hg, hno, herr, hcontent, hparse, GithubPageIterator.Error, sliceIndex]

/-! ## Theorems: membership checks and the cache -/

/-- C35: evaluation at the failing input. The URL of the check has the host
`api.github.com`. Against a remote whose state does not change and that answers the
revalidation with 304, the first `IsCollaborator("alice")` on `o/n` returns true
(the fresh 204) and stores the entry with its tag; the second, whose request carries that
tag, returns false: the page of the revalidation has status 304. -/
theorem IsCollaborator_flips_on_revalidation :
    (NewRepo "o" "n").toURL ["collaborators", "alice"]
      = "https://api.github.com/repos/o/n/collaborators/alice" ∧
    url.Host "https://api.github.com/repos/o/n/collaborators/alice" = "api.github.com" ∧
    sampleCollaboratorFirst.1 = Res.val true ∧
    (sampleCollaboratorFirst.2.1.cache.get
        "urlhttps://api.github.com/repos/o/n/collaborators/alice").1.ETag = "e1" ∧
    sampleCollaboratorSecond.1 = Res.val false := by
  refine ⟨by decide, by decide, by rfl, by rfl, by rfl⟩

/-- Whenever the transport answers the request of the check with 304, `IsCollaborator`
returns false, whatever the cache holds. -/
theorem IsCollaborator_false_on_not_modified (sha1hex : String → String) (http : HTTP)
    (c : PickledCachedClient) (fs : FileSystem) (r : Repository) (login : String)
    (resp : Response) (hstatus : resp.StatusCode = 304)
    (hrt : c.roundTrip sha1hex http (some Context.TODO) (r.toURL ["collaborators", login]) true
        = Res.val (Sum.inr resp)) :
    (r.IsCollaborator sha1hex http c fs login).1 = Res.val false := by
  simp [Repository.IsCollaborator, PickledCachedClient.Get, PickledCachedClient.GetWithContext,
    hrt, PickledCachedClient.onResponse, hstatus, StatusNotModified, StatusNoContent]

/-- The URL of `IsMember` for the sample team is built by `join` and has no host: over
Go's transport the request is refused whatever the remote would answer, and a first and a
second `IsMember("alice")` both return false with the error of the transport, leaving the
client and the file system as they were. -/
theorem IsMember_refused_by_transport :
    join [sampleTeam.URL, "memberships", "alice"]
      = "https:/api.github.com/teams/1/memberships/alice" ∧
    url.Host "https:/api.github.com/teams/1/memberships/alice" = "" ∧
    (Team.IsMember sampleDigest
        (defaultTransport (fun _ => true) (revalidating 200 "active" "e1").Do)
        sampleTeam sampleFreshClient sampleFS "alice").1
      = Res.val (false, some (Error.external "http: no Host in request URL")) ∧
    (Team.IsMember sampleDigest
        (defaultTransport (fun _ => true) (revalidating 200 "active" "e1").Do) sampleTeam
        (Team.IsMember sampleDigest
          (defaultTransport (fun _ => true) (revalidating 200 "active" "e1").Do)
          sampleTeam sampleFreshClient sampleFS "alice").2.1
        (Team.IsMember sampleDigest
          (defaultTransport (fun _ => true) (revalidating 200 "active" "e1").Do)
          sampleTeam sampleFreshClient sampleFS "alice").2.2 "alice").1
      = Res.val (false, some (Error.external "http: no Host in request URL")) := by
  refine ⟨by decide, by decide, by rfl, by rfl⟩

/-! ## Theorems: URLs built with `join` -/

/-- C37: evaluation at the failing inputs. `join` cleans the joined path, which turns the
`//` after the scheme into `/`: for the issue URL `https://h/issues/1`, `Comments` starts
at `https:/h/issues/1/comments`, not at the URL followed by `/comments`, which is where
`PostComment` posts (a remote that knows only that URL answers the POST with 201);
`Team.Members` starts at `https:/api.github.com/teams/1/members`; and `Organisation`
requests `https:/api.github.com/orgs/acme`: a remote that knows only
`https://api.github.com/orgs/acme` answers it with 404. -/
theorem join_collapses_scheme_slashes :
    join ["https://h/issues/1", "comments"] = "https:/h/issues/1/comments" ∧
    (RepoIssue.Comments Nat sampleIssue).1.it.StartURL = "https:/h/issues/1/comments" ∧
    (RepoIssue.Comments Nat sampleIssue).1.it.StartURL ≠ sampleIssue.URL ++ "/comments" ∧
    sampleIssue.toURL ["comments"] = sampleIssue.URL ++ "/comments" ∧
    (sampleIssue.PostCommentWithContext sampleMarshal
        (servingOnly "https://h/issues/1/comments" (sampleResponse 201 "" "" "" ""))
        sampleFreshClient (some Context.TODO) none).1 = Res.val (201, none) ∧
    (Team.Members Nat sampleTeam).1.it.StartURL = "https:/api.github.com/teams/1/members" ∧
    join [APIURLs.URL, "orgs", "acme"] = "https:/api.github.com/orgs/acme" ∧
    (Organisation sampleParseOrg sampleDigest
        (servingOnly "https://api.github.com/orgs/acme" (sampleResponse 200 "acme" "" "" ""))
        sampleFreshClient sampleFS "acme").1 = Res.val (none, some (Error.New "Not found")) ∧
    (Organisation sampleParseOrg sampleDigest
        (servingOnly "https:/api.github.com/orgs/acme" (sampleResponse 200 "acme" "" "" ""))
        sampleFreshClient sampleFS "acme").1 = Res.val (some { Login := "acme" }, none) := by
  refine ⟨by decide, by decide, by decide, by decide, by rfl, by decide, by decide, by rfl,
    by rfl⟩

/-- The pieces of a split do not contain the separator. -/
theorem Split_pieces_free (sep : Char) :
    ∀ (l p : List Char), p ∈ strings.Split sep l → sep ∉ p := by
  intro l
  induction l with
  | nil =>
    intro p hp
    simp [strings.Split] at hp
    subst hp
    simp
  | cons c cs ih =>
    intro p hp
    rw [strings.Split] at hp
    cases hsp : strings.Split sep cs with
    | nil =>
      rw [hsp] at hp
      simp at hp
      subst hp
      simp
    | cons q qs =>
      rw [hsp] at hp
      have hq : sep ∉ q := ih q (by rw [hsp]; simp)
      have hqs : ∀ x, x ∈ qs → sep ∉ x := fun x hx => ih x (by rw [hsp]; simp [hx])
      by_cases hc : c = sep
      · simp only [hc, if_true, List.mem_cons] at hp
        rcases hp with rfl | rfl | h
        · simp
        · exact hq
        · exact hqs p h
      · simp only [hc, if_false, List.mem_cons] at hp
        rcases hp with rfl | h
        · intro hmem
          rcases List.mem_cons.mp hmem with h1 | h1
          · exact hc h1.symm
          · exact hq h1
        · exact hqs p h

/-- A text without a slash has no two slashes in a row, also with a text after it. -/
theorem hasDoubleSlash_append_free (e l : List Char) (he : '/' ∉ e) :
    hasDoubleSlash (e ++ l) = hasDoubleSlash l := by
  induction e with
  | nil => rfl
  | cons c cs ih =>
    have hc : c ≠ '/' := fun h => he (by simp [h])
    have hcs : '/' ∉ cs := fun h => he (by simp [h])
    show hasDoubleSlash (c :: (cs ++ l)) = hasDoubleSlash l
    simp [hasDoubleSlash, hc, ih hcs]

/-- Two slashes in a row stay when text is added after them. -/
theorem hasDoubleSlash_append_right (l r : List Char) (h : hasDoubleSlash l = true) :
    hasDoubleSlash (l ++ r) = true := by
  induction l with
  | nil => simp [hasDoubleSlash] at h
  | cons c cs ih =>
    simp only [hasDoubleSlash, Bool.or_eq_true, Bool.and_eq_true, decide_eq_true_eq] at h
    show hasDoubleSlash (c :: (cs ++ r)) = true
    simp only [hasDoubleSlash, Bool.or_eq_true, Bool.and_eq_true, decide_eq_true_eq]
    rcases h with ⟨h1, h2⟩ | h
    · left
      refine ⟨h1, ?_⟩
      cases cs with
      | nil => simp at h2
      | cons d ds => simpa using h2
    · right
      exact ih h

/-- The elements `Clean` keeps are never empty and contain no slash, when the elements it
meets contain none. -/
theorem cleanStep_keeps (rooted : Bool) (out : List (List Char)) (e : List Char)
    (he : '/' ∉ e) (hout : ∀ x ∈ out, x ≠ [] ∧ '/' ∉ x) :
    ∀ x ∈ filepath.cleanStep rooted out e, x ≠ [] ∧ '/' ∉ x := by
  unfold filepath.cleanStep
  split
  · exact hout
  · rename_i hne
    have hnil : e ≠ [] := fun h => hne (Or.inl h)
    split
    · cases out with
      | nil =>
        simp only []
        split
        · intro x hx
          simp at hx
        · intro x hx
          simp only [List.mem_singleton] at hx
          subst hx
          exact ⟨hnil, he⟩
      | cons last rest =>
        simp only []
        split
        · intro x hx
          rcases List.mem_cons.mp hx with rfl | h
          · exact ⟨hnil, he⟩
          · exact hout x h
        · intro x hx
          exact hout x (List.mem_cons_of_mem _ hx)
    · intro x hx
      rcases List.mem_cons.mp hx with rfl | h
      · exact ⟨hnil, he⟩
      · exact hout x h

/-- The invariant of `cleanStep` along a list of elements without slashes. -/
theorem foldl_cleanStep_keeps (rooted : Bool) :
    ∀ (pieces : List (List Char)) (out : List (List Char)),
      (∀ e ∈ pieces, '/' ∉ e) → (∀ x ∈ out, x ≠ [] ∧ '/' ∉ x) →
      ∀ x ∈ pieces.foldl (filepath.cleanStep rooted) out, x ≠ [] ∧ '/' ∉ x := by
  intro pieces
  induction pieces with
  | nil => intro out _ hout; exact hout
  | cons e rest ih =>
    intro out hp hout
    exact ih _ (fun x hx => hp x (List.mem_cons_of_mem _ hx))
      (cleanStep_keeps rooted out e (hp e (List.mem_cons_self _ _)) hout)

/-- Non-empty elements without slashes, joined by single slashes, have no two slashes in a
row and do not start with a slash. -/
theorem intercalate_no_double_slash :
    ∀ out : List (List Char), (∀ x ∈ out, x ≠ [] ∧ '/' ∉ x) →
      hasDoubleSlash (List.intercalate ['/'] out) = false ∧
      (List.intercalate ['/'] out).head? ≠ some '/' := by
  intro out
  induction out with
  | nil => intro _; simp [List.intercalate, hasDoubleSlash]
  | cons a rest ih =>
    intro h
    obtain ⟨hane, haf⟩ := h a (List.mem_cons_self _ _)
    have hrest : ∀ x ∈ rest, x ≠ [] ∧ '/' ∉ x := fun x hx => h x (List.mem_cons_of_mem _ hx)
    obtain ⟨ih1, ih2⟩ := ih hrest
    have hhead : ∀ l : List Char, (a ++ l).head? ≠ some '/' := by
      intro l
      cases a with
      | nil => exact absurd rfl hane
      | cons c cs =>
        intro hq
        simp at hq
        exact haf (by simp [hq])
    cases rest with
    | nil =>
      have hi : List.intercalate ['/'] [a] = a ++ [] := by simp [List.intercalate]
      rw [hi]
      refine ⟨?_, hhead []⟩
      rw [hasDoubleSlash_append_free a [] haf]
      rfl
    | cons b rest2 =>
      have hi : List.intercalate ['/'] (a :: b :: rest2)
          = a ++ ('/' :: List.intercalate ['/'] (b :: rest2)) := by
        simp [List.intercalate]
      rw [hi]
      refine ⟨?_, hhead _⟩
      rw [hasDoubleSlash_append_free a _ haf]
      simp only [hasDoubleSlash, ih1, Bool.or_false, Bool.and_eq_false_imp, decide_eq_true_eq,
        true_and]
      simpa using ih2

/-- The result of `filepath.Clean` never has two slashes in a row. -/
theorem Clean_no_double_slash (path : String) :
    hasDoubleSlash (filepath.Clean path).data = false := by
  unfold filepath.Clean
  split
  · decide
  · have hgood : ∀ rooted : Bool,
        ∀ x ∈ ((strings.Split '/' path.data).foldl (filepath.cleanStep rooted) []).reverse,
          x ≠ [] ∧ '/' ∉ x := by
      intro rooted x hx
      exact foldl_cleanStep_keeps rooted _ [] (fun e he => Split_pieces_free '/' _ e he)
        (fun y hy => absurd hy (List.not_mem_nil y)) x (List.mem_reverse.mp hx)
    simp only []
    split
    · obtain ⟨h1, h2⟩ := intercalate_no_double_slash _ (hgood (strings.HasPrefix path.data ['/']))
      show hasDoubleSlash ("/" ++ String.mk _).data = false
      rw [String.data_append]
      show hasDoubleSlash ('/' :: _) = false
      have h3 : (List.intercalate ['/'] ((strings.Split '/' path.data).foldl
          (filepath.cleanStep (strings.HasPrefix path.data ['/'])) []).reverse).head?
            = some '/' ↔ False := ⟨h2, False.elim⟩
      simp [hasDoubleSlash, h1, h3]
    · split
      · decide
      · exact (intercalate_no_double_slash _
          (hgood (strings.HasPrefix path.data ['/']))).1

/-- The result of `join` never has two slashes in a row: it differs from every URL that
has them, so from every URL that starts with `https://`. -/
theorem join_no_double_slash (bits : List String) :
    hasDoubleSlash (join bits).data = false := by
  unfold join filepath.Join
  split
  · decide
  · exact Clean_no_double_slash _

/-- For every URL `u` with two slashes in a row and every suffix, `join(u, suffix)` is not
`u` followed by a slash and the suffix. -/
theorem join_ne_of_double_slash (u suffix : String) (hu : hasDoubleSlash u.data = true) :
    join [u, suffix] ≠ u ++ "/" ++ suffix := by
  intro h
  have h1 := join_no_double_slash [u, suffix]
  rw [h, String.data_append, String.data_append, List.append_assoc,
    hasDoubleSlash_append_right u.data _ hu] at h1
  cases h1

end Github
